import Mathlib

/-!
Timer32Bit: a software multiplexer of one tick source into timer slots.

Shallow embedding of `Timer32Bit/Src/Timer32Bit.c` and `Timer32Bit/Inc/Timer32Bit.h`.

* The process-wide singleton `sTimerCtl` becomes an explicit value of type
  `tTIMER_CTL_32BIT` that every operation takes and returns.
* `uint8_t` / `uint32_t` fields are natural numbers.  The 8-bit tally
  `ui8ActiveTimers` is reduced modulo `2 ^ 8` at every write.  The 32-bit counters are
  only incremented below `ui32ResetValue` and only decremented above `0`, so these two
  writes cannot leave the 32-bit range and carry no reduction.
* The array `sTimerStruct[MAX_TIMER_NUMBER]` is a function from positions to slots; only
  positions below the capacity are ever read or written by the loops.
* `MAX_TIMER_NUMBER` is a compile-time constant (`10` in the header, at most `32`); the
  two loops that depend on it take the capacity as their first argument `N`.
* A callback is a nullable function pointer: `Option Nat`.  Callbacks do not touch the
  pool, so invoking one is recorded as an event `(slot position, callback)` in a log.
* Inside the module the source spells two callees `timer32BitDestruct` and
  `timer32BitSetActive`; the functions of these names that it defines are
  `Timer32BitDestruct` and `Timer32BitSetActive`, and the calls are read as calls of these.
-/

namespace Timer32Bit

/-! ## Data model (Timer32Bit.h) -/

/-- Capacity of the pool as configured in the header: `#define MAX_TIMER_NUMBER 10`. -/
def MAX_TIMER_NUMBER : Nat := 10

/-- One timer slot: the C struct `tTIMERVAR32`. -/
structure tTIMERVAR32 where
  /-- Single timer execution flag. -/
  bOneShot : Bool
  /-- Timer counting flag. -/
  bActive : Bool
  /-- Direction: true for an up-counter, false for a down-counter. -/
  bUpCounter : Bool
  /-- Timer index value (`uint8_t`). -/
  ui8Index : Nat
  /-- Reset value / maximum counter value (`uint32_t`). -/
  ui32ResetValue : Nat
  /-- Current timer value (`uint32_t`). -/
  ui32TimerVal : Nat
  /-- Callback, `none` for the C `NULL`. -/
  pfnTimer_cb : Option Nat
  deriving DecidableEq

/-- Initialiser `tTIMERVAR32_DEFAULTS`: `{false, false, false, 0, 0, 0, NULL}`. -/
def tTIMERVAR32_DEFAULTS : tTIMERVAR32 :=
  { bOneShot := false, bActive := false, bUpCounter := false, ui8Index := 0,
    ui32ResetValue := 0, ui32TimerVal := 0, pfnTimer_cb := none }

/-- Timer control structure: the C struct `tTIMER_CTL_32BIT`. -/
structure tTIMER_CTL_32BIT where
  /-- Bit `i` set: position `i` is unused (`uint32_t`). -/
  ui32FreeIndices : Nat
  /-- Tally of active timers (`uint8_t`). -/
  ui8ActiveTimers : Nat
  /-- The slot array `sTimerStruct[MAX_TIMER_NUMBER]`. -/
  sTimerStruct : Nat → tTIMERVAR32

/-- Initialiser `tTIMER_32BIT_CTL_DEFAULTS`: `{0xFFFFFFFF, 0, {tTIMERVAR32_DEFAULTS}}`.
The first slot is given explicitly, the remaining ones are zero-initialised by C, which is
the same value. -/
def tTIMER_32BIT_CTL_DEFAULTS : tTIMER_CTL_32BIT :=
  { ui32FreeIndices := 0xFFFFFFFF, ui8ActiveTimers := 0,
    sTimerStruct := fun _ => tTIMERVAR32_DEFAULTS }

/-- Array write `a[i] = t`. -/
def setSlot (a : Nat → tTIMERVAR32) (i : Nat) (t : tTIMERVAR32) : Nat → tTIMERVAR32 :=
  fun j => if j = i then t else a j

/-- The test `sTimerCtl.ui32FreeIndices & (1 << i)` used by both loops. -/
def isFree (s : tTIMER_CTL_32BIT) (i : Nat) : Bool :=
  (s.ui32FreeIndices &&& (1 <<< i)) != 0

/-- Conversion of a `uint8_t` value to `int8_t`: values from 128 on become negative. -/
def toInt8 (n : Nat) : Int :=
  if n % 256 < 128 then ((n % 256 : Nat) : Int) else ((n % 256 : Nat) : Int) - 256

/-- An invoked callback: the slot position it was bound to and the callback itself. -/
abbrev Event := Nat × Nat

/-! ## Operations (Timer32Bit.c) -/

/-- `Timer32BitSetActive` (lines 163-173): remember the old flag, write the new one, add
`bActiveOld ? -((uint8_t)(!bActive)) : (uint8_t)bActive` to the 8-bit tally. -/
def Timer32BitSetActive (s : tTIMER_CTL_32BIT) (ui8Index : Nat) (bActive : Bool) :
    tTIMER_CTL_32BIT :=
  let bActiveOld := (s.sTimerStruct ui8Index).bActive
  let delta : Int :=
    if bActiveOld then -(if !bActive then 1 else 0) else (if bActive then 1 else 0)
  { ui32FreeIndices := s.ui32FreeIndices
    ui8ActiveTimers := (((s.ui8ActiveTimers : Int) + delta) % 256).toNat
    sTimerStruct :=
      setSlot s.sTimerStruct ui8Index { s.sTimerStruct ui8Index with bActive := bActive } }

/-- `Timer32BitDestruct` (lines 151-158): set the free bit, then force the slot inactive
through `Timer32BitSetActive`. -/
def Timer32BitDestruct (s : tTIMER_CTL_32BIT) (ui8Index : Nat) : tTIMER_CTL_32BIT :=
  Timer32BitSetActive
    { s with ui32FreeIndices := s.ui32FreeIndices ||| (1 <<< ui8Index) } ui8Index false

/-- `Timer32BitSetValue` (lines 178-193): an up-counter gets the new reset value and
restarts at 0, a down-counter gets the new current value; then `Timer32BitSetActive`. -/
def Timer32BitSetValue (s : tTIMER_CTL_32BIT) (ui8Index : Nat) (bActive : Bool)
    (ui32TimerVal : Nat) : tTIMER_CTL_32BIT :=
  let pTimer := s.sTimerStruct ui8Index
  let pTimer1 :=
    if pTimer.bUpCounter then
      { pTimer with ui32ResetValue := ui32TimerVal, ui32TimerVal := 0 }
    else
      { pTimer with ui32TimerVal := ui32TimerVal }
  Timer32BitSetActive { s with sTimerStruct := setSlot s.sTimerStruct ui8Index pTimer1 }
    ui8Index bActive

/-- The install branch of `AppendTimer32Bit` (lines 128-140) at position `c`: copy the
configuration, clear the free bit, stamp the index, count the timer if it is active. -/
def appendInstall (sTimerConf : tTIMERVAR32) (s : tTIMER_CTL_32BIT) (c : Nat) :
    tTIMER_CTL_32BIT :=
  let slots1 := setSlot s.sTimerStruct c sTimerConf
  let free1 := s.ui32FreeIndices &&& (0xFFFFFFFF ^^^ (1 <<< c))
  let slots2 := setSlot slots1 c { slots1 c with ui8Index := c }
  { ui32FreeIndices := free1
    ui8ActiveTimers :=
      if (slots2 c).bActive = true then (s.ui8ActiveTimers + 1) % 256 else s.ui8ActiveTimers
    sTimerStruct := slots2 }

/-- The `for` loop of `AppendTimer32Bit` (lines 121-144), started at `ui8Counter = c`.
Every iteration increments `ui8Counter`, so `N - c` units of fuel are enough
(`appendLoop_fuel`).  The result is the new pool and `returnVal`. -/
def appendLoop (N : Nat) (sTimerConf : tTIMERVAR32) :
    Nat → Nat → tTIMER_CTL_32BIT → tTIMER_CTL_32BIT × Int
  | 0, _, s => (s, -1)
  | fuel + 1, c, s =>
    if c < N then
      if !(isFree s c) then appendLoop N sTimerConf fuel (c + 1) s
      else (appendInstall sTimerConf s c, toInt8 c)
    else (s, -1)

/-- `AppendTimer32Bit` (lines 115-146). -/
def AppendTimer32Bit (N : Nat) (sTimerConf : tTIMERVAR32) (s : tTIMER_CTL_32BIT) :
    tTIMER_CTL_32BIT × Int :=
  appendLoop N sTimerConf N 0 s

/-- Counter handling of `Timer32BitExecute` (lines 67-88) on one slot: the slot with its
new counter value, and the value of `bTimerFinished`. -/
def tickCounter (t : tTIMERVAR32) : tTIMERVAR32 × Bool :=
  if t.bUpCounter then
    let t1 :=
      if t.ui32TimerVal < t.ui32ResetValue then { t with ui32TimerVal := t.ui32TimerVal + 1 }
      else t
    if t1.ui32TimerVal = t1.ui32ResetValue then ({ t1 with ui32TimerVal := 0 }, true)
    else (t1, false)
  else
    let t1 :=
      if t.ui32TimerVal > 0 then { t with ui32TimerVal := t.ui32TimerVal - 1 } else t
    if t1.ui32TimerVal = 0 then ({ t1 with ui32TimerVal := t1.ui32ResetValue }, true)
    else (t1, false)

/-- One pass through the loop body of `Timer32BitExecute` for a position that is not
skipped (lines 67-105): advance the counter; on expiry destruct a one-shot timer first and
then invoke the callback if it is not `NULL`. -/
def executeBody (s : tTIMER_CTL_32BIT) (idx : Nat) (log : List Event) :
    tTIMER_CTL_32BIT × List Event :=
  let r := tickCounter (s.sTimerStruct idx)
  let s1 : tTIMER_CTL_32BIT := { s with sTimerStruct := setSlot s.sTimerStruct idx r.1 }
  if r.2 = true then
    let s2 := if (s1.sTimerStruct idx).bOneShot = true then Timer32BitDestruct s1 idx else s1
    match (s2.sTimerStruct idx).pfnTimer_cb with
    | some cb => (s2, log ++ [(idx, cb)])
    | none => (s2, log)
  else (s1, log)

/-- The `while` loop of `Timer32BitExecute` (lines 52-109) from `ui8CurrentIndex = idx`
with the local countdown `i8ActiveTimers = cnt`.  Every iteration increments
`ui8CurrentIndex`, so `N - idx` units of fuel are enough (`executeLoop_fuel`). -/
def executeLoop (N : Nat) :
    Nat → Nat → Int → tTIMER_CTL_32BIT → List Event → tTIMER_CTL_32BIT × List Event
  | 0, _, _, s, log => (s, log)
  | fuel + 1, idx, cnt, s, log =>
    if 0 < cnt ∧ idx < N then
      if isFree s idx || (s.sTimerStruct idx).bActive == false then
        executeLoop N fuel (idx + 1) cnt s log
      else
        let r := executeBody s idx log
        executeLoop N fuel (idx + 1) (cnt - 1) r.1 r.2
    else (s, log)

/-- `Timer32BitExecute` (lines 42-110): the new pool and the callbacks invoked, in order. -/
def Timer32BitExecute (N : Nat) (s : tTIMER_CTL_32BIT) : tTIMER_CTL_32BIT × List Event :=
  executeLoop N N 0 (toInt8 s.ui8ActiveTimers) s []

/-! ## Notions used in the statements -/

/-- Position `j` is allocated (free bit clear) and its timer is active. -/
def liveActive (s : tTIMER_CTL_32BIT) (j : Nat) : Bool :=
  !(s.ui32FreeIndices.testBit j) && (s.sTimerStruct j).bActive

/-- Number of positions below `N` that are allocated and active. -/
def countLiveActive (N : Nat) (s : tTIMER_CTL_32BIT) : Nat :=
  (List.range N).countP (liveActive s)

/-- The ActiveCount invariant: the tally equals the number of allocated active slots. -/
def ActiveCountInv (N : Nat) (s : tTIMER_CTL_32BIT) : Prop :=
  s.ui8ActiveTimers = countLiveActive N s

instance (N : Nat) (s : tTIMER_CTL_32BIT) : Decidable (ActiveCountInv N s) := by
  unfold ActiveCountInv; infer_instance

/-- Counter-range invariant: every allocated slot has its counter at most its reset
value. -/
def RangeInv (N : Nat) (s : tTIMER_CTL_32BIT) : Prop :=
  ∀ j, j < N → s.ui32FreeIndices.testBit j = false →
    (s.sTimerStruct j).ui32TimerVal ≤ (s.sTimerStruct j).ui32ResetValue

instance (N : Nat) (s : tTIMER_CTL_32BIT) : Decidable (RangeInv N s) := by
  unfold RangeInv; infer_instance

/-- The callbacks of position `i` invoked by one call of `Timer32BitExecute`. -/
def firedFor (i : Nat) (log : List Event) : List Event :=
  log.filter (fun e => e.1 == i)

/-- The pool after `n` consecutive calls of `Timer32BitExecute`. -/
def executeN (N : Nat) : Nat → tTIMER_CTL_32BIT → tTIMER_CTL_32BIT
  | 0, s => s
  | n + 1, s => (Timer32BitExecute N (executeN N n s)).1

/-- The callbacks invoked during the `k`-th of consecutive calls of `Timer32BitExecute`
(`k = 1, 2, ...`). -/
def callLog (N : Nat) (s : tTIMER_CTL_32BIT) (k : Nat) : List Event :=
  (Timer32BitExecute N (executeN N (k - 1) s)).2

/-- Number of callbacks of position `i` invoked during the first `n` of consecutive calls
of `Timer32BitExecute`. -/
def totalFired (N : Nat) (s : tTIMER_CTL_32BIT) (i : Nat) : Nat → Nat
  | 0 => 0
  | n + 1 => totalFired N s i n + (firedFor i (callLog N s (n + 1))).length

/-- Consecutive appends, one per configuration: the final pool and the returned values. -/
def appendAll (N : Nat) : List tTIMERVAR32 → tTIMER_CTL_32BIT → tTIMER_CTL_32BIT × List Int
  | [], s => (s, [])
  | conf :: confs, s =>
    ((appendAll N confs (AppendTimer32Bit N conf s).1).1,
      (AppendTimer32Bit N conf s).2 :: (appendAll N confs (AppendTimer32Bit N conf s).1).2)

/-! ## Sequences of calls of the public operations -/

/-- A call of one of the five public operations. -/
inductive Op where
  | append (conf : tTIMERVAR32)
  | destruct (i : Nat)
  | setActive (i : Nat) (a : Bool)
  | setValue (i : Nat) (a : Bool) (v : Nat)
  | execute

/-- The pool together with the indices that `AppendTimer32Bit` has returned and that have
not been reclaimed since, neither by `Timer32BitDestruct` nor by a one-shot expiry. -/
structure Sys where
  /-- The timer pool. -/
  pool : tTIMER_CTL_32BIT
  /-- The indices handed out and not yet reclaimed. -/
  handles : List Nat

/-- The pool at start-up, with no index handed out. -/
def initSys : Sys := { pool := tTIMER_32BIT_CTL_DEFAULTS, handles := [] }

/-- One call: the operation acts on the pool; a successful append hands out its result, a
destruct takes the index back, an execute takes back the one-shot timers it reclaimed. -/
def Sys.step (N : Nat) (σ : Sys) : Op → Sys
  | Op.append conf =>
    { pool := (AppendTimer32Bit N conf σ.pool).1
      handles :=
        if (AppendTimer32Bit N conf σ.pool).2 = -1 then σ.handles
        else (AppendTimer32Bit N conf σ.pool).2.toNat :: σ.handles }
  | Op.destruct i =>
    { pool := Timer32BitDestruct σ.pool i, handles := σ.handles.filter (fun j => j != i) }
  | Op.setActive i a => { pool := Timer32BitSetActive σ.pool i a, handles := σ.handles }
  | Op.setValue i a v => { pool := Timer32BitSetValue σ.pool i a v, handles := σ.handles }
  | Op.execute =>
    { pool := (Timer32BitExecute N σ.pool).1
      handles := σ.handles.filter (fun j => !(isFree (Timer32BitExecute N σ.pool).1 j)) }

/-- The index argument of the call, if it has one, is a handle that is still valid. -/
def Op.admissible (σ : Sys) : Op → Bool
  | Op.append _ => true
  | Op.destruct i => decide (i ∈ σ.handles)
  | Op.setActive i _ => decide (i ∈ σ.handles)
  | Op.setValue i _ _ => decide (i ∈ σ.handles)
  | Op.execute => true

/-- The state after a sequence of calls. -/
def Sys.run (N : Nat) : Sys → List Op → Sys
  | σ, [] => σ
  | σ, op :: ops => Sys.run N (σ.step N op) ops

/-- Every call of the sequence is admissible in the state in which it is made. -/
def Admissible (N : Nat) : Sys → List Op → Bool
  | _, [] => true
  | σ, op :: ops => op.admissible σ && Admissible N (σ.step N op) ops

/-- The tally is right and the handles are exactly the allocated positions. -/
def Sys.Good (N : Nat) (σ : Sys) : Prop :=
  ActiveCountInv N σ.pool ∧
    ∀ i, i ∈ σ.handles ↔ (i < N ∧ σ.pool.ui32FreeIndices.testBit i = false)

/-! ## Notions used in the proofs -/

/-- The slot as one non-skipped pass leaves it: counter advanced, and deactivated when a
one-shot timer expired. -/
def slotAfterTick (t : tTIMERVAR32) : tTIMERVAR32 :=
  if (tickCounter t).2 = true ∧ t.bOneShot = true then
    { (tickCounter t).1 with bActive := false }
  else (tickCounter t).1

/-- The callback invocations of one non-skipped pass over position `idx`. -/
def slotEvents (idx : Nat) (t : tTIMERVAR32) : List Event :=
  if (tickCounter t).2 = true then
    match t.pfnTimer_cb with
    | some cb => [(idx, cb)]
    | none => []
  else []

/-- Effect of the walk on a visited position: processed when allocated and active. -/
def procSlot (s : tTIMER_CTL_32BIT) (j : Nat) : tTIMERVAR32 :=
  if liveActive s j = true then slotAfterTick (s.sTimerStruct j) else s.sTimerStruct j

/-- Callbacks invoked for a visited position. -/
def evOf (s : tTIMER_CTL_32BIT) (j : Nat) : List Event :=
  if liveActive s j = true then slotEvents j (s.sTimerStruct j) else []

/-- A visited position is reclaimed: allocated, active, expired and one-shot. -/
def reclaimed (s : tTIMER_CTL_32BIT) (j : Nat) : Bool :=
  liveActive s j && (tickCounter (s.sTimerStruct j)).2 && (s.sTimerStruct j).bOneShot

/-- Callbacks invoked over the positions `idx, ..., idx + k - 1`, in ascending order. -/
def eventsRange (s : tTIMER_CTL_32BIT) : Nat → Nat → List Event
  | _, 0 => []
  | idx, k + 1 => evOf s idx ++ eventsRange s (idx + 1) k

/-- Number of allocated active positions among `idx, ..., idx + k - 1`. -/
def countRange (s : tTIMER_CTL_32BIT) : Nat → Nat → Nat
  | _, 0 => 0
  | idx, k + 1 => (if liveActive s idx = true then 1 else 0) + countRange s (idx + 1) k

/-- Two pools with the same slots and free bits from position `a` on. -/
def AgreeFrom (a : Nat) (s s' : tTIMER_CTL_32BIT) : Prop :=
  ∀ j, a ≤ j → s'.sTimerStruct j = s.sTimerStruct j ∧
    s'.ui32FreeIndices.testBit j = s.ui32FreeIndices.testBit j

/-- The pool after the counter writes of `Timer32BitSetValue` (lines 183-189), before the
final call of `Timer32BitSetActive`. -/
def valueWritten (s : tTIMER_CTL_32BIT) (i v : Nat) : tTIMER_CTL_32BIT :=
  { s with
    sTimerStruct :=
      setSlot s.sTimerStruct i
        (if (s.sTimerStruct i).bUpCounter = true then
          { s.sTimerStruct i with ui32ResetValue := v, ui32TimerVal := 0 }
        else { s.sTimerStruct i with ui32TimerVal := v }) }

/-- The counter value of a timer with reset value `R`, armed at its natural start, after
`n` ticks: `n mod R` counting up, `R - n mod R` counting down. -/
def phaseVal (up : Bool) (R n : Nat) : Nat :=
  if up = true then n % R else R - n % R

/-! ## Concrete pools and call sequences -/

/-- An active configuration with every other field at its default. -/
def activeConf : tTIMERVAR32 := { tTIMERVAR32_DEFAULTS with bActive := true }

/-- The start-up pool with the 8-bit tally at its largest value. -/
def wrapPool : tTIMER_CTL_32BIT := { tTIMER_32BIT_CTL_DEFAULTS with ui8ActiveTimers := 255 }

/-- A sequence of calls that uses every operation. -/
def sampleOps : List Op :=
  [Op.append { activeConf with bOneShot := true, ui32ResetValue := 1, ui32TimerVal := 1 },
   Op.append { activeConf with bUpCounter := true, ui32ResetValue := 2 },
   Op.setActive 1 false, Op.setValue 1 true 3, Op.execute, Op.append activeConf,
   Op.destruct 1, Op.execute]

/-- A pool with one allocated, active, periodic up-counter with reset value 1 and no
callback. -/
def nullCbPool : tTIMER_CTL_32BIT :=
  (AppendTimer32Bit MAX_TIMER_NUMBER
    { activeConf with bUpCounter := true, ui32ResetValue := 1 } tTIMER_32BIT_CTL_DEFAULTS).1

/-- A pool with a periodic down-counter (reset value 3, callback 7) at position 0 and a
one-shot up-counter (reset value 2, callback 8) at position 1, both armed and active. -/
def twoTimerPool : tTIMER_CTL_32BIT :=
  (AppendTimer32Bit MAX_TIMER_NUMBER
    { activeConf with bOneShot := true, bUpCounter := true, ui32ResetValue := 2,
                      pfnTimer_cb := some 8 }
    (AppendTimer32Bit MAX_TIMER_NUMBER
      { activeConf with ui32ResetValue := 3, ui32TimerVal := 3, pfnTimer_cb := some 7 }
      tTIMER_32BIT_CTL_DEFAULTS).1).1

/-- Two appends followed by the destruct of the first handle: position 0 is free again and
position 1 is still allocated. -/
def reuseOps : List Op := [Op.append activeConf, Op.append activeConf, Op.destruct 0]

/-- A pool with one allocated, active down-counter at position 0, reset value 3, armed. -/
def downPool : tTIMER_CTL_32BIT :=
  (AppendTimer32Bit MAX_TIMER_NUMBER
    { activeConf with ui32ResetValue := 3, ui32TimerVal := 3 } tTIMER_32BIT_CTL_DEFAULTS).1

/-! ## Notions and concrete pools for the later claims -/

/-- The reference executor of the early-exit equivalence: it scans all positions below `N`
and applies the loop body of `Timer32BitExecute` to every position that is allocated and
active, with no countdown and no early exit. -/
def naiveLoop (N : Nat) :
    Nat → Nat → tTIMER_CTL_32BIT → List Event → tTIMER_CTL_32BIT × List Event
  | 0, _, s, log => (s, log)
  | fuel + 1, idx, s, log =>
    if idx < N then
      if isFree s idx || (s.sTimerStruct idx).bActive == false then
        naiveLoop N fuel (idx + 1) s log
      else
        naiveLoop N fuel (idx + 1) (executeBody s idx log).1 (executeBody s idx log).2
    else (s, log)

/-- The reference executor on a whole pool. -/
def naiveExecute (N : Nat) (s : tTIMER_CTL_32BIT) : tTIMER_CTL_32BIT × List Event :=
  naiveLoop N N 0 s []

/-- Number of positions among `idx, ..., idx + k - 1` whose free bit is clear in `s` and set
in `r`. -/
def newlyFreed (s r : tTIMER_CTL_32BIT) : Nat → Nat → Nat
  | _, 0 => 0
  | idx, k + 1 =>
    (if (!(s.ui32FreeIndices.testBit idx) && r.ui32FreeIndices.testBit idx) = true then 1
     else 0) + newlyFreed s r (idx + 1) k

/-- A pool whose position 0 holds an allocated active timer while the tally is 0. -/
def zeroTallyPool : tTIMER_CTL_32BIT := { nullCbPool with ui8ActiveTimers := 0 }

/-- A pool whose position 0 holds an allocated, active up-counter with a bound callback
whose counter 5 is above its reset value 3, as `AppendTimer32Bit` installs it. -/
def stuckPool : tTIMER_CTL_32BIT :=
  (AppendTimer32Bit MAX_TIMER_NUMBER
    { activeConf with bUpCounter := true, ui32ResetValue := 3, ui32TimerVal := 5,
                      pfnTimer_cb := some 9 } tTIMER_32BIT_CTL_DEFAULTS).1

/-- A pool whose position 0 holds an allocated, active, periodic down-counter with reset
value 0, counter 0 and no callback. -/
def degenerateNullPool : tTIMER_CTL_32BIT :=
  (AppendTimer32Bit MAX_TIMER_NUMBER activeConf tTIMER_32BIT_CTL_DEFAULTS).1

/-- A pool whose position 0 holds an allocated, active, periodic up-counter with reset
value 0, counter 0 and callback 4. -/
def degeneratePool : tTIMER_CTL_32BIT :=
  (AppendTimer32Bit MAX_TIMER_NUMBER
    { activeConf with bUpCounter := true, pfnTimer_cb := some 4 } tTIMER_32BIT_CTL_DEFAULTS).1

/-- Configuration A of the capacity-2 scenario: a down-counter with reset value 3, active,
callback `cb`, every other field (the counter included) at its default. -/
def scenarioA (cb : Nat) : tTIMERVAR32 :=
  { tTIMERVAR32_DEFAULTS with bActive := true, ui32ResetValue := 3, pfnTimer_cb := some cb }

/-- Configuration A armed at its natural start: the counter is the reset value 3. -/
def scenarioArmedA (cb : Nat) : tTIMERVAR32 := { scenarioA cb with ui32TimerVal := 3 }

/-- Configuration B of the capacity-2 scenario: an up-counter with reset value 3, active,
callback `cb`, every other field at its default. -/
def scenarioB (cb : Nat) : tTIMERVAR32 :=
  { tTIMERVAR32_DEFAULTS with bActive := true, bUpCounter := true, ui32ResetValue := 3,
                              pfnTimer_cb := some cb }

/-- The capacity-2 pool after the append of `confA` and then of `scenarioB cbB`. -/
def scenarioPool (confA : tTIMERVAR32) (cbB : Nat) : tTIMER_CTL_32BIT :=
  (AppendTimer32Bit 2 (scenarioB cbB)
    (AppendTimer32Bit 2 confA tTIMER_32BIT_CTL_DEFAULTS).1).1

/-- A pool with one allocated, active, periodic down-counter at position 0 with reset
value 3, armed at 3, and callback 7. -/
def downCbPool : tTIMER_CTL_32BIT :=
  (AppendTimer32Bit MAX_TIMER_NUMBER
    { activeConf with ui32ResetValue := 3, ui32TimerVal := 3, pfnTimer_cb := some 7 }
    tTIMER_32BIT_CTL_DEFAULTS).1

/-! ## Bit-level facts about the free mask -/

theorem isFree_eq_testBit (s : tTIMER_CTL_32BIT) (i : Nat) :
    isFree s i = s.ui32FreeIndices.testBit i := by
  unfold isFree
  rw [Nat.one_shiftLeft, Nat.and_two_pow]
  cases h : s.ui32FreeIndices.testBit i
  · simp
  · simp

theorem testBit_setBit (m i j : Nat) :
    (m ||| (1 <<< i)).testBit j = (m.testBit j || decide (i = j)) := by
  rw [Nat.testBit_or, Nat.one_shiftLeft, Nat.testBit_two_pow]

theorem testBit_clearBit (m i j : Nat) (hj : j < 32) :
    (m &&& (0xFFFFFFFF ^^^ (1 <<< i))).testBit j = (m.testBit j && !decide (i = j)) := by
  have h32 : (0xFFFFFFFF : Nat) = 2 ^ 32 - 1 := by decide
  rw [Nat.testBit_and, Nat.testBit_xor, Nat.one_shiftLeft, Nat.testBit_two_pow, h32,
    Nat.testBit_two_pow_sub_one]
  simp [hj]

/-! ## Counting allocated active slots -/

theorem countP_range_update (p q : Nat → Bool) (i : Nat) :
    ∀ n, (∀ j, j < n → j ≠ i → q j = p j) →
      (List.range n).countP q + (if i < n ∧ p i = true then 1 else 0)
        = (List.range n).countP p + (if i < n ∧ q i = true then 1 else 0) := by
  intro n
  induction n with
  | zero => intro _; simp
  | succ n ih =>
    intro h
    have ih1 := ih (fun j hj hne => h j (Nat.lt_succ_of_lt hj) hne)
    rw [List.range_succ, List.countP_append, List.countP_append]
    simp only [List.countP_cons, List.countP_nil, Nat.zero_add]
    by_cases hin : i = n
    · subst hin
      simp only [Nat.lt_irrefl, false_and, if_false, Nat.add_zero] at ih1
      simp only [Nat.lt_succ_self, true_and]
      rw [ih1]
      cases p i <;> cases q i <;> simp
    · have hq : q n = p n := h n (Nat.lt_succ_self n) (fun e => hin e.symm)
      have e1 : (i < n + 1) ↔ (i < n) := by omega
      simp only [hq, e1]
      omega

theorem countP_range_le (p : Nat → Bool) (n : Nat) : (List.range n).countP p ≤ n := by
  have := List.countP_le_length p (l := List.range n)
  simpa using this

theorem countP_range_pos (p : Nat → Bool) (n i : Nat) (hi : i < n) (hp : p i = true) :
    0 < (List.range n).countP p := by
  apply List.countP_pos_iff.mpr
  exact ⟨i, List.mem_range.mpr hi, hp⟩

theorem countP_range_lt (p : Nat → Bool) (n i : Nat) (hi : i < n) (hp : p i = false) :
    (List.range n).countP p < n := by
  have h := countP_range_update p (fun j => if j = i then true else p j) i n
    (fun j _ hne => by simp [hne])
  have h2 := countP_range_le (fun j => if j = i then true else p j) n
  simp only [hi, hp, true_and, if_true, Bool.false_eq_true, if_false] at h
  omega

/-! ## Field-level effect of the mutators -/

theorem setSlot_same (a : Nat → tTIMERVAR32) (i : Nat) (t : tTIMERVAR32) :
    setSlot a i t i = t := by
  simp [setSlot]

theorem setSlot_other (a : Nat → tTIMERVAR32) (i j : Nat) (t : tTIMERVAR32) (h : j ≠ i) :
    setSlot a i t j = a j := by
  simp [setSlot, h]

theorem setActive_free (s : tTIMER_CTL_32BIT) (i : Nat) (a : Bool) :
    (Timer32BitSetActive s i a).ui32FreeIndices = s.ui32FreeIndices := rfl

theorem setActive_slot_same (s : tTIMER_CTL_32BIT) (i : Nat) (a : Bool) :
    (Timer32BitSetActive s i a).sTimerStruct i = { s.sTimerStruct i with bActive := a } := by
  simp [Timer32BitSetActive, setSlot]

theorem setActive_slot_other (s : tTIMER_CTL_32BIT) (i j : Nat) (a : Bool) (h : j ≠ i) :
    (Timer32BitSetActive s i a).sTimerStruct j = s.sTimerStruct j := by
  simp [Timer32BitSetActive, setSlot, h]

theorem setActive_count (s : tTIMER_CTL_32BIT) (i : Nat) (a : Bool) :
    ((Timer32BitSetActive s i a).ui8ActiveTimers : Int)
      = ((s.ui8ActiveTimers : Int)
          + (if (s.sTimerStruct i).bActive = false ∧ a = true then 1
             else if (s.sTimerStruct i).bActive = true ∧ a = false then -1 else 0)) % 256 := by
  unfold Timer32BitSetActive
  cases h : (s.sTimerStruct i).bActive <;> cases a <;> simp <;> omega

theorem destruct_free (s : tTIMER_CTL_32BIT) (i : Nat) :
    (Timer32BitDestruct s i).ui32FreeIndices = s.ui32FreeIndices ||| (1 <<< i) := rfl

theorem destruct_slot_same (s : tTIMER_CTL_32BIT) (i : Nat) :
    (Timer32BitDestruct s i).sTimerStruct i = { s.sTimerStruct i with bActive := false } := by
  simp [Timer32BitDestruct, Timer32BitSetActive, setSlot]

theorem destruct_slot_other (s : tTIMER_CTL_32BIT) (i j : Nat) (h : j ≠ i) :
    (Timer32BitDestruct s i).sTimerStruct j = s.sTimerStruct j := by
  simp [Timer32BitDestruct, Timer32BitSetActive, setSlot, h]

theorem destruct_count (s : tTIMER_CTL_32BIT) (i : Nat) :
    ((Timer32BitDestruct s i).ui8ActiveTimers : Int)
      = ((s.ui8ActiveTimers : Int)
          + (if (s.sTimerStruct i).bActive = true then -1 else 0)) % 256 := by
  unfold Timer32BitDestruct Timer32BitSetActive
  cases h : (s.sTimerStruct i).bActive <;> simp [h] <;> omega

theorem toInt8_small (c : Nat) (h : c < 128) : toInt8 c = (c : Int) := by
  unfold toInt8
  have h1 : c % 256 = c := Nat.mod_eq_of_lt (by omega)
  rw [h1]; simp [h]

/-! ## The scan of AppendTimer32Bit -/

/-- Enough fuel: with at least `N - c` units the scan does not depend on the fuel. -/
theorem appendLoop_fuel (N : Nat) (conf : tTIMERVAR32) :
    ∀ (fuel c : Nat) (s : tTIMER_CTL_32BIT), N - c ≤ fuel →
      appendLoop N conf fuel c s = appendLoop N conf (N - c) c s := by
  intro fuel
  induction fuel with
  | zero =>
    intro c s h
    have : N - c = 0 := by omega
    rw [this]
  | succ fuel ih =>
    intro c s h
    by_cases hc : c < N
    · obtain ⟨m, hm⟩ : ∃ m, N - c = m + 1 := ⟨N - c - 1, by omega⟩
      rw [hm]
      simp only [appendLoop, hc, if_true]
      by_cases hf : isFree s c = true
      · simp [hf]
      · simp only [hf, Bool.not_false, if_true]
        have e : m = N - (c + 1) := by omega
        rw [ih (c + 1) s (by omega), e]
    · have h0 : N - c = 0 := by omega
      rw [h0]
      simp [appendLoop, hc]

theorem appendLoop_none (N : Nat) (conf : tTIMERVAR32) :
    ∀ (fuel c : Nat) (s : tTIMER_CTL_32BIT),
      (∀ j, c ≤ j → j < N → s.ui32FreeIndices.testBit j = false) →
      appendLoop N conf fuel c s = (s, -1) := by
  intro fuel
  induction fuel with
  | zero => intro c s _; rfl
  | succ fuel ih =>
    intro c s h
    by_cases hc : c < N
    · have hf : isFree s c = false := by rw [isFree_eq_testBit]; exact h c (Nat.le_refl c) hc
      simp only [appendLoop, hc, if_true, hf, Bool.not_false]
      exact ih (c + 1) s (fun j hj hjN => h j (by omega) hjN)
    · simp [appendLoop, hc]

theorem appendLoop_some (N : Nat) (conf : tTIMERVAR32) :
    ∀ (fuel c i : Nat) (s : tTIMER_CTL_32BIT), c ≤ i → i < N → i < c + fuel →
      s.ui32FreeIndices.testBit i = true →
      (∀ j, c ≤ j → j < i → s.ui32FreeIndices.testBit j = false) →
      appendLoop N conf fuel c s = (appendInstall conf s i, toInt8 i) := by
  intro fuel
  induction fuel with
  | zero => intro c i s h1 _ h3; omega
  | succ fuel ih =>
    intro c i s h1 h2 h3 hi hlow
    have hc : c < N := by omega
    by_cases hci : c = i
    · subst hci
      have hf : isFree s c = true := by rw [isFree_eq_testBit]; exact hi
      simp [appendLoop, hc, hf]
    · have hf : isFree s c = false := by
        rw [isFree_eq_testBit]; exact hlow c (Nat.le_refl c) (by omega)
      simp only [appendLoop, hc, if_true, hf, Bool.not_false]
      exact ih (c + 1) i s (by omega) h2 (by omega) hi (fun j hj hji => hlow j (by omega) hji)

theorem append_none (N : Nat) (conf : tTIMERVAR32) (s : tTIMER_CTL_32BIT)
    (h : ∀ j, j < N → s.ui32FreeIndices.testBit j = false) :
    AppendTimer32Bit N conf s = (s, -1) :=
  appendLoop_none N conf N 0 s (fun j _ hj => h j hj)

theorem append_some (N : Nat) (conf : tTIMERVAR32) (s : tTIMER_CTL_32BIT) (i : Nat)
    (hi : i < N) (hfree : s.ui32FreeIndices.testBit i = true)
    (hlow : ∀ j, j < i → s.ui32FreeIndices.testBit j = false) :
    AppendTimer32Bit N conf s = (appendInstall conf s i, toInt8 i) :=
  appendLoop_some N conf N 0 i s (Nat.zero_le i) hi (by omega) hfree (fun j _ hj => hlow j hj)

/-- Some position below `N` is free: there is a least one. -/
theorem exists_least_free (N : Nat) (s : tTIMER_CTL_32BIT)
    (h : ∃ i, i < N ∧ s.ui32FreeIndices.testBit i = true) :
    ∃ i, i < N ∧ s.ui32FreeIndices.testBit i = true ∧
      ∀ j, j < i → s.ui32FreeIndices.testBit j = false := by
  classical
  refine ⟨Nat.find h, (Nat.find_spec h).1, (Nat.find_spec h).2, ?_⟩
  intro j hj
  have hmin := Nat.find_min h hj
  have hjN : j < N := Nat.lt_trans hj (Nat.find_spec h).1
  cases hb : s.ui32FreeIndices.testBit j
  · rfl
  · exact absurd ⟨hjN, hb⟩ hmin

theorem appendInstall_slot_same (conf : tTIMERVAR32) (s : tTIMER_CTL_32BIT) (i : Nat) :
    (appendInstall conf s i).sTimerStruct i = { conf with ui8Index := i } := by
  simp [appendInstall, setSlot]

theorem appendInstall_slot_other (conf : tTIMERVAR32) (s : tTIMER_CTL_32BIT) (i j : Nat)
    (h : j ≠ i) : (appendInstall conf s i).sTimerStruct j = s.sTimerStruct j := by
  simp [appendInstall, setSlot, h]

theorem appendInstall_count (conf : tTIMERVAR32) (s : tTIMER_CTL_32BIT) (i : Nat) :
    (appendInstall conf s i).ui8ActiveTimers
      = if conf.bActive = true then (s.ui8ActiveTimers + 1) % 256 else s.ui8ActiveTimers := by
  simp [appendInstall, setSlot]

theorem appendInstall_testBit (conf : tTIMERVAR32) (s : tTIMER_CTL_32BIT) (i j : Nat)
    (hj : j < 32) :
    (appendInstall conf s i).ui32FreeIndices.testBit j
      = (s.ui32FreeIndices.testBit j && !decide (i = j)) := by
  simp only [appendInstall]
  exact testBit_clearBit _ i j hj

/-! ## One pass through the body of Timer32BitExecute -/

theorem tickCounter_fields (t : tTIMERVAR32) :
    (tickCounter t).1.bOneShot = t.bOneShot ∧ (tickCounter t).1.bActive = t.bActive ∧
    (tickCounter t).1.bUpCounter = t.bUpCounter ∧ (tickCounter t).1.ui8Index = t.ui8Index ∧
    (tickCounter t).1.ui32ResetValue = t.ui32ResetValue ∧
    (tickCounter t).1.pfnTimer_cb = t.pfnTimer_cb := by
  unfold tickCounter
  dsimp only
  split_ifs <;> simp

/-- Closed form of one pass through the loop body. -/
theorem executeBody_eq (s : tTIMER_CTL_32BIT) (idx : Nat) (log : List Event) :
    executeBody s idx log
      = (if (tickCounter (s.sTimerStruct idx)).2 = true ∧ (s.sTimerStruct idx).bOneShot = true
         then Timer32BitDestruct
            { s with sTimerStruct :=
                setSlot s.sTimerStruct idx (tickCounter (s.sTimerStruct idx)).1 } idx
         else { s with sTimerStruct :=
                setSlot s.sTimerStruct idx (tickCounter (s.sTimerStruct idx)).1 },
         log ++ slotEvents idx (s.sTimerStruct idx)) := by
  obtain ⟨h1, -, -, -, -, h6⟩ := tickCounter_fields (s.sTimerStruct idx)
  unfold executeBody slotEvents
  dsimp only
  rw [setSlot_same, h1]
  cases hfin : (tickCounter (s.sTimerStruct idx)).2
  · simp
  · cases hone : (s.sTimerStruct idx).bOneShot
    · simp only [if_true, Bool.false_eq_true, if_false, and_false, setSlot_same, h6]
      cases hcb : (s.sTimerStruct idx).pfnTimer_cb <;> simp
    · simp only [if_true, and_self, destruct_slot_same, setSlot_same, h6]
      cases hcb : (s.sTimerStruct idx).pfnTimer_cb <;> simp

theorem executeBody_slot_same (s : tTIMER_CTL_32BIT) (idx : Nat) (log : List Event) :
    (executeBody s idx log).1.sTimerStruct idx = slotAfterTick (s.sTimerStruct idx) := by
  rw [executeBody_eq]
  unfold slotAfterTick
  dsimp only
  split_ifs
  · rw [destruct_slot_same]; dsimp only; rw [setSlot_same]
  · dsimp only; rw [setSlot_same]

theorem executeBody_slot_other (s : tTIMER_CTL_32BIT) (idx j : Nat) (log : List Event)
    (h : j ≠ idx) :
    (executeBody s idx log).1.sTimerStruct j = s.sTimerStruct j := by
  rw [executeBody_eq]
  dsimp only
  split_ifs
  · rw [destruct_slot_other _ _ _ h]; dsimp only; rw [setSlot_other _ _ _ _ h]
  · dsimp only; rw [setSlot_other _ _ _ _ h]

theorem executeBody_free (s : tTIMER_CTL_32BIT) (idx : Nat) (log : List Event) :
    (executeBody s idx log).1.ui32FreeIndices
      = if (tickCounter (s.sTimerStruct idx)).2 = true ∧ (s.sTimerStruct idx).bOneShot = true
        then s.ui32FreeIndices ||| (1 <<< idx) else s.ui32FreeIndices := by
  rw [executeBody_eq]
  dsimp only
  split_ifs
  · rw [destruct_free]
  · rfl

theorem executeBody_log (s : tTIMER_CTL_32BIT) (idx : Nat) (log : List Event) :
    (executeBody s idx log).2 = log ++ slotEvents idx (s.sTimerStruct idx) := by
  rw [executeBody_eq]

theorem executeBody_count (s : tTIMER_CTL_32BIT) (idx : Nat) (log : List Event) :
    ((executeBody s idx log).1.ui8ActiveTimers : Int)
      = if (tickCounter (s.sTimerStruct idx)).2 = true ∧ (s.sTimerStruct idx).bOneShot = true
        then ((s.ui8ActiveTimers : Int)
          + (if (s.sTimerStruct idx).bActive = true then -1 else 0)) % 256
        else (s.ui8ActiveTimers : Int) := by
  obtain ⟨-, h2, -, -, -, -⟩ := tickCounter_fields (s.sTimerStruct idx)
  rw [executeBody_eq]
  dsimp only
  split_ifs <;> first
    | rfl
    | (rw [destruct_count]; dsimp only; rw [setSlot_same, h2]; simp [*])

theorem executeBody_testBit (s : tTIMER_CTL_32BIT) (idx j : Nat) (log : List Event) :
    (executeBody s idx log).1.ui32FreeIndices.testBit j
      = (s.ui32FreeIndices.testBit j ||
          (decide (idx = j) && (tickCounter (s.sTimerStruct idx)).2
            && (s.sTimerStruct idx).bOneShot)) := by
  rw [executeBody_free]
  split_ifs with h
  · rw [testBit_setBit, h.1, h.2]; simp
  · cases h1 : (tickCounter (s.sTimerStruct idx)).2 <;>
      cases h2 : (s.sTimerStruct idx).bOneShot <;> simp_all

theorem slotEvents_index (idx : Nat) (t : tTIMERVAR32) :
    ∀ e, e ∈ slotEvents idx t → e.1 = idx := by
  intro e he
  unfold slotEvents at he
  split_ifs at he
  · cases hcb : t.pfnTimer_cb <;> simp [hcb] at he
    rw [he]
  · simp at he

theorem AgreeFrom.liveActive {a : Nat} {s s' : tTIMER_CTL_32BIT} (h : AgreeFrom a s s')
    (j : Nat) (hj : a ≤ j) : liveActive s' j = liveActive s j := by
  unfold Timer32Bit.liveActive
  rw [(h j hj).1, (h j hj).2]

theorem AgreeFrom.procSlot {a : Nat} {s s' : tTIMER_CTL_32BIT} (h : AgreeFrom a s s')
    (j : Nat) (hj : a ≤ j) : procSlot s' j = procSlot s j := by
  unfold Timer32Bit.procSlot
  rw [h.liveActive j hj, (h j hj).1]

theorem AgreeFrom.evOf {a : Nat} {s s' : tTIMER_CTL_32BIT} (h : AgreeFrom a s s')
    (j : Nat) (hj : a ≤ j) : evOf s' j = evOf s j := by
  unfold Timer32Bit.evOf
  rw [h.liveActive j hj, (h j hj).1]

theorem AgreeFrom.reclaimed {a : Nat} {s s' : tTIMER_CTL_32BIT} (h : AgreeFrom a s s')
    (j : Nat) (hj : a ≤ j) : reclaimed s' j = reclaimed s j := by
  unfold Timer32Bit.reclaimed
  rw [h.liveActive j hj, (h j hj).1]

theorem AgreeFrom.eventsRange {s s' : tTIMER_CTL_32BIT} :
    ∀ (k a idx : Nat), AgreeFrom a s s' → a ≤ idx →
      eventsRange s' idx k = eventsRange s idx k := by
  intro k
  induction k with
  | zero => intro a idx _ _; rfl
  | succ k ih =>
    intro a idx h hidx
    simp only [Timer32Bit.eventsRange]
    rw [h.evOf idx hidx, ih a (idx + 1) h (by omega)]

theorem AgreeFrom.countRange {s s' : tTIMER_CTL_32BIT} :
    ∀ (k a idx : Nat), AgreeFrom a s s' → a ≤ idx →
      countRange s' idx k = countRange s idx k := by
  intro k
  induction k with
  | zero => intro a idx _ _; rfl
  | succ k ih =>
    intro a idx h hidx
    simp only [Timer32Bit.countRange]
    rw [h.liveActive idx hidx, ih a (idx + 1) h (by omega)]

theorem executeBody_agreeFrom (s : tTIMER_CTL_32BIT) (idx : Nat) (log : List Event) :
    AgreeFrom (idx + 1) s (executeBody s idx log).1 := by
  intro j hj
  have hne : j ≠ idx := by omega
  refine ⟨executeBody_slot_other s idx j log hne, ?_⟩
  rw [executeBody_testBit]
  have : ¬ idx = j := fun e => hne e.symm
  simp [this]

/-! ## The walk of Timer32BitExecute -/

theorem skip_test (s : tTIMER_CTL_32BIT) (idx : Nat) :
    (isFree s idx || (s.sTimerStruct idx).bActive == false) = !liveActive s idx := by
  rw [isFree_eq_testBit]
  unfold liveActive
  cases s.ui32FreeIndices.testBit idx <;> cases (s.sTimerStruct idx).bActive <;> rfl

theorem executeLoop_stop (N fuel idx : Nat) (cnt : Int) (s : tTIMER_CTL_32BIT)
    (log : List Event) (h : ¬ (0 < cnt ∧ idx < N)) :
    executeLoop N fuel idx cnt s log = (s, log) := by
  cases fuel with
  | zero => rfl
  | succ fuel => simp only [executeLoop, h, if_false]

theorem executeLoop_skip (N fuel idx : Nat) (cnt : Int) (s : tTIMER_CTL_32BIT)
    (log : List Event) (h : 0 < cnt ∧ idx < N) (hl : liveActive s idx = false) :
    executeLoop N (fuel + 1) idx cnt s log = executeLoop N fuel (idx + 1) cnt s log := by
  simp only [executeLoop, h, skip_test, hl]
  simp

theorem executeLoop_proc (N fuel idx : Nat) (cnt : Int) (s : tTIMER_CTL_32BIT)
    (log : List Event) (h : 0 < cnt ∧ idx < N) (hl : liveActive s idx = true) :
    executeLoop N (fuel + 1) idx cnt s log
      = executeLoop N fuel (idx + 1) (cnt - 1) (executeBody s idx log).1
          (executeBody s idx log).2 := by
  simp only [executeLoop, h, skip_test, hl]
  simp

/-- What the walk does: it visits the positions `idx, ..., idx + k - 1` for some `k`,
processes exactly the allocated active ones among them, and stops either at the end of the
array (or of the fuel) or when the countdown is used up. -/
theorem executeLoop_spec (N : Nat) :
    ∀ (fuel idx : Nat) (cnt : Int) (s : tTIMER_CTL_32BIT) (log : List Event),
      ∃ k, k ≤ fuel ∧ (k = 0 ∨ idx + k ≤ N) ∧
        (∀ j, (executeLoop N fuel idx cnt s log).1.sTimerStruct j
            = if idx ≤ j ∧ j < idx + k then procSlot s j else s.sTimerStruct j) ∧
        (∀ j, (executeLoop N fuel idx cnt s log).1.ui32FreeIndices.testBit j
            = (s.ui32FreeIndices.testBit j
                || (decide (idx ≤ j ∧ j < idx + k) && reclaimed s j))) ∧
        (executeLoop N fuel idx cnt s log).2 = log ++ eventsRange s idx k ∧
        ((countRange s idx k : Int) ≤ max cnt 0) ∧
        (k = fuel ∨ N ≤ idx + k ∨ cnt ≤ (countRange s idx k : Int)) := by
  intro fuel
  induction fuel with
  | zero =>
    intro idx cnt s log
    refine ⟨0, Nat.le_refl 0, Or.inl rfl, ?_, ?_, ?_, ?_, Or.inl rfl⟩
    · intro j
      have : ¬ (idx ≤ j ∧ j < idx + 0) := by omega
      rw [if_neg this]; rfl
    · intro j
      have : ¬ (idx ≤ j ∧ j < idx + 0) := by omega
      simp [executeLoop, this]
    · simp [executeLoop, eventsRange]
    · simp [countRange]
  | succ fuel ih =>
    intro idx cnt s log
    by_cases hcond : 0 < cnt ∧ idx < N
    · by_cases hl : liveActive s idx = true
      · rw [executeLoop_proc N fuel idx cnt s log hcond hl]
        have hag := executeBody_agreeFrom s idx log
        obtain ⟨k, hk, hb, hs, hf, hlog, hc, hstop⟩ :=
          ih (idx + 1) (cnt - 1) (executeBody s idx log).1 (executeBody s idx log).2
        rw [hag.countRange k (idx + 1) (idx + 1) (Nat.le_refl _)] at hc hstop
        refine ⟨k + 1, by omega, Or.inr (by omega), ?_, ?_, ?_, ?_, ?_⟩
        · intro j
          rw [hs j]
          by_cases hj : j = idx
          · subst hj
            have h1 : ¬ (j + 1 ≤ j ∧ j < j + 1 + k) := by omega
            have h2 : j ≤ j ∧ j < j + (k + 1) := by omega
            rw [if_neg h1, if_pos h2, executeBody_slot_same]
            simp [procSlot, hl]
          · by_cases hin : idx + 1 ≤ j ∧ j < idx + 1 + k
            · have h2 : idx ≤ j ∧ j < idx + (k + 1) := by omega
              rw [if_pos hin, if_pos h2, hag.procSlot j hin.1]
            · have h2 : ¬ (idx ≤ j ∧ j < idx + (k + 1)) := by omega
              rw [if_neg hin, if_neg h2, executeBody_slot_other s idx j log hj]
        · intro j
          rw [hf j, executeBody_testBit]
          by_cases hj : j = idx
          · subst hj
            have h1 : ¬ (j + 1 ≤ j ∧ j < j + 1 + k) := by omega
            have h2 : j ≤ j ∧ j < j + (k + 1) := by omega
            simp [h1, h2, reclaimed, hl]
          · have hne : ¬ idx = j := fun e => hj e.symm
            by_cases hin : idx + 1 ≤ j ∧ j < idx + 1 + k
            · have h2 : idx ≤ j ∧ j < idx + (k + 1) := by omega
              rw [hag.reclaimed j hin.1]
              simp [hin, h2, hne]
            · have h2 : ¬ (idx ≤ j ∧ j < idx + (k + 1)) := by omega
              simp [hin, h2, hne]
        · rw [hlog, executeBody_log, hag.eventsRange k (idx + 1) (idx + 1) (Nat.le_refl _)]
          simp [eventsRange, evOf, hl]
        · simp only [countRange, hl, if_true]
          omega
        · simp only [countRange, hl, if_true]
          omega
      · have hl' : liveActive s idx = false := by
          cases h : liveActive s idx
          · rfl
          · exact absurd h hl
        rw [executeLoop_skip N fuel idx cnt s log hcond hl']
        obtain ⟨k, hk, hb, hs, hf, hlog, hc, hstop⟩ := ih (idx + 1) cnt s log
        refine ⟨k + 1, by omega, Or.inr (by omega), ?_, ?_, ?_, ?_, ?_⟩
        · intro j
          rw [hs j]
          by_cases hj : j = idx
          · subst hj
            have h1 : ¬ (j + 1 ≤ j ∧ j < j + 1 + k) := by omega
            have h2 : j ≤ j ∧ j < j + (k + 1) := by omega
            rw [if_neg h1, if_pos h2]
            simp [procSlot, hl']
          · by_cases hin : idx + 1 ≤ j ∧ j < idx + 1 + k
            · have h2 : idx ≤ j ∧ j < idx + (k + 1) := by omega
              rw [if_pos hin, if_pos h2]
            · have h2 : ¬ (idx ≤ j ∧ j < idx + (k + 1)) := by omega
              rw [if_neg hin, if_neg h2]
        · intro j
          rw [hf j]
          by_cases hj : j = idx
          · subst hj
            have h1 : ¬ (j + 1 ≤ j ∧ j < j + 1 + k) := by omega
            simp [h1, reclaimed, hl']
          · by_cases hin : idx + 1 ≤ j ∧ j < idx + 1 + k
            · have h2 : idx ≤ j ∧ j < idx + (k + 1) := by omega
              simp [hin, h2]
            · have h2 : ¬ (idx ≤ j ∧ j < idx + (k + 1)) := by omega
              simp [hin, h2]
        · rw [hlog]
          simp [eventsRange, evOf, hl']
        · simp only [countRange, hl', Bool.false_eq_true, if_false]
          omega
        · simp only [countRange, hl', Bool.false_eq_true, if_false]
          omega
    · rw [executeLoop_stop N (fuel + 1) idx cnt s log hcond]
      refine ⟨0, Nat.zero_le _, Or.inl rfl, ?_, ?_, ?_, ?_, ?_⟩
      · intro j
        have : ¬ (idx ≤ j ∧ j < idx + 0) := by omega
        rw [if_neg this]
      · intro j
        have : ¬ (idx ≤ j ∧ j < idx + 0) := by omega
        simp [this]
      · simp [eventsRange]
      · simp [countRange]
      · simp only [countRange]
        omega

/-- Enough fuel: with at least `N - idx` units the walk does not depend on the fuel. -/
theorem executeLoop_fuel (N : Nat) :
    ∀ (fuel idx : Nat) (cnt : Int) (s : tTIMER_CTL_32BIT) (log : List Event),
      N - idx ≤ fuel →
      executeLoop N fuel idx cnt s log = executeLoop N (N - idx) idx cnt s log := by
  intro fuel
  induction fuel with
  | zero =>
    intro idx cnt s log h
    have : N - idx = 0 := by omega
    rw [this]
  | succ fuel ih =>
    intro idx cnt s log h
    by_cases hcond : 0 < cnt ∧ idx < N
    · obtain ⟨m, hm⟩ : ∃ m, N - idx = m + 1 := ⟨N - idx - 1, by omega⟩
      have e : m = N - (idx + 1) := by omega
      rw [hm]
      cases hl : liveActive s idx
      · rw [executeLoop_skip N fuel idx cnt s log hcond hl,
          executeLoop_skip N m idx cnt s log hcond hl, ih (idx + 1) cnt s log (by omega), e]
      · rw [executeLoop_proc N fuel idx cnt s log hcond hl,
          executeLoop_proc N m idx cnt s log hcond hl, ih (idx + 1) _ _ _ (by omega), e]
    · rw [executeLoop_stop N _ idx cnt s log hcond, executeLoop_stop N _ idx cnt s log hcond]

theorem countRange_add (s : tTIMER_CTL_32BIT) :
    ∀ (a idx b : Nat),
      countRange s idx (a + b) = countRange s idx a + countRange s (idx + a) b := by
  intro a
  induction a with
  | zero => intro idx b; simp [countRange]
  | succ a ih =>
    intro idx b
    have e : a + 1 + b = (a + b) + 1 := by omega
    rw [e]
    simp only [countRange]
    rw [ih (idx + 1) b]
    have e2 : idx + 1 + a = idx + (a + 1) := by omega
    rw [e2]
    omega

theorem eventsRange_add (s : tTIMER_CTL_32BIT) :
    ∀ (a idx b : Nat),
      eventsRange s idx (a + b) = eventsRange s idx a ++ eventsRange s (idx + a) b := by
  intro a
  induction a with
  | zero => intro idx b; simp [eventsRange]
  | succ a ih =>
    intro idx b
    have e : a + 1 + b = (a + b) + 1 := by omega
    rw [e]
    simp only [eventsRange]
    rw [ih (idx + 1) b]
    have e2 : idx + 1 + a = idx + (a + 1) := by omega
    rw [e2, List.append_assoc]

theorem countRange_eq_zero (s : tTIMER_CTL_32BIT) :
    ∀ (k idx : Nat), countRange s idx k = 0 →
      ∀ j, idx ≤ j → j < idx + k → liveActive s j = false := by
  intro k
  induction k with
  | zero => intro idx _ j h1 h2; omega
  | succ k ih =>
    intro idx h j h1 h2
    simp only [countRange] at h
    by_cases hj : j = idx
    · subst hj
      cases hl : liveActive s j
      · rfl
      · rw [hl] at h; simp at h
    · exact ih (idx + 1) (by omega) j (by omega) (by omega)

theorem eventsRange_eq_nil (s : tTIMER_CTL_32BIT) :
    ∀ (k idx : Nat), (∀ j, idx ≤ j → j < idx + k → liveActive s j = false) →
      eventsRange s idx k = [] := by
  intro k
  induction k with
  | zero => intro idx _; rfl
  | succ k ih =>
    intro idx h
    simp only [eventsRange]
    rw [ih (idx + 1) (fun j h1 h2 => h j (by omega) (by omega))]
    simp [evOf, h idx (Nat.le_refl _) (by omega)]

theorem countRange_eq_countP (s : tTIMER_CTL_32BIT) :
    ∀ (k idx : Nat), countRange s idx k = (List.range' idx k).countP (liveActive s) := by
  intro k
  induction k with
  | zero => intro idx; rfl
  | succ k ih =>
    intro idx
    simp only [countRange, List.range'_succ, List.countP_cons]
    rw [ih (idx + 1)]
    omega

theorem countRange_eq_countLiveActive (N : Nat) (s : tTIMER_CTL_32BIT) :
    countRange s 0 N = countLiveActive N s := by
  rw [countRange_eq_countP, countLiveActive, List.range_eq_range']

theorem evOf_index (s : tTIMER_CTL_32BIT) (j : Nat) : ∀ e, e ∈ evOf s j → e.1 = j := by
  intro e he
  unfold evOf at he
  split_ifs at he
  · exact slotEvents_index j _ e he
  · simp at he

/-- The callbacks of one position among those invoked over a range. -/
theorem eventsRange_filter (s : tTIMER_CTL_32BIT) (i : Nat) :
    ∀ (k idx : Nat),
      (eventsRange s idx k).filter (fun e => e.1 == i)
        = if idx ≤ i ∧ i < idx + k then evOf s i else [] := by
  intro k
  induction k with
  | zero =>
    intro idx
    have : ¬ (idx ≤ i ∧ i < idx + 0) := by omega
    rw [if_neg this]; rfl
  | succ k ih =>
    intro idx
    simp only [eventsRange, List.filter_append]
    rw [ih (idx + 1)]
    by_cases hi : idx = i
    · subst hi
      have h1 : ¬ (idx + 1 ≤ idx ∧ idx < idx + 1 + k) := by omega
      have h2 : idx ≤ idx ∧ idx < idx + (k + 1) := by omega
      rw [if_neg h1, if_pos h2, List.append_nil]
      apply List.filter_eq_self.mpr
      intro e he
      simp [evOf_index s idx e he]
    · have h0 : (evOf s idx).filter (fun e => e.1 == i) = [] := by
        apply List.filter_eq_nil_iff.mpr
        intro e he
        simp [evOf_index s idx e he, hi]
      rw [h0, List.nil_append]
      by_cases hin : idx + 1 ≤ i ∧ i < idx + 1 + k
      · have h2 : idx ≤ i ∧ i < idx + (k + 1) := by omega
        rw [if_pos hin, if_pos h2]
      · have h2 : ¬ (idx ≤ i ∧ i < idx + (k + 1)) := by omega
        rw [if_neg hin, if_neg h2]

/-! ## The ActiveCount invariant is preserved by every operation -/

/-- A pool that differs from `s` in the allocation or activity of position `i` only, with
the tally adjusted accordingly, satisfies the invariant if `s` does. -/
theorem inv_of_update (N : Nat) (s s' : tTIMER_CTL_32BIT) (i : Nat)
    (hother : ∀ j, j < N → j ≠ i → liveActive s' j = liveActive s j)
    (hcount : s'.ui8ActiveTimers + (if i < N ∧ liveActive s i = true then 1 else 0)
      = s.ui8ActiveTimers + (if i < N ∧ liveActive s' i = true then 1 else 0))
    (hinv : ActiveCountInv N s) : ActiveCountInv N s' := by
  have h := countP_range_update (liveActive s) (liveActive s') i N hother
  unfold ActiveCountInv countLiveActive at *
  omega

theorem inv_count_le (N : Nat) (s : tTIMER_CTL_32BIT) (hinv : ActiveCountInv N s) :
    s.ui8ActiveTimers ≤ N := by
  rw [hinv]; exact countP_range_le _ _

theorem inv_count_pos (N : Nat) (s : tTIMER_CTL_32BIT) (hinv : ActiveCountInv N s) (i : Nat)
    (hi : i < N) (hl : liveActive s i = true) : 0 < s.ui8ActiveTimers := by
  rw [hinv]; exact countP_range_pos _ _ i hi hl

theorem inv_count_lt (N : Nat) (s : tTIMER_CTL_32BIT) (hinv : ActiveCountInv N s) (i : Nat)
    (hi : i < N) (hl : liveActive s i = false) : s.ui8ActiveTimers < N := by
  rw [hinv]; exact countP_range_lt _ _ i hi hl

theorem setActive_liveActive_other (s : tTIMER_CTL_32BIT) (i j : Nat) (a : Bool)
    (h : j ≠ i) : liveActive (Timer32BitSetActive s i a) j = liveActive s j := by
  unfold liveActive
  rw [setActive_free, setActive_slot_other s i j a h]

theorem setActive_liveActive_same (s : tTIMER_CTL_32BIT) (i : Nat) (a : Bool) :
    liveActive (Timer32BitSetActive s i a) i = (!(s.ui32FreeIndices.testBit i) && a) := by
  unfold liveActive
  rw [setActive_free, setActive_slot_same]

theorem setActive_inv (N : Nat) (hN : N ≤ 32) (s : tTIMER_CTL_32BIT) (i : Nat) (a : Bool)
    (hi : i < N) (halloc : s.ui32FreeIndices.testBit i = false)
    (hinv : ActiveCountInv N s) : ActiveCountInv N (Timer32BitSetActive s i a) := by
  apply inv_of_update N s _ i (fun j _ hj => setActive_liveActive_other s i j a hj) _ hinv
  have hc := setActive_count s i a
  have hle := inv_count_le N s hinv
  rw [setActive_liveActive_same, halloc]
  have hls : liveActive s i = (s.sTimerStruct i).bActive := by
    unfold liveActive; rw [halloc]; rfl
  rw [hls]
  cases hold : (s.sTimerStruct i).bActive
  · have hlt := inv_count_lt N s hinv i hi (by rw [hls, hold])
    cases a <;> simp [hold, hi] at hc ⊢ <;> omega
  · have hpos := inv_count_pos N s hinv i hi (by rw [hls, hold])
    cases a <;> simp [hold, hi] at hc ⊢ <;> omega

theorem destruct_liveActive_other (s : tTIMER_CTL_32BIT) (i j : Nat) (h : j ≠ i) :
    liveActive (Timer32BitDestruct s i) j = liveActive s j := by
  unfold liveActive
  rw [destruct_free, destruct_slot_other s i j h, testBit_setBit]
  have : ¬ i = j := fun e => h e.symm
  simp [this]

theorem destruct_liveActive_same (s : tTIMER_CTL_32BIT) (i : Nat) :
    liveActive (Timer32BitDestruct s i) i = false := by
  unfold liveActive
  rw [destruct_free, testBit_setBit]
  simp

theorem destruct_inv (N : Nat) (hN : N ≤ 32) (s : tTIMER_CTL_32BIT) (i : Nat)
    (hi : i < N) (halloc : s.ui32FreeIndices.testBit i = false)
    (hinv : ActiveCountInv N s) : ActiveCountInv N (Timer32BitDestruct s i) := by
  apply inv_of_update N s _ i (fun j _ hj => destruct_liveActive_other s i j hj) _ hinv
  have hc := destruct_count s i
  have hle := inv_count_le N s hinv
  rw [destruct_liveActive_same]
  have hls : liveActive s i = (s.sTimerStruct i).bActive := by
    unfold liveActive; rw [halloc]; rfl
  rw [hls]
  cases hold : (s.sTimerStruct i).bActive
  · simp [hold] at hc ⊢; omega
  · have hpos := inv_count_pos N s hinv i hi (by rw [hls, hold])
    simp [hold, hi] at hc ⊢; omega

theorem setValue_eq (s : tTIMER_CTL_32BIT) (i : Nat) (a : Bool) (v : Nat) :
    Timer32BitSetValue s i a v = Timer32BitSetActive (valueWritten s i v) i a := rfl

theorem valueWritten_slot_other (s : tTIMER_CTL_32BIT) (i j v : Nat) (h : j ≠ i) :
    (valueWritten s i v).sTimerStruct j = s.sTimerStruct j := by
  unfold valueWritten
  dsimp only
  rw [setSlot_other _ _ _ _ h]

theorem valueWritten_slot_same (s : tTIMER_CTL_32BIT) (i v : Nat) :
    (valueWritten s i v).sTimerStruct i
      = if (s.sTimerStruct i).bUpCounter = true then
          { s.sTimerStruct i with ui32ResetValue := v, ui32TimerVal := 0 }
        else { s.sTimerStruct i with ui32TimerVal := v } := by
  unfold valueWritten
  dsimp only
  rw [setSlot_same]

theorem valueWritten_bActive (s : tTIMER_CTL_32BIT) (i j v : Nat) :
    ((valueWritten s i v).sTimerStruct j).bActive = (s.sTimerStruct j).bActive := by
  by_cases h : j = i
  · subst h
    rw [valueWritten_slot_same]
    split_ifs <;> rfl
  · rw [valueWritten_slot_other s i j v h]

theorem valueWritten_liveActive (s : tTIMER_CTL_32BIT) (i j v : Nat) :
    liveActive (valueWritten s i v) j = liveActive s j := by
  unfold liveActive
  rw [valueWritten_bActive]
  rfl

theorem valueWritten_inv (N : Nat) (s : tTIMER_CTL_32BIT) (i v : Nat)
    (hinv : ActiveCountInv N s) : ActiveCountInv N (valueWritten s i v) := by
  apply inv_of_update N s _ i (fun j _ _ => valueWritten_liveActive s i j v) _ hinv
  rw [valueWritten_liveActive]
  rfl

theorem setValue_inv (N : Nat) (hN : N ≤ 32) (s : tTIMER_CTL_32BIT) (i : Nat) (a : Bool)
    (v : Nat) (hi : i < N) (halloc : s.ui32FreeIndices.testBit i = false)
    (hinv : ActiveCountInv N s) : ActiveCountInv N (Timer32BitSetValue s i a v) := by
  rw [setValue_eq]
  exact setActive_inv N hN (valueWritten s i v) i a hi halloc (valueWritten_inv N s i v hinv)

theorem appendInstall_inv (N : Nat) (hN : N ≤ 32) (conf : tTIMERVAR32)
    (s : tTIMER_CTL_32BIT) (i : Nat) (hi : i < N)
    (hfree : s.ui32FreeIndices.testBit i = true) (hinv : ActiveCountInv N s) :
    ActiveCountInv N (appendInstall conf s i) := by
  have hls : liveActive s i = false := by unfold liveActive; rw [hfree]; rfl
  have hls' : liveActive (appendInstall conf s i) i = conf.bActive := by
    unfold liveActive
    rw [appendInstall_testBit conf s i i (by omega), appendInstall_slot_same]
    simp
  apply inv_of_update N s _ i _ _ hinv
  · intro j hjN hj
    unfold liveActive
    have : ¬ i = j := fun e => hj e.symm
    rw [appendInstall_testBit conf s i j (by omega), appendInstall_slot_other conf s i j hj]
    simp [this]
  · have hlt := inv_count_lt N s hinv i hi hls
    rw [hls, hls', appendInstall_count]
    cases conf.bActive <;> simp [hi]
    omega

theorem append_inv (N : Nat) (hN : N ≤ 32) (conf : tTIMERVAR32) (s : tTIMER_CTL_32BIT)
    (hinv : ActiveCountInv N s) : ActiveCountInv N (AppendTimer32Bit N conf s).1 := by
  by_cases h : ∃ i, i < N ∧ s.ui32FreeIndices.testBit i = true
  · obtain ⟨i, hi, hfree, hlow⟩ := exists_least_free N s h
    rw [append_some N conf s i hi hfree hlow]
    exact appendInstall_inv N hN conf s i hi hfree hinv
  · have hnone : ∀ j, j < N → s.ui32FreeIndices.testBit j = false := by
      intro j hj
      cases hb : s.ui32FreeIndices.testBit j
      · rfl
      · exact absurd ⟨j, hj, hb⟩ h
    rw [append_none N conf s hnone]
    exact hinv

theorem executeBody_inv (N : Nat) (hN : N ≤ 32) (s : tTIMER_CTL_32BIT) (idx : Nat)
    (log : List Event) (hi : idx < N) (hl : liveActive s idx = true)
    (hinv : ActiveCountInv N s) : ActiveCountInv N (executeBody s idx log).1 := by
  have hag := executeBody_agreeFrom s idx log
  have hact : (s.sTimerStruct idx).bActive = true := by
    unfold liveActive at hl
    simp at hl
    exact hl.2
  have hbit : s.ui32FreeIndices.testBit idx = false := by
    unfold liveActive at hl
    simp at hl
    exact hl.1
  obtain ⟨h1, h2, -, -, -, -⟩ := tickCounter_fields (s.sTimerStruct idx)
  apply inv_of_update N s _ idx _ _ hinv
  · intro j _ hj
    unfold liveActive
    have : ¬ idx = j := fun e => hj e.symm
    rw [executeBody_testBit, executeBody_slot_other s idx j log hj]
    simp [this]
  · have hc := executeBody_count s idx log
    have hpos := inv_count_pos N s hinv idx hi hl
    have hle := inv_count_le N s hinv
    have hl' : liveActive (executeBody s idx log).1 idx
        = !((tickCounter (s.sTimerStruct idx)).2 && (s.sTimerStruct idx).bOneShot) := by
      unfold liveActive
      rw [executeBody_testBit, executeBody_slot_same, hbit]
      unfold slotAfterTick
      cases hf : (tickCounter (s.sTimerStruct idx)).2 <;>
        cases ho : (s.sTimerStruct idx).bOneShot <;> simp [h2, hact]
    rw [hl, hl']
    cases hf : (tickCounter (s.sTimerStruct idx)).2 <;>
      cases ho : (s.sTimerStruct idx).bOneShot <;>
      simp [hf, ho, hact, hi] at hc ⊢ <;> omega

theorem executeLoop_inv (N : Nat) (hN : N ≤ 32) :
    ∀ (fuel idx : Nat) (cnt : Int) (s : tTIMER_CTL_32BIT) (log : List Event),
      ActiveCountInv N s → ActiveCountInv N (executeLoop N fuel idx cnt s log).1 := by
  intro fuel
  induction fuel with
  | zero => intro idx cnt s log h; exact h
  | succ fuel ih =>
    intro idx cnt s log h
    by_cases hcond : 0 < cnt ∧ idx < N
    · cases hl : liveActive s idx
      · rw [executeLoop_skip N fuel idx cnt s log hcond hl]
        exact ih _ _ _ _ h
      · rw [executeLoop_proc N fuel idx cnt s log hcond hl]
        exact ih _ _ _ _ (executeBody_inv N hN s idx log hcond.2 hl h)
    · rw [executeLoop_stop N _ idx cnt s log hcond]
      exact h

theorem execute_inv (N : Nat) (hN : N ≤ 32) (s : tTIMER_CTL_32BIT)
    (hinv : ActiveCountInv N s) : ActiveCountInv N (Timer32BitExecute N s).1 :=
  executeLoop_inv N hN N 0 _ s [] hinv

/-! ## Timer32BitExecute on a pool that satisfies the invariant -/

/-- Under the ActiveCount invariant the early exit loses nothing: the walk processes every
allocated active position below `N`, leaves every other slot alone, and invokes the
callbacks in ascending position order. -/
theorem execute_spec (N : Nat) (hN : N ≤ 32) (s : tTIMER_CTL_32BIT)
    (hinv : ActiveCountInv N s) :
    (∀ j, (Timer32BitExecute N s).1.sTimerStruct j
        = if j < N then procSlot s j else s.sTimerStruct j) ∧
    (∀ j, (Timer32BitExecute N s).1.ui32FreeIndices.testBit j
        = (s.ui32FreeIndices.testBit j || (decide (j < N) && reclaimed s j))) ∧
    (Timer32BitExecute N s).2 = eventsRange s 0 N := by
  obtain ⟨k, hk, -, hs, hf, hlog, hc, hstop⟩ :=
    executeLoop_spec N N 0 (toInt8 s.ui8ActiveTimers) s []
  have hle := inv_count_le N s hinv
  have hcnt : toInt8 s.ui8ActiveTimers = (countRange s 0 N : Int) := by
    rw [toInt8_small _ (by omega), countRange_eq_countLiveActive, ← hinv]
  have hsplit := countRange_add s k 0 (N - k)
  have hNk : k + (N - k) = N := by omega
  rw [hNk] at hsplit
  rw [hcnt] at hstop
  have hz : countRange s (0 + k) (N - k) = 0 := by
    rcases hstop with h | h | h
    · subst h; simp [countRange]
    · have : N - k = 0 := by omega
      rw [this]; simp [countRange]
    · omega
  have hdead : ∀ j, k ≤ j → j < N → liveActive s j = false := by
    intro j h1 h2
    exact countRange_eq_zero s (N - k) (0 + k) hz j (by omega) (by omega)
  refine ⟨?_, ?_, ?_⟩
  · intro j
    show (executeLoop N N 0 (toInt8 s.ui8ActiveTimers) s []).1.sTimerStruct j = _
    rw [hs j]
    by_cases hjk : 0 ≤ j ∧ j < 0 + k
    · have : j < N := by omega
      rw [if_pos hjk, if_pos this]
    · rw [if_neg hjk]
      by_cases hjN : j < N
      · rw [if_pos hjN]
        simp [procSlot, hdead j (by omega) hjN]
      · rw [if_neg hjN]
  · intro j
    show (executeLoop N N 0 (toInt8 s.ui8ActiveTimers) s []).1.ui32FreeIndices.testBit j = _
    rw [hf j]
    by_cases hjk : j < k
    · have : j < N := by omega
      simp [hjk, this]
    · by_cases hjN : j < N
      · simp [hjk, reclaimed, hdead j (by omega) hjN]
      · simp [hjk, hjN]
  · show (executeLoop N N 0 (toInt8 s.ui8ActiveTimers) s []).2 = _
    rw [hlog, List.nil_append]
    have he := eventsRange_add s k 0 (N - k)
    rw [hNk] at he
    rw [he, eventsRange_eq_nil s (N - k) (0 + k)
      (fun j h1 h2 => hdead j (by omega) (by omega)), List.append_nil]

theorem execute_firedFor (N : Nat) (hN : N ≤ 32) (s : tTIMER_CTL_32BIT)
    (hinv : ActiveCountInv N s) (i : Nat) (hi : i < N) :
    firedFor i (Timer32BitExecute N s).2 = evOf s i := by
  unfold firedFor
  rw [(execute_spec N hN s hinv).2.2, eventsRange_filter]
  have : 0 ≤ i ∧ i < 0 + N := by omega
  rw [if_pos this]

theorem execute_slot (N : Nat) (hN : N ≤ 32) (s : tTIMER_CTL_32BIT)
    (hinv : ActiveCountInv N s) (i : Nat) (hi : i < N) :
    (Timer32BitExecute N s).1.sTimerStruct i = procSlot s i := by
  rw [(execute_spec N hN s hinv).1 i, if_pos hi]

theorem execute_testBit (N : Nat) (hN : N ≤ 32) (s : tTIMER_CTL_32BIT)
    (hinv : ActiveCountInv N s) (i : Nat) (hi : i < N) :
    (Timer32BitExecute N s).1.ui32FreeIndices.testBit i
      = (s.ui32FreeIndices.testBit i || reclaimed s i) := by
  rw [(execute_spec N hN s hinv).2.1 i]
  simp [hi]

theorem executeN_inv (N : Nat) (hN : N ≤ 32) (s : tTIMER_CTL_32BIT)
    (hinv : ActiveCountInv N s) : ∀ n, ActiveCountInv N (executeN N n s) := by
  intro n
  induction n with
  | zero => exact hinv
  | succ n ih => exact execute_inv N hN _ ih

theorem mod_succ_cases (n R : Nat) (hR : 0 < R) :
    (n % R + 1 = R ∧ (n + 1) % R = 0) ∨ (n % R + 1 < R ∧ (n + 1) % R = n % R + 1) := by
  have hlt : n % R < R := Nat.mod_lt n hR
  have e : (n + 1) % R = (n % R + 1) % R := (Nat.mod_add_mod n R 1).symm
  by_cases h : n % R + 1 = R
  · left
    refine ⟨h, ?_⟩
    rw [e, h, Nat.mod_self]
  · right
    have h2 : n % R + 1 < R := by omega
    exact ⟨h2, by rw [e, Nat.mod_eq_of_lt h2]⟩

/-! ## Sequences of calls keep the invariant -/

theorem liveActive_init (j : Nat) : liveActive tTIMER_32BIT_CTL_DEFAULTS j = false := by
  simp [liveActive, tTIMER_32BIT_CTL_DEFAULTS, tTIMERVAR32_DEFAULTS]

theorem init_testBit (j : Nat) (hj : j < 32) :
    tTIMER_32BIT_CTL_DEFAULTS.ui32FreeIndices.testBit j = true := by
  have h32 : (0xFFFFFFFF : Nat) = 2 ^ 32 - 1 := by decide
  show Nat.testBit 0xFFFFFFFF j = true
  rw [h32, Nat.testBit_two_pow_sub_one]
  simp [hj]

theorem init_inv (N : Nat) : ActiveCountInv N tTIMER_32BIT_CTL_DEFAULTS := by
  unfold ActiveCountInv countLiveActive
  have : (List.range N).countP (liveActive tTIMER_32BIT_CTL_DEFAULTS) = 0 := by
    apply List.countP_eq_zero.mpr
    intro j _
    simp [liveActive_init]
  rw [this]; rfl

theorem initSys_good (N : Nat) (hN : N ≤ 32) : Sys.Good N initSys := by
  refine ⟨init_inv N, ?_⟩
  intro i
  constructor
  · intro h; simp [initSys] at h
  · rintro ⟨hi, hb⟩
    have := init_testBit i (by omega)
    simp only [initSys] at hb
    rw [this] at hb
    exact absurd hb (by simp)

theorem step_good (N : Nat) (hN : N ≤ 32) (σ : Sys) (op : Op) (hg : Sys.Good N σ)
    (hadm : op.admissible σ = true) : Sys.Good N (σ.step N op) := by
  obtain ⟨hinv, hh⟩ := hg
  cases op with
  | append conf =>
    refine ⟨append_inv N hN conf σ.pool hinv, ?_⟩
    by_cases h : ∃ i, i < N ∧ σ.pool.ui32FreeIndices.testBit i = true
    · obtain ⟨i, hi, hfree, hlow⟩ := exists_least_free N σ.pool h
      have hr := append_some N conf σ.pool i hi hfree hlow
      have hti : toInt8 i = (i : Int) := toInt8_small i (by omega)
      intro j
      simp only [Sys.step, hr, hti]
      have hne : ¬ ((i : Int) = -1) := by omega
      rw [if_neg hne, Int.toNat_ofNat, List.mem_cons, hh j]
      constructor
      · rintro (h1 | ⟨h1, h2⟩)
        · subst h1
          refine ⟨hi, ?_⟩
          rw [appendInstall_testBit conf σ.pool j j (by omega)]; simp
        · refine ⟨h1, ?_⟩
          rw [appendInstall_testBit conf σ.pool i j (by omega), h2]; simp
      · rintro ⟨h1, h2⟩
        rw [appendInstall_testBit conf σ.pool i j (by omega)] at h2
        by_cases hji : j = i
        · exact Or.inl hji
        · right
          refine ⟨h1, ?_⟩
          have : ¬ i = j := fun e => hji e.symm
          simpa [this] using h2
    · have hnone : ∀ j, j < N → σ.pool.ui32FreeIndices.testBit j = false := by
        intro j hj
        cases hb : σ.pool.ui32FreeIndices.testBit j
        · rfl
        · exact absurd ⟨j, hj, hb⟩ h
      have hr := append_none N conf σ.pool hnone
      intro j
      simp only [Sys.step, hr, if_true]
      exact hh j
  | destruct i =>
    have hi : i ∈ σ.handles := by simpa [Op.admissible] using hadm
    obtain ⟨hiN, hbit⟩ := (hh i).mp hi
    refine ⟨destruct_inv N hN σ.pool i hiN hbit hinv, ?_⟩
    intro j
    simp only [Sys.step, List.mem_filter, hh j, destruct_free, testBit_setBit]
    by_cases hji : j = i
    · subst hji; simp
    · have : ¬ i = j := fun e => hji e.symm
      simp [hji, this]
  | setActive i a =>
    have hi : i ∈ σ.handles := by simpa [Op.admissible] using hadm
    obtain ⟨hiN, hbit⟩ := (hh i).mp hi
    exact ⟨setActive_inv N hN σ.pool i a hiN hbit hinv, hh⟩
  | setValue i a v =>
    have hi : i ∈ σ.handles := by simpa [Op.admissible] using hadm
    obtain ⟨hiN, hbit⟩ := (hh i).mp hi
    exact ⟨setValue_inv N hN σ.pool i a v hiN hbit hinv, hh⟩
  | execute =>
    refine ⟨execute_inv N hN σ.pool hinv, ?_⟩
    intro j
    simp only [Sys.step, List.mem_filter, hh j, isFree_eq_testBit]
    constructor
    · rintro ⟨⟨h1, -⟩, h3⟩
      exact ⟨h1, by simpa using h3⟩
    · rintro ⟨h1, h2⟩
      rw [execute_testBit N hN σ.pool hinv j h1] at h2
      have h2' := h2
      rw [Bool.or_eq_false_iff] at h2
      refine ⟨⟨h1, h2.1⟩, ?_⟩
      rw [execute_testBit N hN σ.pool hinv j h1, h2']
      rfl

theorem run_good (N : Nat) (hN : N ≤ 32) :
    ∀ (ops : List Op) (σ : Sys), Sys.Good N σ → Admissible N σ ops = true →
      Sys.Good N (Sys.run N σ ops) := by
  intro ops
  induction ops with
  | nil => intro σ hg _; exact hg
  | cons op ops ih =>
    intro σ hg hadm
    simp only [Admissible, Bool.and_eq_true] at hadm
    exact ih (σ.step N op) (step_good N hN σ op hg hadm.1) hadm.2

theorem admissible_take (N : Nat) :
    ∀ (ops : List Op) (σ : Sys) (k : Nat), Admissible N σ ops = true →
      Admissible N σ (ops.take k) = true := by
  intro ops
  induction ops with
  | nil => intro σ k _; simp [Admissible]
  | cons op ops ih =>
    intro σ k hadm
    cases k with
    | zero => simp [Admissible]
    | succ k =>
      simp only [Admissible, Bool.and_eq_true, List.take_succ_cons] at hadm ⊢
      exact ⟨hadm.1, ih _ k hadm.2⟩

theorem appendAll_spec (N : Nat) (hN : N ≤ 32) :
    ∀ (confs : List tTIMERVAR32) (k : Nat) (s : tTIMER_CTL_32BIT),
      (∀ j, j < 32 → s.ui32FreeIndices.testBit j = decide (k ≤ j)) →
      k + confs.length ≤ N →
      (appendAll N confs s).2 = (List.range' k confs.length).map Int.ofNat ∧
      ∀ j, j < 32 → (appendAll N confs s).1.ui32FreeIndices.testBit j
        = decide (k + confs.length ≤ j) := by
  intro confs
  induction confs with
  | nil =>
    intro k s hbits _
    exact ⟨rfl, fun j hj => by simpa [appendAll] using hbits j hj⟩
  | cons conf confs ih =>
    intro k s hbits hlen
    simp only [List.length_cons] at hlen
    have hk : k < N := by omega
    have hfree : s.ui32FreeIndices.testBit k = true := by
      rw [hbits k (by omega)]; simp
    have hlow : ∀ j, j < k → s.ui32FreeIndices.testBit j = false := by
      intro j hj
      rw [hbits j (by omega)]
      simp; omega
    have hr := append_some N conf s k hk hfree hlow
    have hti : toInt8 k = (k : Int) := toInt8_small k (by omega)
    have hbits' : ∀ j, j < 32 →
        (appendInstall conf s k).ui32FreeIndices.testBit j = decide (k + 1 ≤ j) := by
      intro j hj
      rw [appendInstall_testBit conf s k j hj, hbits j hj]
      by_cases h1 : k = j
      · subst h1; simp
      · by_cases h2 : k ≤ j
        · have : k + 1 ≤ j := by omega
          simp [h1, h2, this]
        · have : ¬ k + 1 ≤ j := by omega
          simp [h2, this]
    obtain ⟨ih1, ih2⟩ := ih (k + 1) (appendInstall conf s k) hbits' (by omega)
    simp only [appendAll, hr, hti, List.length_cons, List.range'_succ, List.map_cons]
    refine ⟨by rw [ih1]; rfl, ?_⟩
    intro j hj
    rw [ih2 j hj]
    have : k + 1 + confs.length = k + (confs.length + 1) := by omega
    rw [this]

/-! ## Counting towards expiry -/

/-- One tick of a timer that is `n` ticks into its cycle: it is `n + 1` ticks into its
cycle afterwards, and it expires exactly when `R` divides `n + 1`. -/
theorem tickCounter_phase (t : tTIMERVAR32) (R n : Nat) (hR : 0 < R)
    (htgt : t.ui32ResetValue = R) (hcur : t.ui32TimerVal = phaseVal t.bUpCounter R n) :
    (tickCounter t).1 = { t with ui32TimerVal := phaseVal t.bUpCounter R (n + 1) } ∧
    (tickCounter t).2 = decide (R ∣ n + 1) := by
  have hlt : n % R < R := Nat.mod_lt n hR
  have hdvd : R ∣ n + 1 ↔ (n + 1) % R = 0 := Nat.dvd_iff_mod_eq_zero
  obtain ⟨b1, b2, b3, b4, b5, b6, b7⟩ := t
  simp only at htgt hcur
  subst htgt
  cases b3
  · have hc : b6 = b5 - n % b5 := by simpa [phaseVal] using hcur
    subst hc
    have e2 : 0 < b5 - n % b5 := by omega
    rcases mod_succ_cases n b5 hR with ⟨h1, h2⟩ | ⟨h1, h2⟩
    · have e1 : b5 - n % b5 - 1 = 0 := by omega
      have e3 : b5 - (n % b5 + 1) = 0 := by omega
      simp [tickCounter, phaseVal, hdvd, h2, e1, e2, e3]
    · have e1 : ¬ (b5 - n % b5 - 1 = 0) := by omega
      have e3 : ¬ (b5 - (n % b5 + 1) = 0) := by omega
      have e4 : b5 - n % b5 - 1 = b5 - (n % b5 + 1) := by omega
      have e5 : ¬ (b5 ≤ n % b5 + 1) := by omega
      simp [tickCounter, phaseVal, hdvd, h2, e1, e2, e3, e4, e5]
  · have hc : b6 = n % b5 := by simpa [phaseVal] using hcur
    subst hc
    rcases mod_succ_cases n b5 hR with ⟨h1, h2⟩ | ⟨h1, h2⟩
    · simp [tickCounter, phaseVal, hdvd, h2, hlt, h1]
    · have e2 : ¬ (n % b5 + 1 = b5) := by omega
      simp [tickCounter, phaseVal, hdvd, h2, hlt, e2]

/-- The state of slot `i` while it keeps cycling: after `n` calls it is allocated, and it
differs from the initial slot in the counter only, which is `n` ticks into its cycle.  This
holds for every `n` if the timer is periodic, and for `n < R` if it is one-shot. -/
theorem phase_state (N : Nat) (hN : N ≤ 32) (s : tTIMER_CTL_32BIT) (i R : Nat)
    (hinv : ActiveCountInv N s) (hi : i < N)
    (halloc : s.ui32FreeIndices.testBit i = false)
    (hact : (s.sTimerStruct i).bActive = true)
    (htgt : (s.sTimerStruct i).ui32ResetValue = R) (hR : 1 ≤ R)
    (harm : (s.sTimerStruct i).ui32TimerVal
      = if (s.sTimerStruct i).bUpCounter = true then 0 else R) :
    ∀ n, ((s.sTimerStruct i).bOneShot = false ∨ n < R) →
      (executeN N n s).ui32FreeIndices.testBit i = false ∧
      (executeN N n s).sTimerStruct i
        = { s.sTimerStruct i with
            ui32TimerVal := phaseVal (s.sTimerStruct i).bUpCounter R n } := by
  intro n
  induction n with
  | zero =>
    intro _
    refine ⟨halloc, ?_⟩
    show s.sTimerStruct i = _
    have : phaseVal (s.sTimerStruct i).bUpCounter R 0 = (s.sTimerStruct i).ui32TimerVal := by
      rw [harm]; unfold phaseVal
      split_ifs <;> simp
    rw [this]
  | succ n ih =>
    intro hph
    obtain ⟨hb, hs⟩ := ih (hph.imp id (fun h => by omega))
    have hinvn := executeN_inv N hN s hinv n
    have hla : liveActive (executeN N n s) i = true := by
      unfold liveActive; rw [hb, hs]; simp [hact]
    obtain ⟨ht1, ht2⟩ := tickCounter_phase ((executeN N n s).sTimerStruct i) R n hR
      (by rw [hs]; exact htgt) (by rw [hs])
    have hnofin : ¬ ((tickCounter ((executeN N n s).sTimerStruct i)).2 = true ∧
        ((executeN N n s).sTimerStruct i).bOneShot = true) := by
      rintro ⟨h1, h2⟩
      rw [ht2] at h1
      rw [hs] at h2
      have hd : R ∣ n + 1 := by simpa using h1
      have := Nat.le_of_dvd (by omega) hd
      rcases hph with h | h
      · simp only at h2; rw [h] at h2; exact absurd h2 (by simp)
      · omega
    constructor
    · show (Timer32BitExecute N (executeN N n s)).1.ui32FreeIndices.testBit i = false
      rw [execute_testBit N hN _ hinvn i hi, hb]
      unfold reclaimed
      cases h1 : (tickCounter ((executeN N n s).sTimerStruct i)).2
      · simp
      · cases h2 : ((executeN N n s).sTimerStruct i).bOneShot
        · simp
        · exact absurd ⟨h1, h2⟩ hnofin
    · show (Timer32BitExecute N (executeN N n s)).1.sTimerStruct i = _
      rw [execute_slot N hN _ hinvn i hi]
      unfold procSlot slotAfterTick
      rw [if_pos hla, if_neg hnofin, ht1, hs]

/-- The callbacks of slot `i` during call `n + 1` while it keeps cycling. -/
theorem phase_fired (N : Nat) (hN : N ≤ 32) (s : tTIMER_CTL_32BIT) (i R : Nat)
    (hinv : ActiveCountInv N s) (hi : i < N)
    (halloc : s.ui32FreeIndices.testBit i = false)
    (hact : (s.sTimerStruct i).bActive = true)
    (htgt : (s.sTimerStruct i).ui32ResetValue = R) (hR : 1 ≤ R)
    (harm : (s.sTimerStruct i).ui32TimerVal
      = if (s.sTimerStruct i).bUpCounter = true then 0 else R)
    (n : Nat) (hph : (s.sTimerStruct i).bOneShot = false ∨ n < R) :
    firedFor i (callLog N s (n + 1))
      = if R ∣ n + 1 then
          (match (s.sTimerStruct i).pfnTimer_cb with
            | some cb => [(i, cb)]
            | none => [])
        else [] := by
  obtain ⟨hb, hs⟩ := phase_state N hN s i R hinv hi halloc hact htgt hR harm n hph
  have hinvn := executeN_inv N hN s hinv n
  have hla : liveActive (executeN N n s) i = true := by
    unfold liveActive; rw [hb, hs]; simp [hact]
  obtain ⟨-, ht2⟩ := tickCounter_phase ((executeN N n s).sTimerStruct i) R n hR
    (by rw [hs]; exact htgt) (by rw [hs])
  unfold callLog
  rw [Nat.add_sub_cancel, execute_firedFor N hN _ hinvn i hi]
  unfold evOf slotEvents
  rw [if_pos hla, ht2, hs]
  by_cases hd : R ∣ n + 1 <;> simp [hd]

/-- A slot that is free or inactive is left alone by `Timer32BitExecute`. -/
theorem execute_dead (N : Nat) (hN : N ≤ 32) (s : tTIMER_CTL_32BIT) (i : Nat)
    (hinv : ActiveCountInv N s) (hi : i < N) (hdead : liveActive s i = false) :
    (Timer32BitExecute N s).1.sTimerStruct i = s.sTimerStruct i ∧
    (Timer32BitExecute N s).1.ui32FreeIndices.testBit i = s.ui32FreeIndices.testBit i ∧
    firedFor i (Timer32BitExecute N s).2 = [] := by
  refine ⟨?_, ?_, ?_⟩
  · rw [execute_slot N hN s hinv i hi]; simp [procSlot, hdead]
  · rw [execute_testBit N hN s hinv i hi]; simp [reclaimed, hdead]
  · rw [execute_firedFor N hN s hinv i hi]; simp [evOf, hdead]

/-- After its expiry a one-shot slot stays free and inactive under further execute calls. -/
theorem oneShot_after (N : Nat) (hN : N ≤ 32) (s : tTIMER_CTL_32BIT) (i R : Nat)
    (hinv : ActiveCountInv N s) (hi : i < N)
    (halloc : s.ui32FreeIndices.testBit i = false)
    (hact : (s.sTimerStruct i).bActive = true)
    (hone : (s.sTimerStruct i).bOneShot = true)
    (htgt : (s.sTimerStruct i).ui32ResetValue = R) (hR : 1 ≤ R)
    (harm : (s.sTimerStruct i).ui32TimerVal
      = if (s.sTimerStruct i).bUpCounter = true then 0 else R) :
    ∀ m, R ≤ m → (executeN N m s).ui32FreeIndices.testBit i = true ∧
      ((executeN N m s).sTimerStruct i).bActive = false := by
  intro m hm
  induction m, hm using Nat.le_induction with
  | base =>
    obtain ⟨n, rfl⟩ : ∃ n, R = n + 1 := ⟨R - 1, by omega⟩
    obtain ⟨hb, hs⟩ := phase_state N hN s i (n + 1) hinv hi halloc hact htgt hR harm n
      (Or.inr (Nat.lt_succ_self n))
    have hinvn := executeN_inv N hN s hinv n
    have hla : liveActive (executeN N n s) i = true := by
      unfold liveActive; rw [hb, hs]; simp [hact]
    obtain ⟨-, ht2⟩ := tickCounter_phase ((executeN N n s).sTimerStruct i) (n + 1) n hR
      (by rw [hs]; exact htgt) (by rw [hs])
    have hfin : (tickCounter ((executeN N n s).sTimerStruct i)).2 = true := by
      rw [ht2]; simp
    have hos : ((executeN N n s).sTimerStruct i).bOneShot = true := by rw [hs]; exact hone
    constructor
    · show (Timer32BitExecute N (executeN N n s)).1.ui32FreeIndices.testBit i = true
      rw [execute_testBit N hN _ hinvn i hi]
      simp [reclaimed, hla, hfin, hos]
    · show ((Timer32BitExecute N (executeN N n s)).1.sTimerStruct i).bActive = false
      rw [execute_slot N hN _ hinvn i hi]
      unfold procSlot slotAfterTick
      rw [if_pos hla, if_pos ⟨hfin, hos⟩]
  | succ m _ ih =>
    have hinvm := executeN_inv N hN s hinv m
    have hdead : liveActive (executeN N m s) i = false := by
      unfold liveActive; rw [ih.1]; rfl
    obtain ⟨h1, h2, -⟩ := execute_dead N hN _ i hinvm hi hdead
    constructor
    · show (Timer32BitExecute N (executeN N m s)).1.ui32FreeIndices.testBit i = true
      rw [h2]; exact ih.1
    · show ((Timer32BitExecute N (executeN N m s)).1.sTimerStruct i).bActive = false
      rw [h1]; exact ih.2

theorem tickCounter_range (t : tTIMERVAR32) (h : t.ui32TimerVal ≤ t.ui32ResetValue) :
    (tickCounter t).1.ui32TimerVal ≤ (tickCounter t).1.ui32ResetValue := by
  unfold tickCounter
  dsimp only
  split_ifs <;> simp <;> omega

theorem slotAfterTick_range (t : tTIMERVAR32) (h : t.ui32TimerVal ≤ t.ui32ResetValue) :
    (slotAfterTick t).ui32TimerVal ≤ (slotAfterTick t).ui32ResetValue := by
  unfold slotAfterTick
  split_ifs
  · exact tickCounter_range t h
  · exact tickCounter_range t h

/-! ## The claims -/

/-- C1, ActiveCount invariant: start from the start-up pool and make any sequence of
append, destruct, setActive, setValue and execute calls in which every index argument is an
index that append returned and that has not been reclaimed since. After each call (after
every initial segment of the sequence) the tally `ui8ActiveTimers` equals the number of positions
below the capacity whose free bit is clear and whose active flag is true. -/
theorem activeCount_invariant (N : Nat) (hN : N ≤ 32) (ops : List Op)
    (hadm : Admissible N initSys ops = true) (k : Nat) :
    (Sys.run N initSys (ops.take k)).pool.ui8ActiveTimers
      = ((List.range N).filter (fun i =>
          !((Sys.run N initSys (ops.take k)).pool.ui32FreeIndices.testBit i)
            && ((Sys.run N initSys (ops.take k)).pool.sTimerStruct i).bActive)).length := by
  have h := (run_good N hN (ops.take k) initSys (initSys_good N hN)
    (admissible_take N ops initSys k hadm)).1
  unfold ActiveCountInv countLiveActive at h
  rw [List.countP_eq_length_filter] at h
  exact h

/-- Witness for C1 on a sequence of eight calls that uses every operation, observed after
the fifth call. -/
theorem activeCount_invariant_witness :
    MAX_TIMER_NUMBER ≤ 32 ∧ Admissible MAX_TIMER_NUMBER initSys sampleOps = true ∧
    (Sys.run MAX_TIMER_NUMBER initSys (sampleOps.take 5)).pool.ui8ActiveTimers
      = ((List.range MAX_TIMER_NUMBER).filter (fun i =>
          !((Sys.run MAX_TIMER_NUMBER initSys (sampleOps.take 5)).pool.ui32FreeIndices.testBit i)
            && ((Sys.run MAX_TIMER_NUMBER initSys (sampleOps.take 5)).pool.sTimerStruct i).bActive)).length :=
  ⟨by decide, by decide,
    activeCount_invariant MAX_TIMER_NUMBER (by decide) sampleOps (by decide) 5⟩

/-- C2 as stated fails: on a pool with a free position and the 8-bit tally at 255, the
append of an active configuration succeeds at position 0 and leaves the tally at 0, which
is not the old tally plus one. -/
theorem append_count_wraps :
    wrapPool.ui32FreeIndices.testBit 0 = true ∧ activeConf.bActive = true ∧
    (AppendTimer32Bit MAX_TIMER_NUMBER activeConf wrapPool).2 = 0 ∧
    (AppendTimer32Bit MAX_TIMER_NUMBER activeConf wrapPool).1.ui8ActiveTimers = 0 ∧
    (AppendTimer32Bit MAX_TIMER_NUMBER activeConf wrapPool).1.ui8ActiveTimers
      ≠ wrapPool.ui8ActiveTimers + 1 := by
  decide

/-- C2 amended, append success postcondition: if some position below the capacity is free,
append returns the least free position `i`; afterwards the free bit of `i` is clear, slot
`i` is the configuration with its index field set to `i`, the tally is incremented by 1
modulo 2^8 if the configuration is active and unchanged otherwise, and every other slot
and every other bit of the free mask is unchanged. -/
theorem append_success (N : Nat) (hN : N ≤ 32) (s : tTIMER_CTL_32BIT) (conf : tTIMERVAR32)
    (hfree : ∃ i, i < N ∧ s.ui32FreeIndices.testBit i = true) :
    ∃ i, i < N ∧ s.ui32FreeIndices.testBit i = true ∧
      (∀ j, j < i → s.ui32FreeIndices.testBit j = false) ∧
      (AppendTimer32Bit N conf s).2 = (i : Int) ∧
      (AppendTimer32Bit N conf s).1.ui32FreeIndices.testBit i = false ∧
      (AppendTimer32Bit N conf s).1.sTimerStruct i = { conf with ui8Index := i } ∧
      (AppendTimer32Bit N conf s).1.ui8ActiveTimers
        = (if conf.bActive = true then (s.ui8ActiveTimers + 1) % 256
           else s.ui8ActiveTimers) ∧
      (∀ j, j ≠ i → (AppendTimer32Bit N conf s).1.sTimerStruct j = s.sTimerStruct j) ∧
      (∀ j, j < 32 → j ≠ i → (AppendTimer32Bit N conf s).1.ui32FreeIndices.testBit j
        = s.ui32FreeIndices.testBit j) := by
  obtain ⟨i, hi, hbit, hlow⟩ := exists_least_free N s hfree
  have hr := append_some N conf s i hi hbit hlow
  refine ⟨i, hi, hbit, hlow, ?_, ?_, ?_, ?_, ?_, ?_⟩
  · rw [hr]; exact toInt8_small i (by omega)
  · rw [hr, appendInstall_testBit conf s i i (by omega)]; simp
  · rw [hr]; exact appendInstall_slot_same conf s i
  · rw [hr]; exact appendInstall_count conf s i
  · intro j hj; rw [hr]; exact appendInstall_slot_other conf s i j hj
  · intro j hj hne
    have : ¬ i = j := fun e => hne e.symm
    rw [hr, appendInstall_testBit conf s i j hj]
    simp [this]

/-- Witness for the amended C2 on the pool with the tally at 255. -/
theorem append_success_witness :
    MAX_TIMER_NUMBER ≤ 32 ∧
    (∃ i, i < MAX_TIMER_NUMBER ∧ wrapPool.ui32FreeIndices.testBit i = true) ∧
    ∃ i, i < MAX_TIMER_NUMBER ∧ wrapPool.ui32FreeIndices.testBit i = true ∧
      (∀ j, j < i → wrapPool.ui32FreeIndices.testBit j = false) ∧
      (AppendTimer32Bit MAX_TIMER_NUMBER activeConf wrapPool).2 = (i : Int) ∧
      (AppendTimer32Bit MAX_TIMER_NUMBER activeConf wrapPool).1.ui32FreeIndices.testBit i
        = false ∧
      (AppendTimer32Bit MAX_TIMER_NUMBER activeConf wrapPool).1.sTimerStruct i
        = { activeConf with ui8Index := i } ∧
      (AppendTimer32Bit MAX_TIMER_NUMBER activeConf wrapPool).1.ui8ActiveTimers
        = (if activeConf.bActive = true then (wrapPool.ui8ActiveTimers + 1) % 256
           else wrapPool.ui8ActiveTimers) ∧
      (∀ j, j ≠ i → (AppendTimer32Bit MAX_TIMER_NUMBER activeConf wrapPool).1.sTimerStruct j
        = wrapPool.sTimerStruct j) ∧
      (∀ j, j < 32 → j ≠ i →
        (AppendTimer32Bit MAX_TIMER_NUMBER activeConf wrapPool).1.ui32FreeIndices.testBit j
          = wrapPool.ui32FreeIndices.testBit j) :=
  ⟨by decide, ⟨0, by decide, by decide⟩,
    append_success MAX_TIMER_NUMBER (by decide) wrapPool activeConf
      ⟨0, by decide, by decide⟩⟩

/-- C3, append exhaustion: append returns the sentinel -1 exactly when no position below
the capacity has its free bit set; in that case the pool (free mask, tally and every slot)
is unchanged; every other return value lies in `0 .. N-1`. -/
theorem append_exhaustion (N : Nat) (hN : N ≤ 32) (s : tTIMER_CTL_32BIT)
    (conf : tTIMERVAR32) :
    ((AppendTimer32Bit N conf s).2 = -1
      ↔ ∀ i, i < N → s.ui32FreeIndices.testBit i = false) ∧
    ((AppendTimer32Bit N conf s).2 = -1 → (AppendTimer32Bit N conf s).1 = s) ∧
    ((AppendTimer32Bit N conf s).2 ≠ -1 →
      0 ≤ (AppendTimer32Bit N conf s).2 ∧ (AppendTimer32Bit N conf s).2 < (N : Int)) := by
  by_cases h : ∃ i, i < N ∧ s.ui32FreeIndices.testBit i = true
  · obtain ⟨i, hi, hbit, hlow⟩ := exists_least_free N s h
    have hr := append_some N conf s i hi hbit hlow
    have hti : toInt8 i = (i : Int) := toInt8_small i (by omega)
    rw [hr, hti]
    refine ⟨⟨fun h1 => ?_, fun h1 => ?_⟩, fun h1 => ?_, fun _ => ?_⟩
    · exact absurd h1 (by omega)
    · rw [h1 i hi] at hbit; exact absurd hbit (by simp)
    · exact absurd h1 (by omega)
    · exact ⟨by omega, by omega⟩
  · have hnone : ∀ j, j < N → s.ui32FreeIndices.testBit j = false := by
      intro j hj
      cases hb : s.ui32FreeIndices.testBit j
      · rfl
      · exact absurd ⟨j, hj, hb⟩ h
    rw [append_none N conf s hnone]
    exact ⟨⟨fun _ => hnone, fun _ => rfl⟩, fun _ => rfl, fun h1 => absurd rfl h1⟩

/-- Witness for C3 on the start-up pool. -/
theorem append_exhaustion_witness :
    MAX_TIMER_NUMBER ≤ 32 ∧
    (((AppendTimer32Bit MAX_TIMER_NUMBER activeConf tTIMER_32BIT_CTL_DEFAULTS).2 = -1
      ↔ ∀ i, i < MAX_TIMER_NUMBER →
          tTIMER_32BIT_CTL_DEFAULTS.ui32FreeIndices.testBit i = false) ∧
    ((AppendTimer32Bit MAX_TIMER_NUMBER activeConf tTIMER_32BIT_CTL_DEFAULTS).2 = -1 →
      (AppendTimer32Bit MAX_TIMER_NUMBER activeConf tTIMER_32BIT_CTL_DEFAULTS).1
        = tTIMER_32BIT_CTL_DEFAULTS) ∧
    ((AppendTimer32Bit MAX_TIMER_NUMBER activeConf tTIMER_32BIT_CTL_DEFAULTS).2 ≠ -1 →
      0 ≤ (AppendTimer32Bit MAX_TIMER_NUMBER activeConf tTIMER_32BIT_CTL_DEFAULTS).2 ∧
      (AppendTimer32Bit MAX_TIMER_NUMBER activeConf tTIMER_32BIT_CTL_DEFAULTS).2
        < (MAX_TIMER_NUMBER : Int))) :=
  ⟨by decide,
    append_exhaustion MAX_TIMER_NUMBER (by decide) tTIMER_32BIT_CTL_DEFAULTS activeConf⟩

/-- C4, capacity law: from the start-up pool of capacity `N`, for any `N` configurations
the `k`-th of `N` consecutive appends (`k = 0 .. N-1`) returns `k`, and one more append
returns the sentinel -1. -/
theorem capacity_law (N : Nat) (hN : N ≤ 32) (confs : List tTIMERVAR32)
    (hlen : confs.length = N) :
    (appendAll N confs tTIMER_32BIT_CTL_DEFAULTS).2 = (List.range N).map Int.ofNat ∧
    ∀ conf, (AppendTimer32Bit N conf (appendAll N confs tTIMER_32BIT_CTL_DEFAULTS).1).2
      = -1 := by
  have hinit : ∀ j, j < 32 →
      tTIMER_32BIT_CTL_DEFAULTS.ui32FreeIndices.testBit j = decide (0 ≤ j) := by
    intro j hj
    rw [init_testBit j hj]; simp
  obtain ⟨h1, h2⟩ := appendAll_spec N hN confs 0 tTIMER_32BIT_CTL_DEFAULTS hinit (by omega)
  refine ⟨by rw [h1, hlen, List.range_eq_range'], ?_⟩
  intro conf
  rw [append_none N conf _ ?_]
  intro j hj
  rw [h2 j (by omega)]
  simp; omega

/-- Witness for C4 with capacity 3 and three different configurations. -/
theorem capacity_law_witness :
    3 ≤ 32 ∧
    [activeConf, tTIMERVAR32_DEFAULTS, { activeConf with ui8Index := 7 }].length = 3 ∧
    ((appendAll 3 [activeConf, tTIMERVAR32_DEFAULTS, { activeConf with ui8Index := 7 }]
        tTIMER_32BIT_CTL_DEFAULTS).2 = (List.range 3).map Int.ofNat ∧
    ∀ conf, (AppendTimer32Bit 3 conf
      (appendAll 3 [activeConf, tTIMERVAR32_DEFAULTS, { activeConf with ui8Index := 7 }]
        tTIMER_32BIT_CTL_DEFAULTS).1).2 = -1) :=
  ⟨by decide, by decide,
    capacity_law 3 (by decide)
      [activeConf, tTIMERVAR32_DEFAULTS, { activeConf with ui8Index := 7 }] (by decide)⟩

/-- C9, setValue contract: `Timer32BitSetValue s i a v` sets the reset value to `v` and the
counter to 0 on an up-counting slot, sets the counter to `v` and keeps the reset value on
a down-counting slot; the active flag and the tally end as after
`Timer32BitSetActive s i a`; direction, one-shot flag, callback and index of slot `i`, the
free mask and every other slot are unchanged. -/
theorem setValue_contract (s : tTIMER_CTL_32BIT) (i : Nat) (a : Bool) (v : Nat) :
    ((Timer32BitSetValue s i a v).sTimerStruct i).ui32ResetValue
      = (if (s.sTimerStruct i).bUpCounter = true then v
         else (s.sTimerStruct i).ui32ResetValue) ∧
    ((Timer32BitSetValue s i a v).sTimerStruct i).ui32TimerVal
      = (if (s.sTimerStruct i).bUpCounter = true then 0 else v) ∧
    ((Timer32BitSetValue s i a v).sTimerStruct i).bActive
      = ((Timer32BitSetActive s i a).sTimerStruct i).bActive ∧
    (Timer32BitSetValue s i a v).ui8ActiveTimers
      = (Timer32BitSetActive s i a).ui8ActiveTimers ∧
    ((Timer32BitSetValue s i a v).sTimerStruct i).bUpCounter
      = (s.sTimerStruct i).bUpCounter ∧
    ((Timer32BitSetValue s i a v).sTimerStruct i).bOneShot = (s.sTimerStruct i).bOneShot ∧
    ((Timer32BitSetValue s i a v).sTimerStruct i).pfnTimer_cb
      = (s.sTimerStruct i).pfnTimer_cb ∧
    ((Timer32BitSetValue s i a v).sTimerStruct i).ui8Index = (s.sTimerStruct i).ui8Index ∧
    (Timer32BitSetValue s i a v).ui32FreeIndices = s.ui32FreeIndices ∧
    ∀ j, j ≠ i → (Timer32BitSetValue s i a v).sTimerStruct j = s.sTimerStruct j := by
  have hslot : (Timer32BitSetValue s i a v).sTimerStruct i
      = { (valueWritten s i v).sTimerStruct i with bActive := a } := by
    rw [setValue_eq, setActive_slot_same]
  have hcount : (Timer32BitSetValue s i a v).ui8ActiveTimers
      = (Timer32BitSetActive s i a).ui8ActiveTimers := by
    have h1 := setActive_count (valueWritten s i v) i a
    have h2 := setActive_count s i a
    rw [valueWritten_bActive] at h1
    rw [setValue_eq]
    have h3 : (valueWritten s i v).ui8ActiveTimers = s.ui8ActiveTimers := rfl
    rw [h3] at h1
    omega
  rw [hslot, valueWritten_slot_same, setActive_slot_same]
  refine ⟨?_, ?_, ?_, hcount, ?_, ?_, ?_, ?_, ?_, ?_⟩
  · split_ifs <;> rfl
  · split_ifs <;> rfl
  · rfl
  · split_ifs <;> rfl
  · split_ifs <;> rfl
  · split_ifs <;> rfl
  · split_ifs <;> rfl
  · rw [setValue_eq, setActive_free]; rfl
  · intro j hj
    rw [setValue_eq, setActive_slot_other _ _ _ _ hj, valueWritten_slot_other s i j v hj]

/-- C10, setActive contract: `Timer32BitSetActive s i a` sets the active flag of slot `i`
to `a`; the tally changes, modulo 2^8, by +1 if the flag went from false to true, by -1 if
it went from true to false and by 0 if it did not change; the free mask, every other field
of slot `i` and every other slot are unchanged. -/
theorem setActive_contract (s : tTIMER_CTL_32BIT) (i : Nat) (a : Bool) :
    ((Timer32BitSetActive s i a).sTimerStruct i).bActive = a ∧
    ((Timer32BitSetActive s i a).ui8ActiveTimers : Int)
      = ((s.ui8ActiveTimers : Int)
          + (if (s.sTimerStruct i).bActive = false ∧ a = true then 1
             else if (s.sTimerStruct i).bActive = true ∧ a = false then -1 else 0)) % 256 ∧
    (Timer32BitSetActive s i a).ui32FreeIndices = s.ui32FreeIndices ∧
    (Timer32BitSetActive s i a).sTimerStruct i = { s.sTimerStruct i with bActive := a } ∧
    ∀ j, j ≠ i → (Timer32BitSetActive s i a).sTimerStruct j = s.sTimerStruct j := by
  refine ⟨?_, setActive_count s i a, rfl, setActive_slot_same s i a,
    fun j hj => setActive_slot_other s i j a hj⟩
  rw [setActive_slot_same]

/-- C5 as stated fails: the pool satisfies the invariant and holds an allocated, active,
periodic up-counter at position 0 with reset value 1, armed at 0, whose callback is `NULL`;
1 divides 1, yet the first call of `Timer32BitExecute` invokes no callback. -/
theorem period_law_null_callback :
    ActiveCountInv MAX_TIMER_NUMBER nullCbPool ∧
    nullCbPool.ui32FreeIndices.testBit 0 = false ∧
    (nullCbPool.sTimerStruct 0).bActive = true ∧
    (nullCbPool.sTimerStruct 0).bOneShot = false ∧
    (nullCbPool.sTimerStruct 0).bUpCounter = true ∧
    (nullCbPool.sTimerStruct 0).ui32ResetValue = 1 ∧
    (nullCbPool.sTimerStruct 0).ui32TimerVal = 0 ∧
    (nullCbPool.sTimerStruct 0).pfnTimer_cb = none ∧
    1 ∣ 1 ∧
    callLog MAX_TIMER_NUMBER nullCbPool 1 = [] := by
  decide

/-- C5 amended, period law: for `R ≥ 1` and both directions, take a pool that satisfies the
ActiveCount invariant and holds an allocated, active, periodic slot `i` with a bound
callback `cb` and reset value `R`, armed at its natural start (counter 0 counting up,
counter `R` counting down). With only execute calls made afterwards, the callback of slot
`i` is invoked during the `k`-th call (once) if `R` divides `k`, and not at all
otherwise. -/
theorem period_law (N : Nat) (hN : N ≤ 32) (s : tTIMER_CTL_32BIT) (i R cb : Nat)
    (hinv : ActiveCountInv N s) (hi : i < N)
    (halloc : s.ui32FreeIndices.testBit i = false)
    (hact : (s.sTimerStruct i).bActive = true)
    (hper : (s.sTimerStruct i).bOneShot = false)
    (hcb : (s.sTimerStruct i).pfnTimer_cb = some cb)
    (htgt : (s.sTimerStruct i).ui32ResetValue = R) (hR : 1 ≤ R)
    (harm : (s.sTimerStruct i).ui32TimerVal
      = if (s.sTimerStruct i).bUpCounter = true then 0 else R)
    (k : Nat) (hk : 1 ≤ k) :
    firedFor i (callLog N s k) = if R ∣ k then [(i, cb)] else [] := by
  obtain ⟨n, rfl⟩ : ∃ n, k = n + 1 := ⟨k - 1, by omega⟩
  rw [phase_fired N hN s i R hinv hi halloc hact htgt hR harm n (Or.inl hper), hcb]

/-- Witness for the amended C5: the down-counter with reset value 3 at position 0 of the
two-timer pool, observed during the sixth call. -/
theorem period_law_witness :
    MAX_TIMER_NUMBER ≤ 32 ∧ ActiveCountInv MAX_TIMER_NUMBER twoTimerPool ∧
    0 < MAX_TIMER_NUMBER ∧ twoTimerPool.ui32FreeIndices.testBit 0 = false ∧
    (twoTimerPool.sTimerStruct 0).bActive = true ∧
    (twoTimerPool.sTimerStruct 0).bOneShot = false ∧
    (twoTimerPool.sTimerStruct 0).pfnTimer_cb = some 7 ∧
    (twoTimerPool.sTimerStruct 0).ui32ResetValue = 3 ∧ 1 ≤ 3 ∧
    (twoTimerPool.sTimerStruct 0).ui32TimerVal
      = (if (twoTimerPool.sTimerStruct 0).bUpCounter = true then 0 else 3) ∧
    1 ≤ 6 ∧
    firedFor 0 (callLog MAX_TIMER_NUMBER twoTimerPool 6) = if 3 ∣ 6 then [(0, 7)] else [] :=
  ⟨by decide, by decide, by decide, by decide, by decide, by decide, by decide, by decide,
    by decide, by decide, by decide,
    period_law MAX_TIMER_NUMBER (by decide) twoTimerPool 0 3 7 (by decide) (by decide)
      (by decide) (by decide) (by decide) (by decide) (by decide) (by decide) (by decide)
      6 (by decide)⟩

/-- C6, one-shot law: take a pool that satisfies the ActiveCount invariant and holds an
allocated, active, one-shot slot `i` with a bound callback `cb` and reset value `R ≥ 1`,
armed at its natural start. Under consecutive execute calls the callback of slot `i` is
invoked during the `R`-th call and during no other call, so over any `n ≥ R` calls it is
invoked exactly once; after the `R`-th call the free bit of `i` is set, slot `i` is
inactive, and the tally equals the number of allocated active slots that remain. -/
theorem oneShot_law (N : Nat) (hN : N ≤ 32) (s : tTIMER_CTL_32BIT) (i R cb : Nat)
    (hinv : ActiveCountInv N s) (hi : i < N)
    (halloc : s.ui32FreeIndices.testBit i = false)
    (hact : (s.sTimerStruct i).bActive = true)
    (hone : (s.sTimerStruct i).bOneShot = true)
    (hcb : (s.sTimerStruct i).pfnTimer_cb = some cb)
    (htgt : (s.sTimerStruct i).ui32ResetValue = R) (hR : 1 ≤ R)
    (harm : (s.sTimerStruct i).ui32TimerVal
      = if (s.sTimerStruct i).bUpCounter = true then 0 else R) :
    (∀ k, 1 ≤ k → firedFor i (callLog N s k) = if k = R then [(i, cb)] else []) ∧
    (∀ n, R ≤ n → totalFired N s i n = 1) ∧
    (executeN N R s).ui32FreeIndices.testBit i = true ∧
    ((executeN N R s).sTimerStruct i).bActive = false ∧
    (executeN N R s).ui8ActiveTimers
      = ((List.range N).filter (fun j =>
          !((executeN N R s).ui32FreeIndices.testBit j)
            && ((executeN N R s).sTimerStruct j).bActive)).length := by
  have hafter := oneShot_after N hN s i R hinv hi halloc hact hone htgt hR harm
  have hfire : ∀ k, 1 ≤ k →
      firedFor i (callLog N s k) = if k = R then [(i, cb)] else [] := by
    intro k hk
    obtain ⟨n, rfl⟩ : ∃ n, k = n + 1 := ⟨k - 1, by omega⟩
    by_cases hn : n < R
    · rw [phase_fired N hN s i R hinv hi halloc hact htgt hR harm n (Or.inr hn), hcb]
      by_cases hd : R ∣ n + 1
      · have := Nat.le_of_dvd (by omega) hd
        have e : n + 1 = R := by omega
        rw [if_pos hd, if_pos e]
      · have e : ¬ n + 1 = R := fun e => hd (by rw [e])
        rw [if_neg hd, if_neg e]
    · have hdead : liveActive (executeN N n s) i = false := by
        unfold liveActive; rw [(hafter n (by omega)).1]; rfl
      have e : ¬ n + 1 = R := by omega
      unfold callLog
      rw [Nat.add_sub_cancel,
        (execute_dead N hN _ i (executeN_inv N hN s hinv n) hi hdead).2.2, if_neg e]
  have htotal : ∀ n, totalFired N s i n = if n < R then 0 else 1 := by
    intro n
    induction n with
    | zero =>
      have : 0 < R := by omega
      simp [totalFired, this]
    | succ n ih =>
      simp only [totalFired]
      rw [ih, hfire (n + 1) (by omega)]
      by_cases h1 : n + 1 = R
      · have h2 : n < R := by omega
        have h3 : ¬ n + 1 < R := by omega
        simp [h1, h2, h3]
      · by_cases h2 : n < R
        · have h3 : n + 1 < R := by omega
          simp [h1, h2, h3]
        · have h3 : ¬ n + 1 < R := by omega
          simp [h1, h2, h3]
  refine ⟨hfire, ?_, (hafter R (Nat.le_refl R)).1, (hafter R (Nat.le_refl R)).2, ?_⟩
  · intro n hn
    rw [htotal n, if_neg (by omega)]
  · have h := executeN_inv N hN s hinv R
    unfold ActiveCountInv countLiveActive at h
    rw [List.countP_eq_length_filter] at h
    exact h

/-- Witness for C6: the one-shot up-counter with reset value 2 at position 1 of the
two-timer pool. -/
theorem oneShot_law_witness :
    MAX_TIMER_NUMBER ≤ 32 ∧ ActiveCountInv MAX_TIMER_NUMBER twoTimerPool ∧
    1 < MAX_TIMER_NUMBER ∧ twoTimerPool.ui32FreeIndices.testBit 1 = false ∧
    (twoTimerPool.sTimerStruct 1).bActive = true ∧
    (twoTimerPool.sTimerStruct 1).bOneShot = true ∧
    (twoTimerPool.sTimerStruct 1).pfnTimer_cb = some 8 ∧
    (twoTimerPool.sTimerStruct 1).ui32ResetValue = 2 ∧ 1 ≤ 2 ∧
    (twoTimerPool.sTimerStruct 1).ui32TimerVal
      = (if (twoTimerPool.sTimerStruct 1).bUpCounter = true then 0 else 2) ∧
    ((∀ k, 1 ≤ k → firedFor 1 (callLog MAX_TIMER_NUMBER twoTimerPool k)
        = if k = 2 then [(1, 8)] else []) ∧
    (∀ n, 2 ≤ n → totalFired MAX_TIMER_NUMBER twoTimerPool 1 n = 1) ∧
    (executeN MAX_TIMER_NUMBER 2 twoTimerPool).ui32FreeIndices.testBit 1 = true ∧
    ((executeN MAX_TIMER_NUMBER 2 twoTimerPool).sTimerStruct 1).bActive = false ∧
    (executeN MAX_TIMER_NUMBER 2 twoTimerPool).ui8ActiveTimers
      = ((List.range MAX_TIMER_NUMBER).filter (fun j =>
          !((executeN MAX_TIMER_NUMBER 2 twoTimerPool).ui32FreeIndices.testBit j)
            && ((executeN MAX_TIMER_NUMBER 2 twoTimerPool).sTimerStruct j).bActive)).length) :=
  ⟨by decide, by decide, by decide, by decide, by decide, by decide, by decide, by decide,
    by decide, by decide,
    oneShot_law MAX_TIMER_NUMBER (by decide) twoTimerPool 1 2 8 (by decide) (by decide)
      (by decide) (by decide) (by decide) (by decide) (by decide) (by decide) (by decide)⟩

/-- C7 as stated fails: after two appends and the destruct of index 0 (all admissible
calls from the start-up pool) index 1 is allocated, but destruct(1) followed by an append
returns 0, not 1. -/
theorem reuse_law_lower_free :
    Admissible MAX_TIMER_NUMBER initSys reuseOps = true ∧
    1 ∈ (Sys.run MAX_TIMER_NUMBER initSys reuseOps).handles ∧
    (Sys.run MAX_TIMER_NUMBER initSys reuseOps).pool.ui32FreeIndices.testBit 1 = false ∧
    (AppendTimer32Bit MAX_TIMER_NUMBER activeConf
      (Timer32BitDestruct (Sys.run MAX_TIMER_NUMBER initSys reuseOps).pool 1)).2 = 0 ∧
    (AppendTimer32Bit MAX_TIMER_NUMBER activeConf
      (Timer32BitDestruct (Sys.run MAX_TIMER_NUMBER initSys reuseOps).pool 1)).2 ≠ 1 := by
  decide

/-- C7 amended, reuse law: for every pool state (reachable or not) and every index `i`
below the capacity, destruct(i) followed by an append returns the lowest free position `r`,
which is at most `i`, and the stored index field of the newly installed slot equals `r`;
if no position below `i` was free, then `r = i`: the append returns `i` again and the
stored index field equals `i`. -/
theorem reuse_law (N : Nat) (hN : N ≤ 32) (s : tTIMER_CTL_32BIT) (i : Nat) (hi : i < N)
    (conf : tTIMERVAR32) :
    ∃ r : Nat, r ≤ i ∧
      (AppendTimer32Bit N conf (Timer32BitDestruct s i)).2 = (r : Int) ∧
      ((AppendTimer32Bit N conf (Timer32BitDestruct s i)).1.sTimerStruct r).ui8Index = r ∧
      (∀ j, j < r → s.ui32FreeIndices.testBit j = false) ∧
      ((∀ j, j < i → s.ui32FreeIndices.testBit j = false) → r = i) := by
  have hbit : ∀ j, (Timer32BitDestruct s i).ui32FreeIndices.testBit j
      = (s.ui32FreeIndices.testBit j || decide (i = j)) := by
    intro j; rw [destruct_free, testBit_setBit]
  have hex : ∃ j, j < N ∧ (Timer32BitDestruct s i).ui32FreeIndices.testBit j = true :=
    ⟨i, hi, by rw [hbit]; simp⟩
  obtain ⟨r, hr, hfree, hlow⟩ := exists_least_free N _ hex
  have hri : r ≤ i := by
    by_contra hlt
    have h1 := hlow i (by omega)
    rw [hbit] at h1
    simp at h1
  have hres := append_some N conf _ r hr hfree hlow
  have hlow' : ∀ j, j < r → s.ui32FreeIndices.testBit j = false := by
    intro j hj
    have h1 := hlow j hj
    rw [hbit, Bool.or_eq_false_iff] at h1
    exact h1.1
  refine ⟨r, hri, ?_, ?_, hlow', ?_⟩
  · rw [hres]; exact toInt8_small r (by omega)
  · rw [hres, appendInstall_slot_same]
  · intro hall
    by_contra hne
    have hlt : r < i := by omega
    rw [hbit, hall r hlt] at hfree
    have : ¬ i = r := by omega
    simp [this] at hfree

/-- Witness for the amended C7 on the pool reached by `reuseOps`, at index 1. -/
theorem reuse_law_witness :
    MAX_TIMER_NUMBER ≤ 32 ∧ 1 < MAX_TIMER_NUMBER ∧
    ∃ r : Nat, r ≤ 1 ∧
      (AppendTimer32Bit MAX_TIMER_NUMBER activeConf
        (Timer32BitDestruct (Sys.run MAX_TIMER_NUMBER initSys reuseOps).pool 1)).2
          = (r : Int) ∧
      ((AppendTimer32Bit MAX_TIMER_NUMBER activeConf
        (Timer32BitDestruct (Sys.run MAX_TIMER_NUMBER initSys reuseOps).pool 1)).1.sTimerStruct
          r).ui8Index = r ∧
      (∀ j, j < r →
        (Sys.run MAX_TIMER_NUMBER initSys reuseOps).pool.ui32FreeIndices.testBit j = false) ∧
      ((∀ j, j < 1 →
        (Sys.run MAX_TIMER_NUMBER initSys reuseOps).pool.ui32FreeIndices.testBit j = false) →
        r = 1) :=
  ⟨by decide, by decide,
    reuse_law MAX_TIMER_NUMBER (by decide) (Sys.run MAX_TIMER_NUMBER initSys reuseOps).pool 1
      (by decide) activeConf⟩

/-- C8 as stated fails: in `downPool` every allocated slot has its counter at most its
reset value, index 0 is allocated and counts down, and after
`Timer32BitSetValue downPool 0 true 10` slot 0 is still allocated with counter 10 above its
reset value 3. -/
theorem setValue_breaks_range :
    RangeInv MAX_TIMER_NUMBER downPool ∧
    downPool.ui32FreeIndices.testBit 0 = false ∧
    (downPool.sTimerStruct 0).bUpCounter = false ∧
    (Timer32BitSetValue downPool 0 true 10).ui32FreeIndices.testBit 0 = false ∧
    ((Timer32BitSetValue downPool 0 true 10).sTimerStruct 0).ui32TimerVal = 10 ∧
    ((Timer32BitSetValue downPool 0 true 10).sTimerStruct 0).ui32ResetValue = 3 ∧
    ¬ RangeInv MAX_TIMER_NUMBER (Timer32BitSetValue downPool 0 true 10) := by
  decide

/-- C8 amended, counter-range invariant: on a pool in which every allocated slot has its
counter at most its reset value, each of append (given a configuration with counter at most
reset value), destruct, setActive, execute, and setValue on an up-counting slot or with a
value at most the reset value of a down-counting slot, yields a pool in which every
allocated slot still has its counter at most its reset value. -/
theorem range_invariant (N : Nat) (hN : N ≤ 32) (s : tTIMER_CTL_32BIT)
    (h : RangeInv N s) :
    (∀ conf : tTIMERVAR32, conf.ui32TimerVal ≤ conf.ui32ResetValue →
      RangeInv N (AppendTimer32Bit N conf s).1) ∧
    (∀ i, RangeInv N (Timer32BitDestruct s i)) ∧
    (∀ i a, RangeInv N (Timer32BitSetActive s i a)) ∧
    (∀ i a v, ((s.sTimerStruct i).bUpCounter = true ∨ v ≤ (s.sTimerStruct i).ui32ResetValue) →
      RangeInv N (Timer32BitSetValue s i a v)) ∧
    RangeInv N (Timer32BitExecute N s).1 := by
  refine ⟨?_, ?_, ?_, ?_, ?_⟩
  · intro conf hconf
    by_cases hex : ∃ i, i < N ∧ s.ui32FreeIndices.testBit i = true
    · obtain ⟨i, hi, hfree, hlow⟩ := exists_least_free N s hex
      rw [append_some N conf s i hi hfree hlow]
      intro j hj hb
      by_cases hji : j = i
      · subst hji
        rw [appendInstall_slot_same]
        exact hconf
      · rw [appendInstall_slot_other conf s i j hji]
        rw [appendInstall_testBit conf s i j (by omega)] at hb
        have : ¬ i = j := fun e => hji e.symm
        exact h j hj (by simpa [this] using hb)
    · have hnone : ∀ j, j < N → s.ui32FreeIndices.testBit j = false := by
        intro j hj
        cases hb : s.ui32FreeIndices.testBit j
        · rfl
        · exact absurd ⟨j, hj, hb⟩ hex
      rw [append_none N conf s hnone]
      exact h
  · intro i j hj hb
    rw [destruct_free, testBit_setBit, Bool.or_eq_false_iff] at hb
    by_cases hji : j = i
    · subst hji
      rw [destruct_slot_same]
      exact h j hj hb.1
    · rw [destruct_slot_other s i j hji]
      exact h j hj hb.1
  · intro i a j hj hb
    rw [setActive_free] at hb
    by_cases hji : j = i
    · subst hji
      rw [setActive_slot_same]
      exact h j hj hb
    · rw [setActive_slot_other s i j a hji]
      exact h j hj hb
  · intro i a v hv j hj hb
    rw [setValue_eq, setActive_free] at hb
    rw [setValue_eq]
    by_cases hji : j = i
    · subst hji
      rw [setActive_slot_same, valueWritten_slot_same]
      rcases hv with hup | hle
      · rw [if_pos hup]; exact Nat.zero_le _
      · by_cases hup : (s.sTimerStruct j).bUpCounter = true
        · rw [if_pos hup]; exact Nat.zero_le _
        · rw [if_neg hup]; exact hle
    · rw [setActive_slot_other _ _ _ _ hji, valueWritten_slot_other s i j v hji]
      exact h j hj hb
  · intro j hj hb
    obtain ⟨k, -, -, hs, hf, -, -, -⟩ :=
      executeLoop_spec N N 0 (toInt8 s.ui8ActiveTimers) s []
    have hb' : s.ui32FreeIndices.testBit j = false := by
      have := hf j
      rw [show (executeLoop N N 0 (toInt8 s.ui8ActiveTimers) s []).1
        = (Timer32BitExecute N s).1 from rfl, hb] at this
      have h2 := this.symm
      rw [Bool.or_eq_false_iff] at h2
      exact h2.1
    have hslot := hs j
    rw [show (executeLoop N N 0 (toInt8 s.ui8ActiveTimers) s []).1
      = (Timer32BitExecute N s).1 from rfl] at hslot
    rw [hslot]
    split_ifs
    · unfold procSlot
      split_ifs
      · exact slotAfterTick_range _ (h j hj hb')
      · exact h j hj hb'
    · exact h j hj hb'

/-- Witness for the amended C8 on `downPool`. -/
theorem range_invariant_witness :
    MAX_TIMER_NUMBER ≤ 32 ∧ RangeInv MAX_TIMER_NUMBER downPool ∧
    ((∀ conf : tTIMERVAR32, conf.ui32TimerVal ≤ conf.ui32ResetValue →
      RangeInv MAX_TIMER_NUMBER (AppendTimer32Bit MAX_TIMER_NUMBER conf downPool).1) ∧
    (∀ i, RangeInv MAX_TIMER_NUMBER (Timer32BitDestruct downPool i)) ∧
    (∀ i a, RangeInv MAX_TIMER_NUMBER (Timer32BitSetActive downPool i a)) ∧
    (∀ i a v, ((downPool.sTimerStruct i).bUpCounter = true
        ∨ v ≤ (downPool.sTimerStruct i).ui32ResetValue) →
      RangeInv MAX_TIMER_NUMBER (Timer32BitSetValue downPool i a v)) ∧
    RangeInv MAX_TIMER_NUMBER (Timer32BitExecute MAX_TIMER_NUMBER downPool).1) :=
  ⟨by decide, by decide, range_invariant MAX_TIMER_NUMBER (by decide) downPool (by decide)⟩


/-! ## Helper facts for the later claims -/

theorem pool_ext (s r : tTIMER_CTL_32BIT) (h1 : s.ui32FreeIndices = r.ui32FreeIndices)
    (h2 : s.ui8ActiveTimers = r.ui8ActiveTimers) (h3 : s.sTimerStruct = r.sTimerStruct) :
    s = r := by
  cases s; cases r
  simp only at h1 h2 h3
  subst h1; subst h2; subst h3
  rfl

theorem toInt8_zero : toInt8 0 = 0 := by decide

theorem naiveLoop_stop (N fuel idx : Nat) (s : tTIMER_CTL_32BIT) (log : List Event)
    (h : ¬ idx < N) : naiveLoop N fuel idx s log = (s, log) := by
  cases fuel with
  | zero => rfl
  | succ fuel => simp only [naiveLoop, h, if_false]

theorem naiveLoop_skip (N fuel idx : Nat) (s : tTIMER_CTL_32BIT) (log : List Event)
    (h : idx < N) (hl : liveActive s idx = false) :
    naiveLoop N (fuel + 1) idx s log = naiveLoop N fuel (idx + 1) s log := by
  simp only [naiveLoop, h, skip_test, hl]
  simp

theorem naiveLoop_proc (N fuel idx : Nat) (s : tTIMER_CTL_32BIT) (log : List Event)
    (h : idx < N) (hl : liveActive s idx = true) :
    naiveLoop N (fuel + 1) idx s log
      = naiveLoop N fuel (idx + 1) (executeBody s idx log).1 (executeBody s idx log).2 := by
  simp only [naiveLoop, h, skip_test, hl]
  simp

/-- Over positions that are all free or inactive the reference executor does nothing. -/
theorem naiveLoop_dead (N : Nat) :
    ∀ (fuel idx : Nat) (s : tTIMER_CTL_32BIT) (log : List Event),
      (∀ j, idx ≤ j → j < idx + fuel → liveActive s j = false) →
      naiveLoop N fuel idx s log = (s, log) := by
  intro fuel
  induction fuel with
  | zero => intro idx s log _; rfl
  | succ fuel ih =>
    intro idx s log h
    by_cases hN : idx < N
    · rw [naiveLoop_skip N fuel idx s log hN (h idx (Nat.le_refl _) (by omega))]
      exact ih (idx + 1) s log (fun j h1 h2 => h j (by omega) (by omega))
    · exact naiveLoop_stop N _ idx s log hN

/-- With the countdown equal to the number of allocated active positions still ahead, the
walk of `Timer32BitExecute` and the reference executor agree. -/
theorem executeLoop_eq_naiveLoop (N : Nat) :
    ∀ (fuel idx : Nat) (cnt : Int) (s : tTIMER_CTL_32BIT) (log : List Event),
      cnt = (countRange s idx fuel : Int) →
      executeLoop N fuel idx cnt s log = naiveLoop N fuel idx s log := by
  intro fuel
  induction fuel with
  | zero => intro idx cnt s log _; rfl
  | succ fuel ih =>
    intro idx cnt s log hcnt
    simp only [countRange] at hcnt
    by_cases hN : idx < N
    · cases hl : liveActive s idx
      · rw [hl] at hcnt
        simp only [Bool.false_eq_true, if_false] at hcnt
        rw [naiveLoop_skip N fuel idx s log hN hl]
        by_cases hpos : 0 < cnt
        · rw [executeLoop_skip N fuel idx cnt s log ⟨hpos, hN⟩ hl]
          exact ih (idx + 1) cnt s log (by omega)
        · rw [executeLoop_stop N _ idx cnt s log (fun h => hpos h.1)]
          have hz : countRange s (idx + 1) fuel = 0 := by omega
          rw [naiveLoop_dead N fuel (idx + 1) s log
            (fun j h1 h2 => countRange_eq_zero s fuel (idx + 1) hz j h1 h2)]
      · rw [hl] at hcnt
        simp only [if_true] at hcnt
        have hag := executeBody_agreeFrom s idx log
        rw [executeLoop_proc N fuel idx cnt s log ⟨by omega, hN⟩ hl,
          naiveLoop_proc N fuel idx s log hN hl]
        apply ih
        rw [hag.countRange fuel (idx + 1) (idx + 1) (Nat.le_refl _)]
        omega
    · rw [executeLoop_stop N _ idx cnt s log (fun h => hN h.2),
        naiveLoop_stop N _ idx s log hN]

theorem evOf_length (s : tTIMER_CTL_32BIT) (j : Nat) : (evOf s j).length ≤ 1 := by
  unfold evOf slotEvents
  split_ifs
  · cases (s.sTimerStruct j).pfnTimer_cb <;> simp
  · simp
  · simp

theorem eventsRange_bounds (s : tTIMER_CTL_32BIT) :
    ∀ (k idx : Nat) (e : Event), e ∈ eventsRange s idx k → idx ≤ e.1 ∧ e.1 < idx + k := by
  intro k
  induction k with
  | zero => intro idx e he; simp [eventsRange] at he
  | succ k ih =>
    intro idx e he
    simp only [eventsRange, List.mem_append] at he
    rcases he with he | he
    · have := evOf_index s idx e he
      omega
    · have := ih (idx + 1) e he
      omega

/-- The callbacks invoked over a range of positions come in strictly ascending position
order. -/
theorem eventsRange_sorted (s : tTIMER_CTL_32BIT) :
    ∀ (k idx : Nat), ((eventsRange s idx k).map Prod.fst).Pairwise (fun a b => a < b) := by
  intro k
  induction k with
  | zero => intro idx; simp [eventsRange]
  | succ k ih =>
    intro idx
    simp only [eventsRange, List.map_append]
    rw [List.pairwise_append]
    refine ⟨?_, ih (idx + 1), ?_⟩
    · have hlen := evOf_length s idx
      cases h : evOf s idx with
      | nil => simp
      | cons e rest =>
        rw [h] at hlen
        have : rest = [] := by
          cases rest with
          | nil => rfl
          | cons _ _ => simp at hlen
        subst this
        simp
    · intro a ha b hb
      obtain ⟨e, he, rfl⟩ := List.mem_map.mp ha
      obtain ⟨f, hf, rfl⟩ := List.mem_map.mp hb
      have h1 := evOf_index s idx e he
      have h2 := eventsRange_bounds s k (idx + 1) f hf
      omega

/-- What one call of `Timer32BitExecute` does on an arbitrary pool: it visits the positions
below some `k ≤ N`. -/
theorem execute_general (N : Nat) (s : tTIMER_CTL_32BIT) :
    ∃ k, k ≤ N ∧
      (∀ j, (Timer32BitExecute N s).1.sTimerStruct j
          = if j < k then procSlot s j else s.sTimerStruct j) ∧
      (∀ j, (Timer32BitExecute N s).1.ui32FreeIndices.testBit j
          = (s.ui32FreeIndices.testBit j || (decide (j < k) && reclaimed s j))) ∧
      (Timer32BitExecute N s).2 = eventsRange s 0 k := by
  obtain ⟨k, hk, -, hs, hf, hlog, -, -⟩ :=
    executeLoop_spec N N 0 (toInt8 s.ui8ActiveTimers) s []
  refine ⟨k, hk, ?_, ?_, ?_⟩
  · intro j
    show (executeLoop N N 0 (toInt8 s.ui8ActiveTimers) s []).1.sTimerStruct j = _
    rw [hs j]
    by_cases hj : j < k
    · rw [if_pos hj, if_pos ⟨Nat.zero_le j, by omega⟩]
    · rw [if_neg hj, if_neg (by omega)]
  · intro j
    show (executeLoop N N 0 (toInt8 s.ui8ActiveTimers) s []).1.ui32FreeIndices.testBit j = _
    rw [hf j]
    by_cases hj : j < k
    · simp [hj]
    · simp [hj]
  · show (executeLoop N N 0 (toInt8 s.ui8ActiveTimers) s []).2 = _
    rw [hlog, List.nil_append]

theorem tickCounter_stuck (t : tTIMERVAR32) (hup : t.bUpCounter = true)
    (hgt : t.ui32ResetValue < t.ui32TimerVal) : tickCounter t = (t, false) := by
  have h1 : ¬ t.ui32TimerVal < t.ui32ResetValue := by omega
  have h2 : ¬ t.ui32TimerVal = t.ui32ResetValue := by omega
  simp [tickCounter, hup, h1, h2]

/-- One call of `Timer32BitExecute` on any pool leaves an up-counter whose counter is above
its reset value alone. -/
theorem stuck_step (N : Nat) (s : tTIMER_CTL_32BIT) (i : Nat)
    (hup : (s.sTimerStruct i).bUpCounter = true)
    (hgt : (s.sTimerStruct i).ui32ResetValue < (s.sTimerStruct i).ui32TimerVal) :
    (Timer32BitExecute N s).1.sTimerStruct i = s.sTimerStruct i ∧
    (Timer32BitExecute N s).1.ui32FreeIndices.testBit i = s.ui32FreeIndices.testBit i ∧
    firedFor i (Timer32BitExecute N s).2 = [] := by
  obtain ⟨k, -, hs, hf, hlog⟩ := execute_general N s
  have ht := tickCounter_stuck (s.sTimerStruct i) hup hgt
  refine ⟨?_, ?_, ?_⟩
  · rw [hs i]
    unfold procSlot slotAfterTick
    rw [ht]
    simp
  · rw [hf i]
    unfold reclaimed
    rw [ht]
    simp
  · unfold firedFor
    rw [hlog, eventsRange_filter]
    unfold evOf slotEvents
    rw [ht]
    simp

theorem newlyFreed_self (s : tTIMER_CTL_32BIT) :
    ∀ (k idx : Nat), newlyFreed s s idx k = 0 := by
  intro k
  induction k with
  | zero => intro idx; rfl
  | succ k ih =>
    intro idx
    simp only [newlyFreed, ih (idx + 1)]
    cases s.ui32FreeIndices.testBit idx <;> simp

theorem newlyFreed_congr (s s' r : tTIMER_CTL_32BIT) :
    ∀ (k a idx : Nat),
      (∀ j, a ≤ j → s'.ui32FreeIndices.testBit j = s.ui32FreeIndices.testBit j) → a ≤ idx →
      newlyFreed s' r idx k = newlyFreed s r idx k := by
  intro k
  induction k with
  | zero => intro a idx _ _; rfl
  | succ k ih =>
    intro a idx h hidx
    simp only [newlyFreed]
    rw [h idx hidx, ih a (idx + 1) h (by omega)]

theorem newlyFreed_eq_countP (s r : tTIMER_CTL_32BIT) :
    ∀ (k idx : Nat), newlyFreed s r idx k
      = (List.range' idx k).countP
          (fun j => !(s.ui32FreeIndices.testBit j) && r.ui32FreeIndices.testBit j) := by
  intro k
  induction k with
  | zero => intro idx; rfl
  | succ k ih =>
    intro idx
    simp only [newlyFreed, List.range'_succ, List.countP_cons]
    rw [ih (idx + 1)]
    omega

theorem newlyFreed_eq_length (N : Nat) (s r : tTIMER_CTL_32BIT) :
    newlyFreed s r 0 N
      = ((List.range N).filter
          (fun j => !(s.ui32FreeIndices.testBit j) && r.ui32FreeIndices.testBit j)).length := by
  rw [newlyFreed_eq_countP, List.countP_eq_length_filter, List.range_eq_range']

/-- The walk changes the tally only when it reclaims: each position whose free bit it sets
costs one, modulo 2^8. -/
theorem executeLoop_count (N : Nat) :
    ∀ (fuel idx : Nat) (cnt : Int) (s : tTIMER_CTL_32BIT) (log : List Event),
      (newlyFreed s (executeLoop N fuel idx cnt s log).1 idx fuel = 0 →
        (executeLoop N fuel idx cnt s log).1.ui8ActiveTimers = s.ui8ActiveTimers) ∧
      (0 < newlyFreed s (executeLoop N fuel idx cnt s log).1 idx fuel →
        ((executeLoop N fuel idx cnt s log).1.ui8ActiveTimers : Int)
          = ((s.ui8ActiveTimers : Int)
              - (newlyFreed s (executeLoop N fuel idx cnt s log).1 idx fuel : Int)) % 256) := by
  intro fuel
  induction fuel with
  | zero =>
    intro idx cnt s log
    exact ⟨fun _ => rfl, fun h => by simp [newlyFreed] at h⟩
  | succ fuel ih =>
    intro idx cnt s log
    by_cases hcond : 0 < cnt ∧ idx < N
    · cases hl : liveActive s idx
      · rw [executeLoop_skip N fuel idx cnt s log hcond hl]
        obtain ⟨k, -, -, -, hf, -, -, -⟩ := executeLoop_spec N fuel (idx + 1) cnt s log
        have hb : (executeLoop N fuel (idx + 1) cnt s log).1.ui32FreeIndices.testBit idx
            = s.ui32FreeIndices.testBit idx := by
          rw [hf idx]
          simp
        have h0 : newlyFreed s (executeLoop N fuel (idx + 1) cnt s log).1 idx (fuel + 1)
            = newlyFreed s (executeLoop N fuel (idx + 1) cnt s log).1 (idx + 1) fuel := by
          simp only [newlyFreed, hb]
          cases s.ui32FreeIndices.testBit idx <;> simp
        rw [h0]
        exact ih (idx + 1) cnt s log
      · rw [executeLoop_proc N fuel idx cnt s log hcond hl]
        have hbit : s.ui32FreeIndices.testBit idx = false := by
          unfold liveActive at hl; simp at hl; exact hl.1
        have hact : (s.sTimerStruct idx).bActive = true := by
          unfold liveActive at hl; simp at hl; exact hl.2
        obtain ⟨k, -, -, -, hf, -, -, -⟩ := executeLoop_spec N fuel (idx + 1) (cnt - 1)
          (executeBody s idx log).1 (executeBody s idx log).2
        have hb : (executeLoop N fuel (idx + 1) (cnt - 1) (executeBody s idx log).1
              (executeBody s idx log).2).1.ui32FreeIndices.testBit idx
            = ((tickCounter (s.sTimerStruct idx)).2 && (s.sTimerStruct idx).bOneShot) := by
          rw [hf idx, executeBody_testBit, hbit]
          simp
        have hcongr := newlyFreed_congr s (executeBody s idx log).1
          (executeLoop N fuel (idx + 1) (cnt - 1) (executeBody s idx log).1
            (executeBody s idx log).2).1 fuel (idx + 1) (idx + 1)
          (fun j hj => ((executeBody_agreeFrom s idx log) j hj).2) (Nat.le_refl _)
        have hc := executeBody_count s idx log
        obtain ⟨ih1, ih2⟩ := ih (idx + 1) (cnt - 1) (executeBody s idx log).1
          (executeBody s idx log).2
        rw [hcongr] at ih1 ih2
        simp only [newlyFreed, hb, hbit]
        generalize newlyFreed s (executeLoop N fuel (idx + 1) (cnt - 1) (executeBody s idx log).1
            (executeBody s idx log).2).1 (idx + 1) fuel = n1 at ih1 ih2 ⊢
        generalize (executeLoop N fuel (idx + 1) (cnt - 1) (executeBody s idx log).1
            (executeBody s idx log).2).1.ui8ActiveTimers = cr at ih1 ih2 ⊢
        generalize (executeBody s idx log).1.ui8ActiveTimers = c1 at hc ih1 ih2
        by_cases hrec : (tickCounter (s.sTimerStruct idx)).2 = true ∧
            (s.sTimerStruct idx).bOneShot = true
        · rw [if_pos hrec, hact] at hc
          simp only [if_true] at hc
          rw [hrec.1, hrec.2]
          simp only [Bool.not_false, Bool.and_self, if_true]
          refine ⟨fun h => absurd h (by omega), fun _ => ?_⟩
          by_cases hn : n1 = 0
          · have := ih1 hn
            omega
          · have := ih2 (by omega)
            omega
        · rw [if_neg hrec] at hc
          have hfalse : ((tickCounter (s.sTimerStruct idx)).2
              && (s.sTimerStruct idx).bOneShot) = false := by
            cases h1 : (tickCounter (s.sTimerStruct idx)).2 <;>
              cases h2 : (s.sTimerStruct idx).bOneShot <;> simp_all
          rw [hfalse]
          simp only [Bool.not_false, Bool.and_false, Bool.false_eq_true, if_false, Nat.zero_add]
          refine ⟨fun h => ?_, fun h => ?_⟩
          · have := ih1 h
            omega
          · have := ih2 h
            omega
    · rw [executeLoop_stop N _ idx cnt s log hcond, newlyFreed_self]
      exact ⟨fun _ => rfl, fun h => absurd h (by omega)⟩

theorem tickCounter_degenerate (t : tTIMERVAR32) (htgt : t.ui32ResetValue = 0)
    (hcur : t.ui32TimerVal = 0) : tickCounter t = (t, true) := by
  obtain ⟨b1, b2, b3, b4, b5, b6, b7⟩ := t
  simp only at htgt hcur
  subst htgt; subst hcur
  cases b3 <;> simp [tickCounter]

/-- A periodic slot with reset value 0 and counter 0 stays exactly as it is under
consecutive calls of `Timer32BitExecute`. -/
theorem degenerate_state (N : Nat) (hN : N ≤ 32) (s : tTIMER_CTL_32BIT) (i : Nat)
    (hinv : ActiveCountInv N s) (hi : i < N)
    (halloc : s.ui32FreeIndices.testBit i = false)
    (hper : (s.sTimerStruct i).bOneShot = false)
    (htgt : (s.sTimerStruct i).ui32ResetValue = 0)
    (hcur : (s.sTimerStruct i).ui32TimerVal = 0) :
    ∀ n, (executeN N n s).ui32FreeIndices.testBit i = false ∧
      (executeN N n s).sTimerStruct i = s.sTimerStruct i := by
  intro n
  induction n with
  | zero => exact ⟨halloc, rfl⟩
  | succ n ih =>
    obtain ⟨hb, hs⟩ := ih
    have hinvn := executeN_inv N hN s hinv n
    have ht := tickCounter_degenerate ((executeN N n s).sTimerStruct i)
      (by rw [hs]; exact htgt) (by rw [hs]; exact hcur)
    constructor
    · show (Timer32BitExecute N (executeN N n s)).1.ui32FreeIndices.testBit i = false
      rw [execute_testBit N hN _ hinvn i hi, hb]
      unfold reclaimed
      rw [hs, hper]
      simp
    · show (Timer32BitExecute N (executeN N n s)).1.sTimerStruct i = _
      rw [execute_slot N hN _ hinvn i hi]
      unfold procSlot slotAfterTick
      rw [ht, hs, hper]
      simp

/-- The callbacks of a periodic active slot with reset value 0 and counter 0: one in every
call if a callback is bound. -/
theorem degenerate_fired (N : Nat) (hN : N ≤ 32) (s : tTIMER_CTL_32BIT) (i : Nat)
    (hinv : ActiveCountInv N s) (hi : i < N)
    (halloc : s.ui32FreeIndices.testBit i = false)
    (hact : (s.sTimerStruct i).bActive = true)
    (hper : (s.sTimerStruct i).bOneShot = false)
    (htgt : (s.sTimerStruct i).ui32ResetValue = 0)
    (hcur : (s.sTimerStruct i).ui32TimerVal = 0) (n : Nat) :
    firedFor i (callLog N s (n + 1))
      = (match (s.sTimerStruct i).pfnTimer_cb with
          | some cb => [(i, cb)]
          | none => []) := by
  obtain ⟨hb, hs⟩ := degenerate_state N hN s i hinv hi halloc hper htgt hcur n
  have hinvn := executeN_inv N hN s hinv n
  have ht := tickCounter_degenerate ((executeN N n s).sTimerStruct i)
    (by rw [hs]; exact htgt) (by rw [hs]; exact hcur)
  have hla : liveActive (executeN N n s) i = true := by
    unfold liveActive; rw [hb, hs]; simp [hact]
  unfold callLog
  rw [Nat.add_sub_cancel, execute_firedFor N hN _ hinvn i hi]
  unfold evOf slotEvents
  rw [if_pos hla, ht, hs]
  simp

theorem executeN_add (N : Nat) (s : tTIMER_CTL_32BIT) (a : Nat) :
    ∀ b, executeN N (a + b) s = executeN N b (executeN N a s) := by
  intro b
  induction b with
  | zero => rfl
  | succ b ih =>
    show (Timer32BitExecute N (executeN N (a + b) s)).1 = _
    rw [ih]
    rfl

/-- The calls after the first `a` are the calls on the pool reached after `a` calls. -/
theorem callLog_shift (N : Nat) (s : tTIMER_CTL_32BIT) (a m : Nat) (hm : 1 ≤ m) :
    callLog N s (a + m) = callLog N (executeN N a s) m := by
  unfold callLog
  have e : a + m - 1 = a + (m - 1) := by omega
  rw [e, executeN_add]

theorem tickCounter_down (t : tTIMERVAR32) (hdown : t.bUpCounter = false)
    (hpos : 0 < t.ui32TimerVal) :
    tickCounter t
      = if t.ui32TimerVal - 1 = 0 then ({ t with ui32TimerVal := t.ui32ResetValue }, true)
        else ({ t with ui32TimerVal := t.ui32TimerVal - 1 }, false) := by
  simp [tickCounter, hdown, hpos]

/-- A periodic down-counter started at `c` counts down without expiring for `c - 1` calls
and is reloaded with its reset value by call `c`, whatever the reset value is. -/
theorem countdown_state (N : Nat) (hN : N ≤ 32) (s : tTIMER_CTL_32BIT) (i c : Nat)
    (hinv : ActiveCountInv N s) (hi : i < N)
    (halloc : s.ui32FreeIndices.testBit i = false)
    (hact : (s.sTimerStruct i).bActive = true)
    (hper : (s.sTimerStruct i).bOneShot = false)
    (hdown : (s.sTimerStruct i).bUpCounter = false)
    (hcur : (s.sTimerStruct i).ui32TimerVal = c) (hc : 1 ≤ c) :
    ∀ n, n ≤ c →
      (executeN N n s).ui32FreeIndices.testBit i = false ∧
      (executeN N n s).sTimerStruct i
        = { s.sTimerStruct i with
            ui32TimerVal := if n < c then c - n else (s.sTimerStruct i).ui32ResetValue } := by
  intro n
  induction n with
  | zero =>
    intro _
    refine ⟨halloc, ?_⟩
    show s.sTimerStruct i = _
    have hc0 : 0 < c := by omega
    rw [if_pos hc0, Nat.sub_zero, ← hcur]
  | succ n ih =>
    intro hn
    obtain ⟨hb, hs⟩ := ih (by omega)
    have hlt : n < c := by omega
    rw [if_pos hlt] at hs
    have hinvn := executeN_inv N hN s hinv n
    have ht := tickCounter_down ((executeN N n s).sTimerStruct i)
      (by rw [hs]; exact hdown) (by rw [hs]; show 0 < c - n; omega)
    have hos : ((executeN N n s).sTimerStruct i).bOneShot = false := by rw [hs]; exact hper
    have hla : liveActive (executeN N n s) i = true := by
      unfold liveActive; rw [hb, hs]; simp [hact]
    constructor
    · show (Timer32BitExecute N (executeN N n s)).1.ui32FreeIndices.testBit i = false
      rw [execute_testBit N hN _ hinvn i hi, hb]
      unfold reclaimed
      rw [hos]
      simp
    · show (Timer32BitExecute N (executeN N n s)).1.sTimerStruct i = _
      rw [execute_slot N hN _ hinvn i hi]
      unfold procSlot slotAfterTick
      rw [if_pos hla, hos, ht, hs]
      by_cases h1 : n + 1 < c
      · have h2 : ¬ (c - n - 1 = 0) := by omega
        have h3 : c - n - 1 = c - (n + 1) := by omega
        have h4 : ¬ (c - (n + 1) = 0) := by omega
        simp [h1, h2, h3, h4]
      · have h2 : c - n - 1 = 0 := by omega
        have h4 : c - (n + 1) = 0 := by omega
        simp [h1, h2, h4]

/-- The callbacks of a periodic down-counter started at `c` during its first `c` calls:
one during call `c` if a callback is bound, none before. -/
theorem countdown_fired (N : Nat) (hN : N ≤ 32) (s : tTIMER_CTL_32BIT) (i c : Nat)
    (hinv : ActiveCountInv N s) (hi : i < N)
    (halloc : s.ui32FreeIndices.testBit i = false)
    (hact : (s.sTimerStruct i).bActive = true)
    (hper : (s.sTimerStruct i).bOneShot = false)
    (hdown : (s.sTimerStruct i).bUpCounter = false)
    (hcur : (s.sTimerStruct i).ui32TimerVal = c) (hc : 1 ≤ c) (n : Nat) (hn : n < c) :
    firedFor i (callLog N s (n + 1))
      = if n + 1 = c then
          (match (s.sTimerStruct i).pfnTimer_cb with
            | some cb => [(i, cb)]
            | none => [])
        else [] := by
  obtain ⟨hb, hs⟩ := countdown_state N hN s i c hinv hi halloc hact hper hdown hcur hc n
    (by omega)
  rw [if_pos hn] at hs
  have hinvn := executeN_inv N hN s hinv n
  have ht := tickCounter_down ((executeN N n s).sTimerStruct i)
    (by rw [hs]; exact hdown) (by rw [hs]; show 0 < c - n; omega)
  have hla : liveActive (executeN N n s) i = true := by
    unfold liveActive; rw [hb, hs]; simp [hact]
  unfold callLog
  rw [Nat.add_sub_cancel, execute_firedFor N hN _ hinvn i hi]
  unfold evOf slotEvents
  rw [if_pos hla, ht, hs]
  by_cases h1 : n + 1 = c
  · have h2 : c - n - 1 = 0 := by omega
    simp [h1, h2]
  · have h2 : ¬ (c - n - 1 = 0) := by omega
    simp [h1, h2]

/-- With capacity 2 and the invariant in force, the callbacks of a call are those of
position 0 followed by those of position 1. -/
theorem callLog_two (s : tTIMER_CTL_32BIT) (hinv : ActiveCountInv 2 s) (k : Nat) :
    callLog 2 s k = firedFor 0 (callLog 2 s k) ++ firedFor 1 (callLog 2 s k) := by
  have hinvk := executeN_inv 2 (by decide) s hinv (k - 1)
  unfold callLog
  rw [execute_firedFor 2 (by decide) _ hinvk 0 (by decide),
    execute_firedFor 2 (by decide) _ hinvk 1 (by decide),
    (execute_spec 2 (by decide) _ hinvk).2.2]
  simp [eventsRange]

/-- The two appends of the capacity-2 scenario land at positions 0 and 1. -/
theorem scenario_appends (confA confB : tTIMERVAR32) :
    AppendTimer32Bit 2 confA tTIMER_32BIT_CTL_DEFAULTS
      = (appendInstall confA tTIMER_32BIT_CTL_DEFAULTS 0, 0) ∧
    AppendTimer32Bit 2 confB (appendInstall confA tTIMER_32BIT_CTL_DEFAULTS 0)
      = (appendInstall confB (appendInstall confA tTIMER_32BIT_CTL_DEFAULTS 0) 1, 1) := by
  have h1 := append_some 2 confA tTIMER_32BIT_CTL_DEFAULTS 0 (by decide)
    (init_testBit 0 (by decide)) (fun j hj => absurd hj (Nat.not_lt_zero j))
  have hb0 : (appendInstall confA tTIMER_32BIT_CTL_DEFAULTS 0).ui32FreeIndices.testBit 0
      = false := by
    rw [appendInstall_testBit _ _ 0 0 (by decide)]; simp
  have hb1 : (appendInstall confA tTIMER_32BIT_CTL_DEFAULTS 0).ui32FreeIndices.testBit 1
      = true := by
    rw [appendInstall_testBit _ _ 0 1 (by decide), init_testBit 1 (by decide)]; simp
  have h2 := append_some 2 confB (appendInstall confA tTIMER_32BIT_CTL_DEFAULTS 0) 1
    (by decide) hb1 (fun j hj => by
      have : j = 0 := by omega
      subst this
      exact hb0)
  have e0 : toInt8 0 = 0 := by decide
  have e1 : toInt8 1 = 1 := by decide
  rw [e0] at h1
  rw [e1] at h2
  exact ⟨h1, h2⟩

/-- The pool of the capacity-2 scenario after both appends: it satisfies the invariant,
positions 0 and 1 are allocated and hold the two configurations. -/
theorem scenario_pool (confA confB : tTIMERVAR32) :
    ActiveCountInv 2 (appendInstall confB (appendInstall confA tTIMER_32BIT_CTL_DEFAULTS 0) 1) ∧
    (appendInstall confB
      (appendInstall confA tTIMER_32BIT_CTL_DEFAULTS 0) 1).ui32FreeIndices.testBit 0 = false ∧
    (appendInstall confB
      (appendInstall confA tTIMER_32BIT_CTL_DEFAULTS 0) 1).ui32FreeIndices.testBit 1 = false ∧
    (appendInstall confB (appendInstall confA tTIMER_32BIT_CTL_DEFAULTS 0) 1).sTimerStruct 0
      = { confA with ui8Index := 0 } ∧
    (appendInstall confB (appendInstall confA tTIMER_32BIT_CTL_DEFAULTS 0) 1).sTimerStruct 1
      = { confB with ui8Index := 1 } := by
  have hb0 : (appendInstall confA tTIMER_32BIT_CTL_DEFAULTS 0).ui32FreeIndices.testBit 0
      = false := by
    rw [appendInstall_testBit _ _ 0 0 (by decide)]; simp
  have hb1 : (appendInstall confA tTIMER_32BIT_CTL_DEFAULTS 0).ui32FreeIndices.testBit 1
      = true := by
    rw [appendInstall_testBit _ _ 0 1 (by decide), init_testBit 1 (by decide)]; simp
  refine ⟨?_, ?_, ?_, ?_, ?_⟩
  · exact appendInstall_inv 2 (by decide) _ _ 1 (by decide) hb1
      (appendInstall_inv 2 (by decide) _ _ 0 (by decide) (init_testBit 0 (by decide))
        (init_inv 2))
  · rw [appendInstall_testBit _ _ 1 0 (by decide), hb0]; rfl
  · rw [appendInstall_testBit _ _ 1 1 (by decide)]; simp
  · rw [appendInstall_slot_other _ _ 1 0 (by decide), appendInstall_slot_same]
  · rw [appendInstall_slot_same]

/-- The capacity-2 scenario on a pool whose slot 0 is the armed down-counter A and whose
slot 1 is the up-counter B. -/
theorem scenario_armed (P : tTIMER_CTL_32BIT) (cbA cbB : Nat) (conf : tTIMERVAR32)
    (hinv : ActiveCountInv 2 P)
    (hb0 : P.ui32FreeIndices.testBit 0 = false) (hb1 : P.ui32FreeIndices.testBit 1 = false)
    (hs0 : P.sTimerStruct 0 = { scenarioArmedA cbA with ui8Index := 0 })
    (hs1 : P.sTimerStruct 1 = { scenarioB cbB with ui8Index := 1 }) :
    callLog 2 P 1 = [] ∧ callLog 2 P 2 = [] ∧ callLog 2 P 3 = [(0, cbA), (1, cbB)] ∧
    (AppendTimer32Bit 2 conf (executeN 2 3 P)).2 = -1 := by
  have d1 : ¬ 3 ∣ 1 := by decide
  have d2 : ¬ 3 ∣ 2 := by decide
  have hA : ∀ n, firedFor 0 (callLog 2 P (n + 1))
      = if 3 ∣ n + 1 then [(0, cbA)] else [] := by
    intro n
    rw [phase_fired 2 (by decide) P 0 3 hinv (by decide) hb0 (by rw [hs0]; rfl)
      (by rw [hs0]; rfl) (by decide) (by rw [hs0]; rfl) n (Or.inl (by rw [hs0]; rfl)), hs0]
    rfl
  have hB : ∀ n, firedFor 1 (callLog 2 P (n + 1))
      = if 3 ∣ n + 1 then [(1, cbB)] else [] := by
    intro n
    rw [phase_fired 2 (by decide) P 1 3 hinv (by decide) hb1 (by rw [hs1]; rfl)
      (by rw [hs1]; rfl) (by decide) (by rw [hs1]; rfl) n (Or.inl (by rw [hs1]; rfl)), hs1]
    rfl
  have hbits0 := (phase_state 2 (by decide) P 0 3 hinv (by decide) hb0 (by rw [hs0]; rfl)
    (by rw [hs0]; rfl) (by decide) (by rw [hs0]; rfl) 3 (Or.inl (by rw [hs0]; rfl))).1
  have hbits1 := (phase_state 2 (by decide) P 1 3 hinv (by decide) hb1 (by rw [hs1]; rfl)
    (by rw [hs1]; rfl) (by decide) (by rw [hs1]; rfl) 3 (Or.inl (by rw [hs1]; rfl))).1
  refine ⟨?_, ?_, ?_, ?_⟩
  · rw [callLog_two P hinv 1, hA 0, hB 0]
    simp [d1]
  · rw [callLog_two P hinv 2, hA 1, hB 1]
    simp [d2]
  · rw [callLog_two P hinv 3, hA 2, hB 2]
    simp
  · rw [append_none 2 conf _ (fun j hj => by
      have : j = 0 ∨ j = 1 := by omega
      rcases this with h | h
      · subst h; exact hbits0
      · subst h; exact hbits1)]

/-- The capacity-2 scenario on a pool whose slot 0 is the down-counter A with its counter at
the default 0 and whose slot 1 is the up-counter B. -/
theorem scenario_default (P : tTIMER_CTL_32BIT) (cbA cbB : Nat) (conf : tTIMERVAR32)
    (hinv : ActiveCountInv 2 P)
    (hb0 : P.ui32FreeIndices.testBit 0 = false) (hb1 : P.ui32FreeIndices.testBit 1 = false)
    (hs0 : P.sTimerStruct 0 = { scenarioA cbA with ui8Index := 0 })
    (hs1 : P.sTimerStruct 1 = { scenarioB cbB with ui8Index := 1 }) :
    callLog 2 P 1 = [(0, cbA)] ∧ callLog 2 P 2 = [] ∧ callLog 2 P 3 = [(1, cbB)] ∧
    (AppendTimer32Bit 2 conf (executeN 2 3 P)).2 = -1 := by
  have d1 : ¬ 3 ∣ 1 := by decide
  have d2 : ¬ 3 ∣ 2 := by decide
  have hB : ∀ n, firedFor 1 (callLog 2 P (n + 1))
      = if 3 ∣ n + 1 then [(1, cbB)] else [] := by
    intro n
    rw [phase_fired 2 (by decide) P 1 3 hinv (by decide) hb1 (by rw [hs1]; rfl)
      (by rw [hs1]; rfl) (by decide) (by rw [hs1]; rfl) n (Or.inl (by rw [hs1]; rfl)), hs1]
    rfl
  have hbits1 := (phase_state 2 (by decide) P 1 3 hinv (by decide) hb1 (by rw [hs1]; rfl)
    (by rw [hs1]; rfl) (by decide) (by rw [hs1]; rfl) 3 (Or.inl (by rw [hs1]; rfl))).1
  have ht : tickCounter (P.sTimerStruct 0)
      = ({ scenarioArmedA cbA with ui8Index := 0 }, true) := by
    rw [hs0]; rfl
  have hla : liveActive P 0 = true := by
    unfold liveActive; rw [hb0, hs0]; rfl
  have hfirst : firedFor 0 (callLog 2 P 1) = [(0, cbA)] := by
    unfold callLog
    show firedFor 0 (Timer32BitExecute 2 P).2 = _
    rw [execute_firedFor 2 (by decide) P hinv 0 (by decide)]
    unfold evOf slotEvents
    rw [if_pos hla, ht, hs0]
    rfl
  have hinv1 : ActiveCountInv 2 (executeN 2 1 P) := executeN_inv 2 (by decide) P hinv 1
  have hs0' : (executeN 2 1 P).sTimerStruct 0 = { scenarioArmedA cbA with ui8Index := 0 } := by
    show (Timer32BitExecute 2 P).1.sTimerStruct 0 = _
    rw [execute_slot 2 (by decide) P hinv 0 (by decide)]
    unfold procSlot slotAfterTick
    rw [if_pos hla, ht, hs0]
    rfl
  have hb0' : (executeN 2 1 P).ui32FreeIndices.testBit 0 = false := by
    show (Timer32BitExecute 2 P).1.ui32FreeIndices.testBit 0 = false
    rw [execute_testBit 2 (by decide) P hinv 0 (by decide), hb0]
    unfold reclaimed
    rw [hs0]
    simp [scenarioA, tTIMERVAR32_DEFAULTS]
  have hA : ∀ n, firedFor 0 (callLog 2 (executeN 2 1 P) (n + 1))
      = if 3 ∣ n + 1 then [(0, cbA)] else [] := by
    intro n
    rw [phase_fired 2 (by decide) _ 0 3 hinv1 (by decide) hb0' (by rw [hs0']; rfl)
      (by rw [hs0']; rfl) (by decide) (by rw [hs0']; rfl) n (Or.inl (by rw [hs0']; rfl)),
      hs0']
    rfl
  have hbits0 := (phase_state 2 (by decide) _ 0 3 hinv1 (by decide) hb0' (by rw [hs0']; rfl)
    (by rw [hs0']; rfl) (by decide) (by rw [hs0']; rfl) 2 (Or.inl (by rw [hs0']; rfl))).1
  rw [← executeN_add 2 P 1 2] at hbits0
  have h2 : firedFor 0 (callLog 2 P 2) = [] := by
    rw [show (2 : Nat) = 1 + 1 from rfl, callLog_shift 2 P 1 1 (by decide), hA 0]
    simp [d1]
  have h3 : firedFor 0 (callLog 2 P 3) = [] := by
    rw [show (3 : Nat) = 1 + 2 from rfl, callLog_shift 2 P 1 2 (by decide), hA 1]
    simp [d2]
  refine ⟨?_, ?_, ?_, ?_⟩
  · rw [callLog_two P hinv 1, hfirst, hB 0]
    simp [d1]
  · rw [callLog_two P hinv 2, h2, hB 1]
    simp [d2]
  · rw [callLog_two P hinv 3, h3, hB 2]
    simp
  · rw [append_none 2 conf _ (fun j hj => by
      have : j = 0 ∨ j = 1 := by omega
      rcases this with h | h
      · subst h; exact hbits0
      · subst h; exact hbits1)]

/-! ## The claims, continued -/

/-- C11 as stated fails: in `zeroTallyPool` index 0 is allocated and active and the 8-bit
tally is 0; the destruct of index 0 leaves the tally at 255, which is not the old tally
minus one. -/
theorem destruct_count_wraps :
    zeroTallyPool.ui32FreeIndices.testBit 0 = false ∧
    (zeroTallyPool.sTimerStruct 0).bActive = true ∧
    zeroTallyPool.ui8ActiveTimers = 0 ∧
    (Timer32BitDestruct zeroTallyPool 0).ui8ActiveTimers = 255 ∧
    (Timer32BitDestruct zeroTallyPool 0).ui8ActiveTimers + 1 ≠ zeroTallyPool.ui8ActiveTimers := by
  decide

/-- C11 amended, destruct contract: `Timer32BitDestruct s i` sets the free bit of `i` and
sets the active flag of slot `i` to false; the tally is decremented by 1 modulo 2^8 if slot
`i` was active beforehand and is unchanged (modulo 2^8) otherwise; all other free bits, all
other slots and the remaining fields of slot `i` are unchanged. -/
theorem destruct_contract (s : tTIMER_CTL_32BIT) (i : Nat) :
    (Timer32BitDestruct s i).ui32FreeIndices.testBit i = true ∧
    ((Timer32BitDestruct s i).sTimerStruct i).bActive = false ∧
    ((Timer32BitDestruct s i).ui8ActiveTimers : Int)
      = ((s.ui8ActiveTimers : Int)
          + (if (s.sTimerStruct i).bActive = true then -1 else 0)) % 256 ∧
    (∀ j, j ≠ i → (Timer32BitDestruct s i).ui32FreeIndices.testBit j
      = s.ui32FreeIndices.testBit j) ∧
    (∀ j, j ≠ i → (Timer32BitDestruct s i).sTimerStruct j = s.sTimerStruct j) ∧
    (Timer32BitDestruct s i).sTimerStruct i = { s.sTimerStruct i with bActive := false } := by
  refine ⟨?_, ?_, destruct_count s i, ?_, fun j hj => destruct_slot_other s i j hj,
    destruct_slot_same s i⟩
  · rw [destruct_free, testBit_setBit]; simp
  · rw [destruct_slot_same]
  · intro j hj
    have : ¬ i = j := fun e => hj e.symm
    rw [destruct_free, testBit_setBit]; simp [this]

/-- C15, idle no-op: on any pool whose tally is 0, in particular on the empty pool,
`Timer32BitExecute` invokes no callback and returns the pool it was given. -/
theorem idle_noop (N : Nat) (s : tTIMER_CTL_32BIT) (h : s.ui8ActiveTimers = 0) :
    Timer32BitExecute N s = (s, []) := by
  unfold Timer32BitExecute
  rw [h, toInt8_zero]
  exact executeLoop_stop N N 0 0 s [] (by omega)

/-- Witness for C15 on the empty start-up pool. -/
theorem idle_noop_witness :
    tTIMER_32BIT_CTL_DEFAULTS.ui8ActiveTimers = 0 ∧
    Timer32BitExecute MAX_TIMER_NUMBER tTIMER_32BIT_CTL_DEFAULTS
      = (tTIMER_32BIT_CTL_DEFAULTS, []) :=
  ⟨rfl, idle_noop MAX_TIMER_NUMBER tTIMER_32BIT_CTL_DEFAULTS rfl⟩

/-- C20, double destruct is harmless: for every pool and every index, destruct(i) followed
by destruct(i) yields exactly the pool that a single destruct(i) yields. -/
theorem destruct_twice (s : tTIMER_CTL_32BIT) (i : Nat) :
    Timer32BitDestruct (Timer32BitDestruct s i) i = Timer32BitDestruct s i := by
  apply pool_ext
  · rw [destruct_free, destruct_free]
    apply Nat.eq_of_testBit_eq
    intro j
    simp only [Nat.testBit_or]
    cases s.ui32FreeIndices.testBit j <;> cases (1 <<< i).testBit j <;> rfl
  · have h1 := destruct_count (Timer32BitDestruct s i) i
    have h2 := destruct_count s i
    have h3 : ((Timer32BitDestruct s i).sTimerStruct i).bActive = false := by
      rw [destruct_slot_same]
    rw [h3] at h1
    simp only [Bool.false_eq_true, if_false] at h1
    omega
  · funext j
    by_cases hj : j = i
    · subst hj
      rw [destruct_slot_same, destruct_slot_same]
    · rw [destruct_slot_other _ _ _ hj]

/-- C16, early-exit equivalence: on every pool whose tally equals the number of allocated
active slots, `Timer32BitExecute` produces the same pool and the same sequence of invoked
callbacks as the reference executor that scans all positions and applies the same loop body
to every allocated active slot, with no early exit. -/
theorem early_exit_equivalence (N : Nat) (hN : N ≤ 32) (s : tTIMER_CTL_32BIT)
    (hinv : s.ui8ActiveTimers
      = ((List.range N).filter (fun i =>
          !(s.ui32FreeIndices.testBit i) && (s.sTimerStruct i).bActive)).length) :
    Timer32BitExecute N s = naiveExecute N s := by
  have hinv' : ActiveCountInv N s := by
    unfold ActiveCountInv countLiveActive
    rw [List.countP_eq_length_filter]
    exact hinv
  have hle := inv_count_le N s hinv'
  unfold Timer32BitExecute naiveExecute
  apply executeLoop_eq_naiveLoop
  rw [toInt8_small _ (by omega), countRange_eq_countLiveActive, ← hinv']

/-- Witness for C16 on the two-timer pool. -/
theorem early_exit_equivalence_witness :
    MAX_TIMER_NUMBER ≤ 32 ∧
    twoTimerPool.ui8ActiveTimers
      = ((List.range MAX_TIMER_NUMBER).filter (fun i =>
          !(twoTimerPool.ui32FreeIndices.testBit i)
            && (twoTimerPool.sTimerStruct i).bActive)).length ∧
    Timer32BitExecute MAX_TIMER_NUMBER twoTimerPool = naiveExecute MAX_TIMER_NUMBER twoTimerPool :=
  ⟨by decide, by decide,
    early_exit_equivalence MAX_TIMER_NUMBER (by decide) twoTimerPool (by decide)⟩

/-- C18, callback order: within one call of `Timer32BitExecute`, on any pool, the invoked
callbacks occur in strictly ascending slot-position order, and each slot has at most one
callback invocation. -/
theorem callback_order (N : Nat) (s : tTIMER_CTL_32BIT) :
    ((Timer32BitExecute N s).2.map Prod.fst).Pairwise (fun a b => a < b) ∧
    ∀ i, (firedFor i (Timer32BitExecute N s).2).length ≤ 1 := by
  obtain ⟨k, -, -, -, hlog⟩ := execute_general N s
  rw [hlog]
  refine ⟨eventsRange_sorted s k 0, ?_⟩
  intro i
  unfold firedFor
  rw [eventsRange_filter]
  split_ifs
  · exact evOf_length s i
  · simp

/-- C19, stuck up-counter: an up-counting slot whose counter is strictly above its reset
value (allocated and active or not) is left unchanged by every one of any number of
consecutive calls of `Timer32BitExecute`: its counter and reset value stay as they are, its
free bit stays as it is, and no call invokes a callback for it. -/
theorem stuck_up_counter (N : Nat) (s : tTIMER_CTL_32BIT) (i : Nat)
    (hup : (s.sTimerStruct i).bUpCounter = true)
    (hgt : (s.sTimerStruct i).ui32ResetValue < (s.sTimerStruct i).ui32TimerVal) (n : Nat) :
    (executeN N n s).sTimerStruct i = s.sTimerStruct i ∧
    (executeN N n s).ui32FreeIndices.testBit i = s.ui32FreeIndices.testBit i ∧
    firedFor i (callLog N s (n + 1)) = [] := by
  have hstate : ∀ m, (executeN N m s).sTimerStruct i = s.sTimerStruct i ∧
      (executeN N m s).ui32FreeIndices.testBit i = s.ui32FreeIndices.testBit i := by
    intro m
    induction m with
    | zero => exact ⟨rfl, rfl⟩
    | succ m ih =>
      obtain ⟨h1, h2, -⟩ := stuck_step N (executeN N m s) i (by rw [ih.1]; exact hup)
        (by rw [ih.1]; exact hgt)
      exact ⟨by show (Timer32BitExecute N (executeN N m s)).1.sTimerStruct i = _
                rw [h1]; exact ih.1,
             by show (Timer32BitExecute N (executeN N m s)).1.ui32FreeIndices.testBit i = _
                rw [h2]; exact ih.2⟩
  refine ⟨(hstate n).1, (hstate n).2, ?_⟩
  unfold callLog
  rw [Nat.add_sub_cancel]
  exact (stuck_step N (executeN N n s) i (by rw [(hstate n).1]; exact hup)
    (by rw [(hstate n).1]; exact hgt)).2.2

/-- Witness for C19: the allocated, active up-counter of `stuckPool`, installed by an
append with counter 5 and reset value 3, after four calls and during the fifth. -/
theorem stuck_up_counter_witness :
    (stuckPool.sTimerStruct 0).bUpCounter = true ∧
    (stuckPool.sTimerStruct 0).ui32ResetValue < (stuckPool.sTimerStruct 0).ui32TimerVal ∧
    stuckPool.ui32FreeIndices.testBit 0 = false ∧
    (stuckPool.sTimerStruct 0).bActive = true ∧
    ((executeN MAX_TIMER_NUMBER 4 stuckPool).sTimerStruct 0 = stuckPool.sTimerStruct 0 ∧
    (executeN MAX_TIMER_NUMBER 4 stuckPool).ui32FreeIndices.testBit 0
      = stuckPool.ui32FreeIndices.testBit 0 ∧
    firedFor 0 (callLog MAX_TIMER_NUMBER stuckPool (4 + 1)) = []) :=
  ⟨by decide, by decide, by decide, by decide,
    stuck_up_counter MAX_TIMER_NUMBER stuckPool 0 (by decide) (by decide) 4⟩

/-- C17, execute skips free and inactive slots: on any pool, every slot whose free bit is
set or whose active flag is false at the start of `Timer32BitExecute` is unchanged by the
call, keeps its free bit and gets no callback invocation; the call never clears a free bit;
a free bit changes only for a position below the capacity that was allocated, active,
one-shot and expired during this call, and that position ends free and inactive; the tally
is unchanged if no free bit changed and otherwise is the old tally minus the number of free
bits that were set, modulo 2^8. -/
theorem execute_skips (N : Nat) (s : tTIMER_CTL_32BIT) :
    (∀ j, (s.ui32FreeIndices.testBit j = true ∨ (s.sTimerStruct j).bActive = false) →
      (Timer32BitExecute N s).1.sTimerStruct j = s.sTimerStruct j ∧
      (Timer32BitExecute N s).1.ui32FreeIndices.testBit j = s.ui32FreeIndices.testBit j ∧
      firedFor j (Timer32BitExecute N s).2 = []) ∧
    (∀ j, s.ui32FreeIndices.testBit j = true →
      (Timer32BitExecute N s).1.ui32FreeIndices.testBit j = true) ∧
    (∀ j, (Timer32BitExecute N s).1.ui32FreeIndices.testBit j ≠ s.ui32FreeIndices.testBit j →
      j < N ∧ s.ui32FreeIndices.testBit j = false ∧ (s.sTimerStruct j).bActive = true ∧
      (s.sTimerStruct j).bOneShot = true ∧ (tickCounter (s.sTimerStruct j)).2 = true ∧
      (Timer32BitExecute N s).1.ui32FreeIndices.testBit j = true ∧
      ((Timer32BitExecute N s).1.sTimerStruct j).bActive = false) ∧
    (((List.range N).filter (fun j => !(s.ui32FreeIndices.testBit j)
          && (Timer32BitExecute N s).1.ui32FreeIndices.testBit j)).length = 0 →
      (Timer32BitExecute N s).1.ui8ActiveTimers = s.ui8ActiveTimers) ∧
    (0 < ((List.range N).filter (fun j => !(s.ui32FreeIndices.testBit j)
          && (Timer32BitExecute N s).1.ui32FreeIndices.testBit j)).length →
      ((Timer32BitExecute N s).1.ui8ActiveTimers : Int)
        = ((s.ui8ActiveTimers : Int)
            - (((List.range N).filter (fun j => !(s.ui32FreeIndices.testBit j)
                && (Timer32BitExecute N s).1.ui32FreeIndices.testBit j)).length : Int))
          % 256) := by
  obtain ⟨k, hk, hs, hf, hlog⟩ := execute_general N s
  have hcount := executeLoop_count N N 0 (toInt8 s.ui8ActiveTimers) s []
  rw [show (executeLoop N N 0 (toInt8 s.ui8ActiveTimers) s []).1
    = (Timer32BitExecute N s).1 from rfl, newlyFreed_eq_length] at hcount
  refine ⟨?_, ?_, ?_, hcount.1, hcount.2⟩
  · intro j hj
    have hdead : liveActive s j = false := by
      unfold liveActive
      rcases hj with h | h
      · rw [h]; rfl
      · rw [h]; simp
    refine ⟨?_, ?_, ?_⟩
    · rw [hs j]; simp [procSlot, hdead]
    · rw [hf j]; simp [reclaimed, hdead]
    · unfold firedFor
      rw [hlog, eventsRange_filter]
      simp [evOf, hdead]
  · intro j hj
    rw [hf j, hj]; rfl
  · intro j hne
    have hfj := hf j
    have hbit : s.ui32FreeIndices.testBit j = false := by
      cases hb : s.ui32FreeIndices.testBit j
      · rfl
      · rw [hb] at hfj hne
        simp at hfj
        exact absurd hfj hne
    rw [hbit] at hfj hne
    have hset : (Timer32BitExecute N s).1.ui32FreeIndices.testBit j = true := by
      cases hb : (Timer32BitExecute N s).1.ui32FreeIndices.testBit j
      · exact absurd hb hne
      · rfl
    rw [hset] at hfj
    have hjk : j < k := by
      by_contra h
      simp [h] at hfj
    have hrec : reclaimed s j = true := by
      simpa [hjk] using hfj.symm
    unfold reclaimed liveActive at hrec
    rw [hbit] at hrec
    simp only [Bool.not_false, Bool.true_and, Bool.and_eq_true] at hrec
    obtain ⟨⟨hact, hfin⟩, hone⟩ := hrec
    refine ⟨by omega, hbit, hact, hone, hfin, hset, ?_⟩
    rw [hs j, if_pos hjk]
    unfold procSlot slotAfterTick liveActive
    rw [hbit, hact]
    simp [hfin, hone]

/-- C13 as stated fails: `degenerateNullPool` satisfies the invariant and holds an
allocated, active, periodic slot at position 0 with reset value 0 and counter 0 whose
callback is `NULL`; the first call of `Timer32BitExecute` invokes no callback. -/
theorem degenerate_null_callback :
    ActiveCountInv MAX_TIMER_NUMBER degenerateNullPool ∧
    degenerateNullPool.ui32FreeIndices.testBit 0 = false ∧
    (degenerateNullPool.sTimerStruct 0).bActive = true ∧
    (degenerateNullPool.sTimerStruct 0).bOneShot = false ∧
    (degenerateNullPool.sTimerStruct 0).ui32ResetValue = 0 ∧
    (degenerateNullPool.sTimerStruct 0).ui32TimerVal = 0 ∧
    (degenerateNullPool.sTimerStruct 0).pfnTimer_cb = none ∧
    callLog MAX_TIMER_NUMBER degenerateNullPool 1 = [] := by
  decide

/-- C13 amended, degenerate period: for both directions, an allocated, active, periodic
slot `i` with a bound callback `cb`, reset value 0 and counter 0, in a pool that satisfies
the ActiveCount invariant, has its callback invoked (once) during every single call of
`Timer32BitExecute`, and its counter is 0 again after each call. -/
theorem degenerate_period (N : Nat) (hN : N ≤ 32) (s : tTIMER_CTL_32BIT) (i cb : Nat)
    (hinv : ActiveCountInv N s) (hi : i < N)
    (halloc : s.ui32FreeIndices.testBit i = false)
    (hact : (s.sTimerStruct i).bActive = true)
    (hper : (s.sTimerStruct i).bOneShot = false)
    (hcb : (s.sTimerStruct i).pfnTimer_cb = some cb)
    (htgt : (s.sTimerStruct i).ui32ResetValue = 0)
    (hcur : (s.sTimerStruct i).ui32TimerVal = 0)
    (k : Nat) (hk : 1 ≤ k) :
    firedFor i (callLog N s k) = [(i, cb)] ∧
    ((executeN N k s).sTimerStruct i).ui32TimerVal = 0 := by
  obtain ⟨n, rfl⟩ : ∃ n, k = n + 1 := ⟨k - 1, by omega⟩
  constructor
  · rw [degenerate_fired N hN s i hinv hi halloc hact hper htgt hcur n, hcb]
  · rw [(degenerate_state N hN s i hinv hi halloc hper htgt hcur (n + 1)).2]
    exact hcur

/-- Witness for the amended C13: the up-counter with reset value 0 of `degeneratePool`,
observed at the third call. -/
theorem degenerate_period_witness :
    MAX_TIMER_NUMBER ≤ 32 ∧ ActiveCountInv MAX_TIMER_NUMBER degeneratePool ∧
    0 < MAX_TIMER_NUMBER ∧ degeneratePool.ui32FreeIndices.testBit 0 = false ∧
    (degeneratePool.sTimerStruct 0).bActive = true ∧
    (degeneratePool.sTimerStruct 0).bOneShot = false ∧
    (degeneratePool.sTimerStruct 0).pfnTimer_cb = some 4 ∧
    (degeneratePool.sTimerStruct 0).ui32ResetValue = 0 ∧
    (degeneratePool.sTimerStruct 0).ui32TimerVal = 0 ∧ 1 ≤ 3 ∧
    (firedFor 0 (callLog MAX_TIMER_NUMBER degeneratePool 3) = [(0, 4)] ∧
    ((executeN MAX_TIMER_NUMBER 3 degeneratePool).sTimerStruct 0).ui32TimerVal = 0) :=
  ⟨by decide, by decide, by decide, by decide, by decide, by decide, by decide, by decide,
    by decide, by decide,
    degenerate_period MAX_TIMER_NUMBER (by decide) degeneratePool 0 4 (by decide) (by decide)
      (by decide) (by decide) (by decide) (by decide) (by decide) (by decide) 3 (by decide)⟩

/-- C14 as stated fails: with capacity 2, A (down-counter, reset value 3, active, callback 1,
counter at its default 0) is appended at index 0 and B (up-counter, reset value 3, active,
callback 2) at index 1; the callback of A is invoked during the first of three calls of
`Timer32BitExecute` and not during the third, in which only the callback of B is
invoked. -/
theorem scenario_first_call :
    (AppendTimer32Bit 2 (scenarioA 1) tTIMER_32BIT_CTL_DEFAULTS).2 = 0 ∧
    (AppendTimer32Bit 2 (scenarioB 2)
      (AppendTimer32Bit 2 (scenarioA 1) tTIMER_32BIT_CTL_DEFAULTS).1).2 = 1 ∧
    (scenarioA 1).ui32TimerVal = tTIMERVAR32_DEFAULTS.ui32TimerVal ∧
    callLog 2 (scenarioPool (scenarioA 1) 2) 1 = [(0, 1)] ∧
    callLog 2 (scenarioPool (scenarioA 1) 2) 2 = [] ∧
    callLog 2 (scenarioPool (scenarioA 1) 2) 3 = [(1, 2)] := by
  decide


/-- C12 as stated fails. In `downCbPool` index 0 is an allocated, periodic down-counter
with reset value 3 and a bound callback; after `Timer32BitSetValue downCbPool 0 true 2` the
callback is invoked during call 2, not during call 4 although 2 divides 4, and during
call 5 although 2 does not divide 5. In `downPool`, where the callback is `NULL`, after
`Timer32BitSetValue downPool 0 true 3` no callback is invoked during call 3 although the
reset value is 3 as well. -/
theorem rearm_stale_target :
    (ActiveCountInv MAX_TIMER_NUMBER downCbPool ∧
     downCbPool.ui32FreeIndices.testBit 0 = false ∧
     (downCbPool.sTimerStruct 0).bOneShot = false ∧
     (downCbPool.sTimerStruct 0).bUpCounter = false ∧
     (downCbPool.sTimerStruct 0).ui32ResetValue = 3 ∧
     callLog MAX_TIMER_NUMBER (Timer32BitSetValue downCbPool 0 true 2) 2 = [(0, 7)] ∧
     callLog MAX_TIMER_NUMBER (Timer32BitSetValue downCbPool 0 true 2) 4 = [] ∧ 2 ∣ 4 ∧
     callLog MAX_TIMER_NUMBER (Timer32BitSetValue downCbPool 0 true 2) 5 = [(0, 7)] ∧
     ¬ 2 ∣ 5) ∧
    (ActiveCountInv MAX_TIMER_NUMBER downPool ∧
     downPool.ui32FreeIndices.testBit 0 = false ∧
     (downPool.sTimerStruct 0).bOneShot = false ∧
     (downPool.sTimerStruct 0).bUpCounter = false ∧
     (downPool.sTimerStruct 0).ui32ResetValue = 3 ∧
     (downPool.sTimerStruct 0).pfnTimer_cb = none ∧
     callLog MAX_TIMER_NUMBER (Timer32BitSetValue downPool 0 true 3) 3 = [] ∧ 3 ∣ 3) := by
  decide

/-- C12 amended, down-counter re-arm: for every allocated, periodic, down-counting slot `i`
with a bound callback `cb` and previously configured reset value `T`, and every `R ≥ 1`,
after `Timer32BitSetValue s i true R` on a pool that satisfies the ActiveCount invariant and
with only execute calls made afterwards, the callback of slot `i` is invoked (once) during
the `k`-th call exactly when `k ≥ R` and (`T = 0` or `T` divides `k - R`): the first expiry
is in call `R`, the later ones follow the reset value `T`. In particular, when `T = R` the
callback is invoked during the `k`-th call exactly when `R` divides `k`. -/
theorem rearm_period (N : Nat) (hN : N ≤ 32) (s : tTIMER_CTL_32BIT) (i R cb : Nat)
    (hinv : ActiveCountInv N s) (hi : i < N)
    (halloc : s.ui32FreeIndices.testBit i = false)
    (hper : (s.sTimerStruct i).bOneShot = false)
    (hdown : (s.sTimerStruct i).bUpCounter = false)
    (hcb : (s.sTimerStruct i).pfnTimer_cb = some cb)
    (hR : 1 ≤ R) (k : Nat) (hk : 1 ≤ k) :
    firedFor i (callLog N (Timer32BitSetValue s i true R) k)
      = (if R ≤ k ∧ ((s.sTimerStruct i).ui32ResetValue = 0
            ∨ (s.sTimerStruct i).ui32ResetValue ∣ k - R) then [(i, cb)] else []) ∧
    ((s.sTimerStruct i).ui32ResetValue = R →
      firedFor i (callLog N (Timer32BitSetValue s i true R) k)
        = if R ∣ k then [(i, cb)] else []) := by
  have hslot : (Timer32BitSetValue s i true R).sTimerStruct i
      = { s.sTimerStruct i with ui32TimerVal := R, bActive := true } := by
    rw [setValue_eq, setActive_slot_same, valueWritten_slot_same, if_neg (by rw [hdown]; simp)]
  have hinv1 := setValue_inv N hN s i true R hi halloc hinv
  have hbit1 : (Timer32BitSetValue s i true R).ui32FreeIndices.testBit i = false := by
    rw [setValue_eq, setActive_free]; exact halloc
  have hact1 : ((Timer32BitSetValue s i true R).sTimerStruct i).bActive = true := by
    rw [hslot]
  have hper1 : ((Timer32BitSetValue s i true R).sTimerStruct i).bOneShot = false := by
    rw [hslot]; exact hper
  have hdown1 : ((Timer32BitSetValue s i true R).sTimerStruct i).bUpCounter = false := by
    rw [hslot]; exact hdown
  have hcb1 : ((Timer32BitSetValue s i true R).sTimerStruct i).pfnTimer_cb = some cb := by
    rw [hslot]; exact hcb
  have htgt1 : ((Timer32BitSetValue s i true R).sTimerStruct i).ui32ResetValue
      = (s.sTimerStruct i).ui32ResetValue := by
    rw [hslot]
  have hcur1 : ((Timer32BitSetValue s i true R).sTimerStruct i).ui32TimerVal = R := by
    rw [hslot]
  have hmain : firedFor i (callLog N (Timer32BitSetValue s i true R) k)
      = (if R ≤ k ∧ ((s.sTimerStruct i).ui32ResetValue = 0
            ∨ (s.sTimerStruct i).ui32ResetValue ∣ k - R) then [(i, cb)] else []) := by
    by_cases hkR : k ≤ R
    · obtain ⟨n, rfl⟩ : ∃ n, k = n + 1 := ⟨k - 1, by omega⟩
      rw [countdown_fired N hN _ i R hinv1 hi hbit1 hact1 hper1 hdown1 hcur1 hR n (by omega),
        hcb1]
      by_cases h1 : n + 1 = R
      · have h2 : R ≤ n + 1 ∧ ((s.sTimerStruct i).ui32ResetValue = 0
            ∨ (s.sTimerStruct i).ui32ResetValue ∣ n + 1 - R) := by
          refine ⟨by omega, Or.inr ?_⟩
          have : n + 1 - R = 0 := by omega
          rw [this]
          exact Nat.dvd_zero _
        rw [if_pos h1, if_pos h2]
      · have h2 : ¬ (R ≤ n + 1 ∧ ((s.sTimerStruct i).ui32ResetValue = 0
            ∨ (s.sTimerStruct i).ui32ResetValue ∣ n + 1 - R)) := by
          rintro ⟨h3, -⟩
          omega
        rw [if_neg h1, if_neg h2]
    · obtain ⟨m, rfl⟩ : ∃ m, k = R + (m + 1) := ⟨k - R - 1, by omega⟩
      obtain ⟨hb, hs⟩ := countdown_state N hN _ i R hinv1 hi hbit1 hact1 hper1 hdown1 hcur1
        hR R (Nat.le_refl R)
      rw [if_neg (Nat.lt_irrefl R), htgt1] at hs
      have hinvR := executeN_inv N hN _ hinv1 R
      have hsub : R + (m + 1) - R = m + 1 := by omega
      rw [callLog_shift N _ R (m + 1) (by omega), hsub]
      by_cases hT : (s.sTimerStruct i).ui32ResetValue = 0
      · rw [degenerate_fired N hN _ i hinvR hi hb (by rw [hs]; exact hact1)
          (by rw [hs]; exact hper1) (by rw [hs]; exact htgt1.trans hT) (by rw [hs]; exact hT) m,
          hs]
        have h2 : R ≤ R + (m + 1) ∧ ((s.sTimerStruct i).ui32ResetValue = 0
            ∨ (s.sTimerStruct i).ui32ResetValue ∣ m + 1) := ⟨by omega, Or.inl hT⟩
        rw [if_pos h2]
        simp only
        rw [hcb1]
      · rw [phase_fired N hN _ i (s.sTimerStruct i).ui32ResetValue hinvR hi hb
          (by rw [hs]; exact hact1) (by rw [hs]; exact htgt1) (by omega)
          (by rw [hs]; simp only; rw [hdown1]; simp) m (Or.inl (by rw [hs]; exact hper1)), hs]
        simp only
        rw [hcb1]
        by_cases hd : (s.sTimerStruct i).ui32ResetValue ∣ m + 1
        · have h2 : R ≤ R + (m + 1) ∧ ((s.sTimerStruct i).ui32ResetValue = 0
              ∨ (s.sTimerStruct i).ui32ResetValue ∣ m + 1) := ⟨by omega, Or.inr hd⟩
          rw [if_pos hd, if_pos h2]
        · have h2 : ¬ (R ≤ R + (m + 1) ∧ ((s.sTimerStruct i).ui32ResetValue = 0
              ∨ (s.sTimerStruct i).ui32ResetValue ∣ m + 1)) := by
            rintro ⟨-, h3 | h3⟩
            · exact hT h3
            · exact hd h3
          rw [if_neg hd, if_neg h2]
  refine ⟨hmain, ?_⟩
  intro hTR
  rw [hmain, hTR]
  by_cases hd : R ∣ k
  · have hle := Nat.le_of_dvd (by omega) hd
    have h2 : R ≤ k ∧ (R = 0 ∨ R ∣ k - R) := ⟨hle, Or.inr (Nat.dvd_sub' hd (Nat.dvd_refl R))⟩
    rw [if_pos hd, if_pos h2]
  · have h2 : ¬ (R ≤ k ∧ (R = 0 ∨ R ∣ k - R)) := by
      rintro ⟨h3, h4 | h4⟩
      · omega
      · apply hd
        have e : k = (k - R) + R := by omega
        rw [e]
        exact Nat.dvd_add h4 (Nat.dvd_refl R)
    rw [if_neg hd, if_neg h2]

/-- Witness for the amended C12 on `downCbPool` (reset value 3) re-armed with 3, observed
during the sixth call. -/
theorem rearm_period_witness :
    MAX_TIMER_NUMBER ≤ 32 ∧ ActiveCountInv MAX_TIMER_NUMBER downCbPool ∧
    0 < MAX_TIMER_NUMBER ∧ downCbPool.ui32FreeIndices.testBit 0 = false ∧
    (downCbPool.sTimerStruct 0).bOneShot = false ∧
    (downCbPool.sTimerStruct 0).bUpCounter = false ∧
    (downCbPool.sTimerStruct 0).pfnTimer_cb = some 7 ∧ 1 ≤ 3 ∧ 1 ≤ 6 ∧
    (firedFor 0 (callLog MAX_TIMER_NUMBER (Timer32BitSetValue downCbPool 0 true 3) 6)
      = (if 3 ≤ 6 ∧ ((downCbPool.sTimerStruct 0).ui32ResetValue = 0
            ∨ (downCbPool.sTimerStruct 0).ui32ResetValue ∣ 6 - 3) then [(0, 7)] else []) ∧
    ((downCbPool.sTimerStruct 0).ui32ResetValue = 3 →
      firedFor 0 (callLog MAX_TIMER_NUMBER (Timer32BitSetValue downCbPool 0 true 3) 6)
        = if 3 ∣ 6 then [(0, 7)] else [])) :=
  ⟨by decide, by decide, by decide, by decide, by decide, by decide, by decide, by decide,
    by decide,
    rearm_period MAX_TIMER_NUMBER (by decide) downCbPool 0 3 7 (by decide) (by decide)
      (by decide) (by decide) (by decide) (by decide) (by decide) 6 (by decide)⟩

/-- C14 amended, scenario with capacity 2: from the start-up pool, the append of a
down-counter A with reset value 3, active, a bound callback and the counter armed at 3
returns 0; the append of an up-counter B with reset value 3, active and a bound callback
returns 1; over three calls of `Timer32BitExecute` the callbacks of A and B are each
invoked exactly once, both during the third call, A before B; a third append then returns
the sentinel -1. With the counter of A left at its default 0 the appends return the same
indices, the callback of A is invoked once, during the first call, that of B once, during
the third, and a third append returns -1 as well. -/
theorem capacity_two_scenario (cbA cbB : Nat) (conf : tTIMERVAR32) :
    ((AppendTimer32Bit 2 (scenarioArmedA cbA) tTIMER_32BIT_CTL_DEFAULTS).2 = 0 ∧
     (AppendTimer32Bit 2 (scenarioB cbB)
       (AppendTimer32Bit 2 (scenarioArmedA cbA) tTIMER_32BIT_CTL_DEFAULTS).1).2 = 1 ∧
     callLog 2 (AppendTimer32Bit 2 (scenarioB cbB)
       (AppendTimer32Bit 2 (scenarioArmedA cbA) tTIMER_32BIT_CTL_DEFAULTS).1).1 1 = [] ∧
     callLog 2 (AppendTimer32Bit 2 (scenarioB cbB)
       (AppendTimer32Bit 2 (scenarioArmedA cbA) tTIMER_32BIT_CTL_DEFAULTS).1).1 2 = [] ∧
     callLog 2 (AppendTimer32Bit 2 (scenarioB cbB)
       (AppendTimer32Bit 2 (scenarioArmedA cbA) tTIMER_32BIT_CTL_DEFAULTS).1).1 3
         = [(0, cbA), (1, cbB)] ∧
     (AppendTimer32Bit 2 conf (executeN 2 3 (AppendTimer32Bit 2 (scenarioB cbB)
       (AppendTimer32Bit 2 (scenarioArmedA cbA) tTIMER_32BIT_CTL_DEFAULTS).1).1)).2 = -1) ∧
    ((AppendTimer32Bit 2 (scenarioA cbA) tTIMER_32BIT_CTL_DEFAULTS).2 = 0 ∧
     (AppendTimer32Bit 2 (scenarioB cbB)
       (AppendTimer32Bit 2 (scenarioA cbA) tTIMER_32BIT_CTL_DEFAULTS).1).2 = 1 ∧
     callLog 2 (AppendTimer32Bit 2 (scenarioB cbB)
       (AppendTimer32Bit 2 (scenarioA cbA) tTIMER_32BIT_CTL_DEFAULTS).1).1 1 = [(0, cbA)] ∧
     callLog 2 (AppendTimer32Bit 2 (scenarioB cbB)
       (AppendTimer32Bit 2 (scenarioA cbA) tTIMER_32BIT_CTL_DEFAULTS).1).1 2 = [] ∧
     callLog 2 (AppendTimer32Bit 2 (scenarioB cbB)
       (AppendTimer32Bit 2 (scenarioA cbA) tTIMER_32BIT_CTL_DEFAULTS).1).1 3 = [(1, cbB)] ∧
     (AppendTimer32Bit 2 conf (executeN 2 3 (AppendTimer32Bit 2 (scenarioB cbB)
       (AppendTimer32Bit 2 (scenarioA cbA) tTIMER_32BIT_CTL_DEFAULTS).1).1)).2 = -1) := by
  constructor
  · obtain ⟨h1, h2⟩ := scenario_appends (scenarioArmedA cbA) (scenarioB cbB)
    obtain ⟨hinv, hb0, hb1, hs0, hs1⟩ := scenario_pool (scenarioArmedA cbA) (scenarioB cbB)
    have hfst : (AppendTimer32Bit 2 (scenarioArmedA cbA) tTIMER_32BIT_CTL_DEFAULTS).1
        = appendInstall (scenarioArmedA cbA) tTIMER_32BIT_CTL_DEFAULTS 0 :=
      congrArg Prod.fst h1
    have hret1 : (AppendTimer32Bit 2 (scenarioArmedA cbA) tTIMER_32BIT_CTL_DEFAULTS).2 = 0 :=
      congrArg Prod.snd h1
    rw [hfst]
    have hsnd : (AppendTimer32Bit 2 (scenarioB cbB)
          (appendInstall (scenarioArmedA cbA) tTIMER_32BIT_CTL_DEFAULTS 0)).1
        = appendInstall (scenarioB cbB)
            (appendInstall (scenarioArmedA cbA) tTIMER_32BIT_CTL_DEFAULTS 0) 1 :=
      congrArg Prod.fst h2
    have hret2 : (AppendTimer32Bit 2 (scenarioB cbB)
          (appendInstall (scenarioArmedA cbA) tTIMER_32BIT_CTL_DEFAULTS 0)).2 = 1 :=
      congrArg Prod.snd h2
    rw [hsnd]
    exact ⟨hret1, hret2, scenario_armed _ cbA cbB conf hinv hb0 hb1 hs0 hs1⟩
  · obtain ⟨h1, h2⟩ := scenario_appends (scenarioA cbA) (scenarioB cbB)
    obtain ⟨hinv, hb0, hb1, hs0, hs1⟩ := scenario_pool (scenarioA cbA) (scenarioB cbB)
    have hfst : (AppendTimer32Bit 2 (scenarioA cbA) tTIMER_32BIT_CTL_DEFAULTS).1
        = appendInstall (scenarioA cbA) tTIMER_32BIT_CTL_DEFAULTS 0 :=
      congrArg Prod.fst h1
    have hret1 : (AppendTimer32Bit 2 (scenarioA cbA) tTIMER_32BIT_CTL_DEFAULTS).2 = 0 :=
      congrArg Prod.snd h1
    rw [hfst]
    have hsnd : (AppendTimer32Bit 2 (scenarioB cbB)
          (appendInstall (scenarioA cbA) tTIMER_32BIT_CTL_DEFAULTS 0)).1
        = appendInstall (scenarioB cbB)
            (appendInstall (scenarioA cbA) tTIMER_32BIT_CTL_DEFAULTS 0) 1 :=
      congrArg Prod.fst h2
    have hret2 : (AppendTimer32Bit 2 (scenarioB cbB)
          (appendInstall (scenarioA cbA) tTIMER_32BIT_CTL_DEFAULTS 0)).2 = 1 :=
      congrArg Prod.snd h2
    rw [hsnd]
    exact ⟨hret1, hret2, scenario_default _ cbA cbB conf hinv hb0 hb1 hs0 hs1⟩
end Timer32Bit
